import Mathlib

/-!
Shallow embedding of the psdtags codec (src/psdtags/psdtags.py).

Byte streams are lists of natural numbers (each < 256).  Python file
handles are modelled in front-consumption style: a reader takes the
remaining byte list and returns the parsed value together with the
unread suffix; `fh.seek` to a forward absolute position becomes a
`List.drop` from a recorded suffix.  Writers that use the
placeholder-then-patch size strategy (write a zero size field, write the
payload, seek back and patch) are modelled by building the payload bytes
first and concatenating, which is observationally the same for an
in-memory stream.  Machine integers are Nat/Int with explicit reductions
modulo 2^w; Python floats are carried as their IEEE-754 bit patterns.
-/

namespace Psdtags

/-- A byte string: list of byte values. -/
abbrev Bytes := List Nat

/-- All entries are valid byte values (< 256). -/
def validBytes (d : Bytes) : Bool := d.all (· < 256)

/-- Big-endian encoding of `v` into `w` bytes (struct.pack byte layout,
most significant byte first; value reduced mod 2^(8*w) like Python
values that passed struct range validation). -/
def natToBE : Nat → Nat → Bytes
  | 0, _ => []
  | w + 1, v => natToBE w (v / 256) ++ [v % 256]

/-- Big-endian decoding of a byte string into a natural number. -/
def beToNat (d : Bytes) : Nat := d.foldl (fun a b => a * 256 + b) 0

/-- Byte order selected by a PSD format variant. -/
inductive ByteOrder
  | be
  | le
deriving DecidableEq, Repr

/-- struct.pack of one unsigned integer field of width `w` bytes. -/
def packNat (bo : ByteOrder) (w : Nat) (v : Nat) : Bytes :=
  match bo with
  | .be => natToBE w v
  | .le => (natToBE w v).reverse

/-- struct.unpack of one unsigned integer field from exactly `d`. -/
def unpackNat (bo : ByteOrder) (d : Bytes) : Nat :=
  match bo with
  | .be => beToNat d
  | .le => beToNat d.reverse

/-- struct.pack of one signed two's-complement integer field of width `w`. -/
def packSInt (bo : ByteOrder) (w : Nat) (v : Int) : Bytes :=
  packNat bo w (v.emod (2 ^ (8 * w))).toNat

/-- struct.unpack of one signed two's-complement integer field. -/
def unpackSInt (bo : ByteOrder) (w : Nat) (d : Bytes) : Int :=
  let n := unpackNat bo d
  if n < 2 ^ (8 * w - 1) then (n : Int) else (n : Int) - 2 ^ (8 * w)

/-- fh.read(n): up to `n` bytes, short at end of stream, plus the rest. -/
def readAvail (n : Nat) (d : Bytes) : Bytes × Bytes := (d.take n, d.drop n)

/-- Read exactly `n` bytes or fail (struct.unpack of a short read raises). -/
def readExact (n : Nat) (d : Bytes) : Except String (Bytes × Bytes) :=
  if n ≤ d.length then .ok (d.take n, d.drop n)
  else .error "unpack requires more bytes"

/-- psdformat.read of one unsigned field of width `w`. -/
def readNat (bo : ByteOrder) (w : Nat) (d : Bytes) : Except String (Nat × Bytes) := do
  let (b, rest) ← readExact w d
  return (unpackNat bo b, rest)

/-- psdformat.read of one signed field of width `w`. -/
def readSInt (bo : ByteOrder) (w : Nat) (d : Bytes) : Except String (Int × Bytes) := do
  let (b, rest) ← readExact w d
  return (unpackSInt bo w b, rest)

/-- fh.read(1)[0]: first byte, IndexError at end of stream. -/
def readByte (d : Bytes) : Except String (Nat × Bytes) :=
  match d with
  | [] => .error "index out of range"
  | b :: rest => .ok (b, rest)

/-- ASCII bytes of a string literal (all table entries are ASCII). -/
def strBytes (s : String) : Bytes := s.toList.map Char.toNat

/-- PSD format variant (class PsdFormat). -/
inductive PsdFormat
  | BE32BIT
  | LE32BIT
  | BE64BIT
  | LE64BIT
deriving DecidableEq, Repr

/-- Enum value bytes; also used as the record signature on the wire. -/
def PsdFormat.value : PsdFormat → Bytes
  | .BE32BIT => strBytes "8BIM"
  | .LE32BIT => strBytes "MIB8"
  | .BE64BIT => strBytes "8B64"
  | .LE64BIT => strBytes "46B8"

/-- PsdFormat.byteorder. -/
def PsdFormat.byteorder : PsdFormat → ByteOrder
  | .BE32BIT | .BE64BIT => .be
  | .LE32BIT | .LE64BIT => .le

/-- PsdFormat.isb64. -/
def PsdFormat.isb64 : PsdFormat → Bool
  | .BE64BIT | .LE64BIT => true
  | .BE32BIT | .LE32BIT => false

/-- Byte width of PsdFormat.sizeformat (I for 32-bit, Q for 64-bit). -/
def PsdFormat.sizewidth (fv : PsdFormat) : Nat := if fv.isb64 then 8 else 4

/-- PsdFormat(...) enum construction from raw bytes (plain bytes enum:
only the exact member values are accepted). -/
def PsdFormat.ofBytes (d : Bytes) : Except String PsdFormat :=
  if d = PsdFormat.BE32BIT.value then .ok .BE32BIT
  else if d = PsdFormat.LE32BIT.value then .ok .LE32BIT
  else if d = PsdFormat.BE64BIT.value then .ok .BE64BIT
  else if d = PsdFormat.LE64BIT.value then .ok .LE64BIT
  else .error "is not a valid PsdFormat"

/-- Values of the PsdKey enum members. -/
def psdKeyValues : List Bytes :=
  ["?unk", "Alph", "anFX", "Anno", "artb", "artd", "abdd", "blwh", "clbl",
   "infx", "brit", "brst", "mixr", "blnc", "clrL", "cinf", "CgEd", "curv",
   "lrFX", "expA", "iOpa", "FXid", "FEid", "FMsk", "ffxi", "frgb", "GdFl",
   "grdm", "hue2", "hue ", "nvrt", "knko", "Layr", "Lr16", "Lr32", "lyid",
   "lmgm", "lnsr", "lyvr", "levl", "lnkD", "lnk2", "lnk3", "lnkE", "shmd",
   "lsdk", "lfx2", "patt", "Patt", "Pat2", "Pat3", "shpa", "PtFl", "phfl",
   "PxSc", "PxSD", "plLd", "PlLd", "post", "lspf", "fxrp", "Mtrn", "MTrn",
   "Mt16", "Mt32", "lsct", "selc", "lclr", "SoLd", "SoLE", "SoCo", "Txt2",
   "thrs", "tsly", "tySh", "TySh", "luni", "pths", "LMsk", "sn2P", "vmgm",
   "vmsk", "vsms", "vogk", "vstk", "vscg", "vibA"].map strBytes

/-- Values of the PsdBlendMode enum members. -/
def blendModeValues : List Bytes :=
  ["?unk", "pass", "norm", "diss", "dark", "mul ", "idiv", "lbrn", "dkCl",
   "lite", "scrn", "div ", "lddg", "lgCl", "over", "sLit", "hLit", "vLit",
   "lLit", "pLit", "hMix", "diff", "smud", "fsub", "fdiv", "hue ", "sat ",
   "colr", "lum "].map strBytes

/-- bytes considered whitespace by bytes.strip(). -/
def isSpaceByte (b : Nat) : Bool := b = 32 || (9 ≤ b && b ≤ 13)

/-- bytes.strip(). -/
def stripBytes (d : Bytes) : Bytes :=
  ((d.dropWhile isSpaceByte).reverse.dropWhile isSpaceByte).reverse

/-- ASCII alphanumeric test of one byte. -/
def isAlnumByte (b : Nat) : Bool :=
  (48 ≤ b && b ≤ 57) || (65 ≤ b && b ≤ 90) || (97 ≤ b && b ≤ 122)

/-- bytes.isalnum(). -/
def bytesIsAlnum (d : Bytes) : Bool := !d.isEmpty && d.all isAlnumByte

/-- A value of a 4-byte bytes enum (PsdKey / PsdBlendMode).  `known`
distinguishes real enum members from pseudo members created by
BytesEnumMeta for undefined alphanumeric keys; a pseudo member keeps the
mutated `_value_` bytes while its byte content (used by Python ==)
remains the UNKNOWN member content. -/
structure BEnumVal where
  value : Bytes
  known : Bool
deriving DecidableEq, Repr

/-- Byte content compared by Python == on enum members. -/
def BEnumVal.content (k : BEnumVal) : Bytes :=
  if k.known then k.value else strBytes "?unk"

/-- BytesEnumMeta.__call__: try the raw bytes, then the byte-reversed
("little endian") bytes, then create a pseudo member for an undefined
4-byte alphanumeric value (note the pseudo value keeps the reversed
bytes, since `args` was reassigned before the second attempt). -/
def parseBytesEnum (table : List Bytes) (raw : Bytes) : Except String BEnumVal :=
  if raw ∈ table then .ok ⟨raw, true⟩
  else if raw.reverse ∈ table then .ok ⟨raw.reverse, true⟩
  else if raw.reverse.length = 4 && bytesIsAlnum (stripBytes raw.reverse) then
    .ok ⟨raw.reverse, false⟩
  else .error "is not a valid enum value"

/-- PsdKey(...) construction. -/
def parsePsdKey (raw : Bytes) : Except String BEnumVal := parseBytesEnum psdKeyValues raw

/-- PsdBlendMode(...) construction. -/
def parseBlendMode (raw : Bytes) : Except String BEnumVal :=
  parseBytesEnum blendModeValues raw

/-- BytesEnum.tobytes: value bytes, reversed for little-endian output. -/
def BEnumVal.tobytes (k : BEnumVal) (bo : ByteOrder) : Bytes :=
  match bo with
  | .be => k.value
  | .le => k.value.reverse

/-- PSD_KEY_64BIT: keys whose size field is 8 bytes wide under 64-bit formats. -/
def psdKey64Bit : List Bytes :=
  ["Alph", "FMsk", "LMsk", "Layr", "Lr16", "Lr32", "Mtrn", "MTrn", "Mt16",
   "Mt32", "lnk2", "FXid", "FEid", "PxSD"].map strBytes

/-- Byte width of the size field of a record with key `k`
(PsdFormat.read_size / pack_size with a key argument). -/
def sizeFieldWidth (fv : PsdFormat) (k : BEnumVal) : Nat :=
  if fv.isb64 && (k.known && decide (k.value ∈ psdKey64Bit)) then fv.sizewidth else 4

/-- Keys mapped to PsdLayers in PSD_KEY_TYPE via PsdLayers.TYPES. -/
def psdLayersTypesKeys : List Bytes := ["Layr", "Lr16", "Lr32"].map strBytes

/-- All keys of the PSD_KEY_TYPE registry (source order). -/
def psdKeyTypeKeys : List Bytes :=
  ["clbl", "infx", "knko", "patt", "Mtrn", "MTrn", "Mt16", "Mt32", "expA",
   "FMsk", "lyid", "lyvr", "lspf", "sn2P", "Layr", "Lr16", "Lr32", "lnkE",
   "shmd", "Patt", "Pat2", "Pat3", "fxrp", "lsdk", "lsct", "lclr", "luni",
   "Txt2", "LMsk", "ffxi", "lmgm", "lnsr", "tsly", "vmgm"].map strBytes

/-- Registry keys mapped to PsdInteger. -/
def psdIntegerKeys : List Bytes := ["lyid", "lyvr", "lspf", "sn2P"].map strBytes

/-- Registry keys mapped to PsdWord. -/
def psdWordKeys : List Bytes := ["ffxi", "lmgm", "lnsr", "tsly", "vmgm"].map strBytes

/-- Registry keys mapped to PsdEmpty. -/
def psdEmptyKeys : List Bytes := ["patt", "Mtrn", "MTrn", "Mt16", "Mt32"].map strBytes

/-- (align - size % align) % align: pad bytes up to the next multiple. -/
def alignPad (align size : Nat) : Nat := (align - size % align) % align

/-- numpy dtype character of channel samples (PsdLayers.TYPES values:
B, H, f).  Other dtypes are unrepresentable in the model, so the
"data type not supported" checks of compress/decompress always pass. -/
inductive DType
  | B
  | H
  | f
deriving DecidableEq, Repr

/-- numpy itemsize. -/
def DType.itemsize : DType → Nat
  | .B => 1
  | .H => 2
  | .f => 4

/-- PsdLayers.TYPES: dtype selected by the layer-list key. -/
def psdLayersTypes (key : Bytes) : Option DType :=
  if key = strBytes "Layr" then some .B
  else if key = strBytes "Lr16" then some .H
  else if key = strBytes "Lr32" then some .f
  else none

/-- A 2-D numpy array of channel samples.  Elements are kept as
unsigned bit patterns (a float32 sample is its IEEE-754 pattern). -/
structure Plane where
  dtype : DType
  height : Nat
  width : Nat
  elems : List Nat
deriving DecidableEq, Repr

/-- numpy .size. -/
def Plane.size (p : Plane) : Nat := p.height * p.width

/-- Split `d` into `h` rows of `w` entries (row-major 2-D indexing). -/
def rowsOf (w : Nat) : Nat → List Nat → List (List Nat)
  | 0, _ => []
  | h + 1, d => d.take w :: rowsOf w h (d.drop w)

/-- ndarray.tobytes() of big-endian elements. -/
def elemsToBytes (isz : Nat) (elems : List Nat) : Bytes :=
  (elems.map (natToBE isz)).flatten

/-- numpy.frombuffer with a big-endian dtype (fuel-structured recursion;
fuel is the byte count, each step consumes at least one byte). -/
def bytesToElemsF (isz : Nat) : Nat → Bytes → List Nat
  | 0, _ => []
  | _ + 1, [] => []
  | fuel + 1, d => beToNat (d.take isz) :: bytesToElemsF isz fuel (d.drop isz)

/-- numpy.frombuffer with a big-endian dtype. -/
def bytesToElems (isz : Nat) (d : Bytes) : List Nat := bytesToElemsF isz d.length d

/-- Value of an IEEE-754 binary float with `ebits` exponent bits and
`mbits` mantissa bits, taken from the bit pattern `p`. -/
inductive FVal
  | nan
  | posInf
  | negInf
  | fin (q : ℚ)
deriving DecidableEq, Repr

/-- Decode an IEEE-754 bit pattern. -/
def fvalOf (ebits mbits p : Nat) : FVal :=
  let sign := p / 2 ^ (ebits + mbits) % 2
  let e := p / 2 ^ mbits % 2 ^ ebits
  let m := p % 2 ^ mbits
  let bias : Int := 2 ^ (ebits - 1) - 1
  if e = 2 ^ ebits - 1 then
    if m = 0 then (if sign = 1 then .negInf else .posInf) else .nan
  else
    let mag : ℚ :=
      if e = 0 then (m : ℚ) * (2 : ℚ) ^ (1 - bias - mbits)
      else ((2 ^ mbits + m : Nat) : ℚ) * (2 : ℚ) ^ ((e : Int) - bias - mbits)
    .fin (if sign = 1 then -mag else mag)

/-- IEEE comparison of two float values (NaN compares unequal to
everything, including itself; +0.0 equals -0.0). -/
def fvalEq : FVal → FVal → Bool
  | .nan, _ => false
  | _, .nan => false
  | a, b => decide (a = b)

/-- Numeric value of one sample, as compared by numpy ==. -/
def elemFVal (dt : DType) (p : Nat) : FVal :=
  match dt with
  | .B | .H => .fin (p : ℚ)
  | .f => fvalOf 8 23 p

/-- The float32 bit pattern is a NaN. -/
def isNaN32 (p : Nat) : Bool := p / 2 ^ 23 % 2 ^ 8 = 255 && p % 2 ^ 23 ≠ 0

/-- The float64 bit pattern is a NaN. -/
def isNaN64 (p : Nat) : Bool := p / 2 ^ 52 % 2 ^ 11 = 2047 && p % 2 ^ 52 ≠ 0

/-- numpy.array_equal on optional channel data (shape equality plus
elementwise ==; two absent arrays compare equal). -/
def arrayEqual : Option Plane → Option Plane → Bool
  | none, none => true
  | some p1, some p2 =>
    p1.height == p2.height && p1.width == p2.width &&
    p1.elems.length == p2.elems.length &&
    (p1.elems.zip p2.elems).all fun ab =>
      fvalEq (elemFVal p1.dtype ab.1) (elemFVal p2.dtype ab.2)
  | _, _ => false

/-- Modelled from the spec: the ZIP compression kind is a "generic
deflate/inflate of the raw byte stream" delegated to the external zlib
library, whose code is not part of this repository.  It is modelled as a
lossless, self-delimiting byte coding (length-prefixed); the theorems
rely only on losslessness, determinism and the error on truncation. -/
def zlibCompress (d : Bytes) : Bytes := natToBE 4 d.length ++ d

/-- Modelled from the spec: inverse of `zlibCompress` (zlib inflate);
trailing bytes are ignored as by zlib.decompress. -/
def zlibDecompress (d : Bytes) : Except String Bytes :=
  if 4 ≤ d.length then
    let n := beToNat (d.take 4)
    if n + 4 ≤ d.length then .ok ((d.drop 4).take n)
    else .error "incomplete or truncated stream"
  else .error "incomplete or truncated stream"

/-- Modelled from the spec: PackBits, "a simple run-length byte
compression scheme applied per scanline", is delegated to the external
imagecodecs library.  The modelled encoder emits literal chunks of at
most 128 bytes (a valid PackBits stream that never uses runs). -/
def packbitsEncodeF : Nat → Bytes → Bytes
  | 0, _ => []
  | _ + 1, [] => []
  | fuel + 1, d =>
    ((d.take 128).length - 1) :: ((d.take 128) ++ packbitsEncodeF fuel (d.drop 128))

/-- Modelled from the spec: PackBits encoding of one scanline. -/
def packbitsEncode (d : Bytes) : Bytes := packbitsEncodeF d.length d

/-- Modelled from the spec: full PackBits chunk decoding (header 0..127:
copy header+1 literal bytes; header 128: no-op; header 129..255: repeat
the next byte 257-header times). -/
def packbitsDecodeF : Nat → Bytes → Except String Bytes
  | _, [] => .ok []
  | 0, _ :: _ => .error "packbits decoder out of fuel"
  | fuel + 1, n :: rest =>
    if n ≤ 127 then
      if n + 1 ≤ rest.length then do
        let tail ← packbitsDecodeF fuel (rest.drop (n + 1))
        return rest.take (n + 1) ++ tail
      else .error "truncated packbits literal"
    else if n = 128 then packbitsDecodeF fuel rest
    else
      match rest with
      | [] => .error "truncated packbits run"
      | b :: rest2 => do
        let tail ← packbitsDecodeF fuel rest2
        return List.replicate (257 - n) b ++ tail

/-- Modelled from the spec: PackBits decoding of a byte stream. -/
def packbitsDecode (d : Bytes) : Except String Bytes := packbitsDecodeF d.length d

/-- Modelled from the spec: horizontal delta predictor (imagecodecs
delta_encode, axis -1): each element minus its predecessor, modulo the
element range `M`; the first element of a row is kept. -/
def deltaSeq (M : Nat) (prev : Nat) : List Nat → List Nat
  | [] => []
  | y :: ys => (((y : Int) - (prev : Int)).emod (M : Int)).toNat :: deltaSeq M y ys

/-- Modelled from the spec: delta-encode one row. -/
def deltaRowEncode (M : Nat) (row : List Nat) : List Nat :=
  match row with
  | [] => []
  | x :: xs => x :: deltaSeq M x xs

/-- Modelled from the spec: prefix-sum inverse of `deltaSeq`. -/
def undeltaSeq (M : Nat) (prev : Nat) : List Nat → List Nat
  | [] => []
  | y :: ys => (prev + y) % M :: undeltaSeq M ((prev + y) % M) ys

/-- Modelled from the spec: delta-decode one row. -/
def deltaRowDecode (M : Nat) (row : List Nat) : List Nat :=
  match row with
  | [] => []
  | x :: xs => x :: undeltaSeq M x xs

/-- Modelled from the spec: delta predictor over a 2-D array, row by row. -/
def deltaPlaneEncode (M w h : Nat) (elems : List Nat) : List Nat :=
  ((rowsOf w h elems).map (deltaRowEncode M)).flatten

/-- Modelled from the spec: inverse of `deltaPlaneEncode`. -/
def deltaPlaneDecode (M w h : Nat) (elems : List Nat) : List Nat :=
  ((rowsOf w h elems).map (deltaRowDecode M)).flatten

/-- Split a byte string into its four byte planes (byte-plane shuffle of
the floating-point predictor; sample width is 4 for float32). -/
def split4 : Bytes → Bytes × Bytes × Bytes × Bytes
  | a :: b :: c :: d :: rest =>
    let (p, q, r, s) := split4 rest
    (a :: p, b :: q, c :: r, d :: s)
  | _ => ([], [], [], [])

/-- Inverse byte-plane shuffle. -/
def join4 : Bytes → Bytes → Bytes → Bytes → Bytes
  | a :: p, b :: q, c :: r, d :: s => a :: b :: c :: d :: join4 p q r s
  | _, _, _, _ => []

/-- Modelled from the spec: the "floating-point byte-plane predictor"
(imagecodecs floatpred_encode) on one row: shuffle the big-endian sample
bytes into byte planes, then apply horizontal byte differencing. -/
def floatpredRowEncode (row : List Nat) : Bytes :=
  let rb := elemsToBytes 4 row
  let ps := split4 rb
  deltaRowEncode 256 (ps.1 ++ ps.2.1 ++ ps.2.2.1 ++ ps.2.2.2)

/-- Modelled from the spec: inverse of `floatpredRowEncode`. -/
def floatpredRowDecode (n : Nat) (d : Bytes) : List Nat :=
  let u := deltaRowDecode 256 d
  let p := u.take n
  let q := (u.drop n).take n
  let r := (u.drop (2 * n)).take n
  let s := (u.drop (3 * n)).take n
  bytesToElems 4 (join4 p q r s)

/-- Modelled from the spec: floating-point predictor over a 2-D array. -/
def floatpredPlaneEncode (w h : Nat) (elems : List Nat) : Bytes :=
  ((rowsOf w h elems).map floatpredRowEncode).flatten

/-- Modelled from the spec: inverse of `floatpredPlaneEncode`. -/
def floatpredPlaneDecode (w h : Nat) (d : Bytes) : List Nat :=
  ((rowsOf (4 * w) h d).map (floatpredRowDecode w)).flatten

/-- compress(data, compression, rlecountfmt): compressed big-endian
sample bytes.  `rbo` and `rw` are the byte order and count width of the
rlecountfmt struct format.  astype to the big-endian dtype keeps the
sample patterns, and the "data type not supported" check cannot fire
since `DType` has only the supported characters. -/
def compress (data : Plane) (compression : Int) (rbo : ByteOrder) (rw : Nat) :
    Except String Bytes :=
  let isz := data.dtype.itemsize
  if data.size = 0 then .ok []
  else if compression = 0 then .ok (elemsToBytes isz data.elems)
  else if compression = 2 then .ok (zlibCompress (elemsToBytes isz data.elems))
  else if compression = 3 then
    match data.dtype with
    | .f => .ok (zlibCompress (floatpredPlaneEncode data.width data.height data.elems))
    | _ => .ok (zlibCompress (elemsToBytes isz
        (deltaPlaneEncode (2 ^ (8 * isz)) data.width data.height data.elems)))
  else if compression = 1 then
    let lines := (rowsOf data.width data.height data.elems).map
      fun row => packbitsEncode (elemsToBytes isz row)
    let sizes := lines.map List.length
    if sizes.all (· < 2 ^ (8 * rw)) then
      .ok ((sizes.map (packNat rbo rw)).flatten ++ lines.flatten)
    else .error "struct argument out of range"
  else .error "unknown compression type"

/-- decompress(data, compression, shape, dtype, rlecountfmt): samples of
a channel plane from its on-wire bytes. -/
def decompress (d : Bytes) (compression : Int) (height width : Nat)
    (dt : DType) (rbo : ByteOrder) (rw : Nat) : Except String Plane :=
  let isz := dt.itemsize
  let usize := height * width * isz
  if usize = 0 then .ok ⟨dt, height, width, List.replicate (height * width) 0⟩
  else if compression = 0 then
    if d.length = usize then .ok ⟨dt, height, width, bytesToElems isz d⟩
    else .error "buffer size must match"
  else if compression = 2 then do
    let u ← zlibDecompress d
    if u.length = usize then .ok ⟨dt, height, width, bytesToElems isz u⟩
    else .error "buffer size must match"
  else if compression = 3 then do
    let u ← zlibDecompress d
    if u.length = usize then
      match dt with
      | .f => .ok ⟨dt, height, width, floatpredPlaneDecode width height u⟩
      | _ => .ok ⟨dt, height, width,
          deltaPlaneDecode (2 ^ (8 * isz)) width height (bytesToElems isz u)⟩
    else .error "buffer size must match"
  else if compression = 1 then do
    let u ← packbitsDecode (d.drop (height * rw))
    if u.length = usize then .ok ⟨dt, height, width, bytesToElems isz u⟩
    else .error "buffer size must match"
  else .error "unknown compression type"

/-- PsdRectangle named tuple. -/
structure PsdRectangle where
  top : Int
  left : Int
  bottom : Int
  right : Int
deriving DecidableEq, Repr

/-- PsdRectangle.shape as nonnegative numpy dimensions. -/
def PsdRectangle.shapeN (r : PsdRectangle) : Nat × Nat :=
  ((r.bottom - r.top).toNat, (r.right - r.left).toNat)

/-- PsdLayerMask dataclass.  Optional floats are IEEE-754 binary64 bit
patterns. -/
structure PsdLayerMask where
  default_color : Nat := 0
  rectangle : Option PsdRectangle := none
  flags : Nat := 0
  user_mask_density : Option Nat := none
  user_mask_feather : Option Nat := none
  vector_mask_density : Option Nat := none
  vector_mask_feather : Option Nat := none
  real_flags : Option Nat := none
  real_background : Option Nat := none
  real_rectangle : Option PsdRectangle := none
deriving DecidableEq, Repr

/-- PsdLayerMask.param_flags (PsdLayerMaskParameterFlag bits
USER_DENSITY 1, USER_FEATHER 2, VECTOR_DENSITY 4, VECTOR_FEATHER 8). -/
def PsdLayerMask.param_flags (m : PsdLayerMask) : Nat :=
  (if m.user_mask_density.isSome then 1 else 0) +
  (if m.user_mask_feather.isSome then 2 else 0) +
  (if m.vector_mask_density.isSome then 4 else 0) +
  (if m.vector_mask_feather.isSome then 8 else 0)

/-- PsdRectangle.__bool__: nonempty rectangle. -/
def PsdRectangle.nonempty (r : PsdRectangle) : Bool :=
  r.bottom - r.top > 0 && r.right - r.left > 0

/-- PsdLayerMask.shape (falls back to (0, 0) for an absent or empty
rectangle, via PsdRectangle.__bool__). -/
def PsdLayerMask.shapeN (m : PsdLayerMask) : Nat × Nat :=
  match m.rectangle with
  | some r => if r.nonempty then r.shapeN else (0, 0)
  | none => (0, 0)

/-- PsdChannel dataclass. -/
structure PsdChannel where
  channelid : Int
  compression : Int := 0
  data : Option Plane := none
  dataLength : Nat := 0
deriving DecidableEq, Repr

/-- PsdUserMask dataclass. -/
structure PsdUserMask where
  colorspace : Int := -1
  components : List Int := [0, 0, 0, 0]
  opacity : Nat := 0
  flag : Nat := 128
deriving DecidableEq, Repr

/-- Leaf structures of an info list as far as modelled: the typed leaf
decoders PsdInteger and PsdWord, PsdEmpty for zero-size records, and
PsdUnknown for preserved opaque records.  The remaining registered leaf
decoders (boolean, exposure, patterns, metadata, strings, ...) are
outside the model; the modelled readers fail on their keys instead of
guessing. -/
inductive PsdStruct
  | integer (key : BEnumVal) (value : Int)
  | word (key : BEnumVal) (value : Bytes)
  | empty (key : BEnumVal)
  | unknown (key : BEnumVal) (psdformat : PsdFormat) (value : Bytes)
deriving DecidableEq, Repr

/-- Key of a leaf structure. -/
def PsdStruct.key : PsdStruct → BEnumVal
  | .integer k _ => k
  | .word k _ => k
  | .empty k => k
  | .unknown k _ _ => k

/-- PsdLayer dataclass.  The name is kept as its macroman byte string. -/
structure PsdLayer where
  name : Bytes := []
  channels : List PsdChannel := []
  rectangle : PsdRectangle := ⟨0, 0, 0, 0⟩
  mask : Option PsdLayerMask := none
  opacity : Nat := 255
  blendmode : BEnumVal := ⟨strBytes "norm", true⟩
  blending_ranges : List Int := []
  clipping : Nat := 0
  flags : Nat := 0
  info : List PsdStruct := []
deriving DecidableEq, Repr

/-- PsdLayer.shape. -/
def PsdLayer.shapeN (l : PsdLayer) : Nat × Nat :=
  if l.rectangle.nonempty then l.rectangle.shapeN else (0, 0)

/-- PsdLayers dataclass. -/
structure PsdLayers where
  key : BEnumVal
  layers : List PsdLayer := []
  has_transparency : Bool := false
deriving DecidableEq, Repr

/-- TiffImageSourceData dataclass. -/
structure TiffImageSourceData where
  psdformat : PsdFormat
  layers : PsdLayers
  usermask : PsdUserMask
  info : List PsdStruct := []
  name : Option Bytes := none
deriving DecidableEq, Repr

/-- The 36-byte ASCII signature of the ImageSourceData blob. -/
def tiffSignature : Bytes := strBytes "Adobe Photoshop Document Data Block" ++ [0]

/-- PsdChannel.__eq__: channel id and numpy.array_equal on the decoded
planes; compression and _data_length do not participate. -/
def eqChannel (a b : PsdChannel) : Bool :=
  a.channelid == b.channelid && arrayEqual a.data b.data

/-- Python == on optional IEEE binary64 fields (mask density/feather). -/
def eqOptFloat64 : Option Nat → Option Nat → Bool
  | none, none => true
  | some x, some y => fvalEq (fvalOf 11 52 x) (fvalOf 11 52 y)
  | _, _ => false

/-- PsdLayerMask generated dataclass __eq__ (all fields; float-valued
fields compare with IEEE semantics). -/
def eqMask (a b : PsdLayerMask) : Bool :=
  a.default_color == b.default_color && a.rectangle == b.rectangle &&
  a.flags == b.flags && a.user_mask_density == b.user_mask_density &&
  eqOptFloat64 a.user_mask_feather b.user_mask_feather &&
  a.vector_mask_density == b.vector_mask_density &&
  eqOptFloat64 a.vector_mask_feather b.vector_mask_feather &&
  a.real_flags == b.real_flags && a.real_background == b.real_background &&
  a.real_rectangle == b.real_rectangle

/-- self.mask == other.mask where either side may be None (None compares
unequal to any mask instance). -/
def eqOptMask : Option PsdLayerMask → Option PsdLayerMask → Bool
  | none, none => true
  | some a, some b => eqMask a b
  | _, _ => false

/-- Python == on leaf structures: generated dataclass equality for
PsdInteger/PsdWord/PsdEmpty, the custom PsdUnknown.__eq__ (psdformat is
ignored for values of at most one byte), False across classes.  Enum
members compare by byte content. -/
def eqStruct : PsdStruct → PsdStruct → Bool
  | .integer k1 v1, .integer k2 v2 => k1.content == k2.content && v1 == v2
  | .word k1 v1, .word k2 v2 => k1.content == k2.content && v1 == v2
  | .empty k1, .empty k2 => k1.content == k2.content
  | .unknown k1 f1 v1, .unknown k2 f2 v2 =>
    k1.content == k2.content && (decide (v1.length ≤ 1) || f1 == f2) && v1 == v2
  | _, _ => false

/-- Elementwise Python == of two lists (list equality requires equal
lengths and equal entries). -/
def eqListBy (f : α → α → Bool) (a b : List α) : Bool :=
  a.length == b.length && (a.zip b).all fun p => f p.1 p.2

/-- PsdLayer.__eq__: every field except the (advisory) name. -/
def eqLayer (a b : PsdLayer) : Bool :=
  a.rectangle == b.rectangle && a.opacity == b.opacity &&
  a.blendmode.content == b.blendmode.content &&
  a.blending_ranges == b.blending_ranges && a.clipping == b.clipping &&
  a.flags == b.flags && eqOptMask a.mask b.mask &&
  eqListBy eqStruct a.info b.info &&
  eqListBy eqChannel a.channels b.channels

/-- PsdLayers generated dataclass __eq__. -/
def eqLayersList (a b : PsdLayers) : Bool :=
  a.key.content == b.key.content &&
  eqListBy eqLayer a.layers b.layers &&
  a.has_transparency == b.has_transparency

/-- TiffImageSourceData.__eq__: layer list and info list only; the
psdformat, usermask and (advisory) display-name fields do not
participate. -/
def eqTiff (a b : TiffImageSourceData) : Bool :=
  eqListBy eqLayer a.layers.layers b.layers.layers &&
  a.layers.key.content == b.layers.key.content &&
  a.layers.has_transparency == b.layers.has_transparency &&
  eqListBy eqStruct a.info b.info

/-- PsdPascalString.read: one length byte, that many macroman bytes
(kept as raw bytes; macroman decoding is a byte-to-char bijection), then
skip to a multiple of `pad`. -/
def pascalStringRead (pad : Nat) (d : Bytes) : Except String (Bytes × Bytes) := do
  let (size, d1) ← readByte d
  if 255 < size then .error "invalid length of pascal string" else
  let (data, d2) := readAvail size d1
  if data.length ≠ size then .error "could not read enough data" else
  .ok (data, d2.drop (alignPad pad (size + 1)))

/-- PsdPascalString.write. -/
def pascalStringWrite (pad : Nat) (value : Bytes) : Bytes :=
  let v := value.take 255
  [v.length % 256] ++ v ++ List.replicate (alignPad pad (v.length + 1)) 0

/-- PsdLayerMask.read. -/
def PsdLayerMask.read (fv : PsdFormat) (d : Bytes) :
    Except String (PsdLayerMask × Bytes) := do
  let bo := fv.byteorder
  let (size, d) ← readNat bo 4 d
  if size = 0 then .ok ({}, d) else do
  let (top, d) ← readSInt bo 4 d
  let (left, d) ← readSInt bo 4 d
  let (bottom, d) ← readSInt bo 4 d
  let (right, d) ← readSInt bo 4 d
  let (dc, d) ← readByte d
  let (flags, d) ← readByte d
  let (params, d) ←
    if flags.testBit 3 then do
      let (pf, d) ← readByte d
      let (umd, d) ← if pf.testBit 0 then do
          let (v, d) ← readByte d
          pure (some v, d)
        else pure (none, d)
      let (umf, d) ← if pf.testBit 1 then do
          let (v, d) ← readNat bo 8 d
          pure (some v, d)
        else pure (none, d)
      let (vmd, d) ← if pf.testBit 2 then do
          let (v, d) ← readByte d
          pure (some v, d)
        else pure (none, d)
      let (vmf, d) ← if pf.testBit 3 then do
          let (v, d) ← readNat bo 8 d
          pure (some v, d)
        else pure (none, d)
      pure ((umd, umf, vmd, vmf), d)
    else pure ((none, none, none, none), d)
  let (real, d) ←
    if size = 20 then pure ((none, none, none), d.drop 2)
    else do
      let (rf, d) ← readByte d
      let (rb, d) ← readByte d
      let (rt, d) ← readSInt bo 4 d
      let (rl, d) ← readSInt bo 4 d
      let (rbt, d) ← readSInt bo 4 d
      let (rr, d) ← readSInt bo 4 d
      pure ((some rf, some rb, some (⟨rt, rl, rbt, rr⟩ : PsdRectangle)), d)
  .ok ({ rectangle := some ⟨top, left, bottom, right⟩,
         default_color := dc, flags := flags,
         user_mask_density := params.1, user_mask_feather := params.2.1,
         vector_mask_density := params.2.2.1, vector_mask_feather := params.2.2.2,
         real_flags := real.1, real_background := real.2.1,
         real_rectangle := real.2.2 }, d)

/-- Bytes of a rectangle as written by pack with four signed ints. -/
def packRect (bo : ByteOrder) (r : PsdRectangle) : Bytes :=
  packSInt bo 4 r.top ++ packSInt bo 4 r.left ++
  packSInt bo 4 r.bottom ++ packSInt bo 4 r.right

/-- PsdLayerMask.tobytes.  The assert statements on the real-mask fields
become errors. -/
def PsdLayerMask.tobytes (m : PsdLayerMask) (fv : PsdFormat) : Except String Bytes := do
  let bo := fv.byteorder
  match m.rectangle with
  | none => .ok (packNat bo 4 0)
  | some rect =>
    let pf := m.param_flags
    let flags := if pf ≠ 0 then m.flags ||| 8 else m.flags
    let base := packRect bo rect ++
      [if m.default_color ≠ 0 then 255 else 0] ++ [flags % 256]
    if pf ≠ 0 then
      let params := [pf % 256] ++
        (match m.user_mask_density with | some v => [v % 256] | none => []) ++
        (match m.user_mask_feather with | some v => packNat bo 8 v | none => []) ++
        (match m.vector_mask_density with | some v => [v % 256] | none => []) ++
        (match m.vector_mask_feather with | some v => packNat bo 8 v | none => [])
      match m.real_flags, m.real_background, m.real_rectangle with
      | some rf, some rb, some rr =>
        let data := base ++ params ++ [rf % 256] ++ [rb % 256] ++ packRect bo rr
        .ok (packNat bo 4 data.length ++ data)
      | _, _, _ => .error "assert real mask field is not None"
    else
      .ok (packNat bo 4 (base ++ [0, 0]).length ++ (base ++ [0, 0]))

/-- PsdUserMask.read. -/
def PsdUserMask.read (fv : PsdFormat) (d : Bytes) :
    Except String (PsdUserMask × Bytes) := do
  let bo := fv.byteorder
  let (cs, d) ← readSInt bo 2 d
  let rdComp : Bytes → Except String (Int × Bytes) := fun dd =>
    if cs = 7 then readSInt bo 2 dd
    else do
      let (v, dd) ← readNat bo 2 dd
      pure ((v : Int), dd)
  let (c1, d) ← rdComp d
  let (c2, d) ← rdComp d
  let (c3, d) ← rdComp d
  let (c4, d) ← rdComp d
  let (op, d) ← readNat bo 2 d
  let (flag, d) ← readByte d
  .ok ({ colorspace := cs, components := [c1, c2, c3, c4],
         opacity := op, flag := flag }, d)

/-- PsdUserMask.tobytes. -/
def PsdUserMask.tobytes (u : PsdUserMask) (fv : PsdFormat) : Bytes :=
  let bo := fv.byteorder
  packSInt bo 2 u.colorspace ++
  (u.components.map fun c =>
    if u.colorspace = 7 then packSInt bo 2 c else packNat bo 2 c.toNat).flatten ++
  packNat bo 2 u.opacity ++ [u.flag % 256] ++ [0]

/-- Width of the RLE per-scanline count field (rlecountfmt: I under the
64-bit variants, H under the 32-bit variants). -/
def rleCountWidth (fv : PsdFormat) : Nat := if fv.isb64 then 4 else 2

/-- PsdChannel.read: channel id (signed 16-bit, must be a PsdChannelId
member since the enum has no _missing_) and the image-data byte count
(size field of width sizeformat). -/
def PsdChannel.read (fv : PsdFormat) (d : Bytes) :
    Except String (PsdChannel × Bytes) := do
  let bo := fv.byteorder
  let (cid, d) ← readSInt bo 2 d
  if cid < -3 ∨ 9 < cid then .error "is not a valid PsdChannelId" else
  let (dl, d) ← readNat bo fv.sizewidth d
  .ok ({ channelid := cid, dataLength := dl }, d)

/-- PsdChannel.read_image: 2-byte compression code (PsdCompressionType
keeps undefined codes via _missing_), then `_data_length - 2` bytes of
compressed data (all remaining bytes when that count is negative, as
fh.read of a negative count), decompressed with the given shape. -/
def PsdChannel.read_image (fv : PsdFormat) (shape : Nat × Nat) (dt : DType)
    (c : PsdChannel) (d : Bytes) : Except String (PsdChannel × Bytes) := do
  if c.data.isSome then .error "RuntimeError" else
  let (comp, d) ← readNat fv.byteorder 2 d
  let (raw, d) := if c.dataLength < 2 then (d, ([] : Bytes))
    else readAvail (c.dataLength - 2) d
  let plane ← decompress raw (comp : Int) shape.1 shape.2 dt fv.byteorder (rleCountWidth fv)
  .ok ({ c with compression := (comp : Int), data := some plane }, d)

/-- PsdChannel.tobytes: channel info record and channel image data
record (compression code plus compressed samples). -/
def PsdChannel.tobytes (fv : PsdFormat) (compression : Option Int)
    (c : PsdChannel) : Except String (Bytes × Bytes) := do
  match c.data with
  | none => .error "data is None"
  | some data =>
    let comp := compression.getD c.compression
    let body ← compress data comp fv.byteorder (rleCountWidth fv)
    let imageData := packNat fv.byteorder 2 (comp.emod 65536).toNat ++ body
    let info := packSInt fv.byteorder 2 c.channelid ++
      packNat fv.byteorder fv.sizewidth imageData.length
    .ok (info, imageData)

/-- Loop of PsdChannel.read calls in PsdLayer.read. -/
def readChannelHeaders (fv : PsdFormat) : Nat → Bytes →
    Except String (List PsdChannel × Bytes)
  | 0, d => .ok ([], d)
  | n + 1, d => do
    let (c, d) ← PsdChannel.read fv d
    let (cs, d) ← readChannelHeaders fv n d
    .ok (c :: cs, d)

/-- psdformat.read of n consecutive signed 32-bit integers. -/
def readSIntList (bo : ByteOrder) : Nat → Bytes → Except String (List Int × Bytes)
  | 0, d => .ok ([], d)
  | n + 1, d => do
    let (v, d) ← readSInt bo 4 d
    let (vs, d) ← readSIntList bo n d
    .ok (v :: vs, d)

/-- Structure dispatch of read_psdtags (source dispatch on size,
PSD_KEY_TYPE and the preserve-unknown flag).  Registered decoders
outside the modelled subset are not guessed: reading their keys fails.
Returns none when an unregistered key is dropped (unknown=False). -/
def dispatchStruct (fv : PsdFormat) (unknown : Bool) (key : BEnumVal)
    (size : Nat) (payload : Bytes) : Except String (Option PsdStruct) :=
  if size = 0 then .ok (some (.empty key))
  else if key.content ∈ psdKeyTypeKeys then
    if key.content ∈ psdIntegerKeys then do
      let (v, _) ← readSInt fv.byteorder 4 payload
      .ok (some (.integer key v))
    else if key.content ∈ psdWordKeys then
      .ok (some (.word key (readAvail 4 payload).1))
    else if key.content ∈ psdEmptyKeys then
      .error "assert length equals 0"
    else .error "registered structure type not modelled"
  else if unknown then .ok (some (.unknown key fv (payload.take size)))
  else .ok none

/-- Type of the record dispatch performed by the read_psdtags loop body
(registry lookup plus decoder invocation). -/
abbrev Dispatch :=
  PsdFormat → Bool → BEnumVal → Nat → Bytes → Except String (Option PsdStruct)

/-- read_psdtags loop, generic in the dispatch function (the source
consults the read-only PSD_KEY_TYPE registry; the position discipline of
the loop does not depend on the dispatched decoder).  Fuel-structured:
every iteration consumes at least twelve bytes, so fuel bounded by the
stream length suffices.  `rem` is `end - fh.tell()`. -/
def readPsdtagsG (dispatch : Dispatch) (fv : PsdFormat) (unknown : Bool)
    (align : Nat) : Nat → Int → Bytes → Except String (List PsdStruct × Bytes)
  | 0, _, _ => .error "reader out of fuel"
  | fuel + 1, rem, d =>
    if rem ≤ 0 then .ok ([], d)
    else
      let (sig, d1) := readAvail 4 d
      if sig ≠ fv.value then .ok ([], d1)
      else do
        let key ← parsePsdKey (readAvail 4 d1).1
        let d2 := (readAvail 4 d1).2
        let szw := sizeFieldWidth fv key
        let (size, d3) ← readNat fv.byteorder szw d2
        let tag? ← dispatch fv unknown key size d3
        let skip := size + alignPad align size
        let (tail, dEnd) ←
          readPsdtagsG dispatch fv unknown align fuel (rem - (8 + szw + skip : Nat)) (d3.drop skip)
        .ok ((match tag? with | some t => t :: tail | none => tail), dEnd)

/-- read_psdtags. -/
def read_psdtags (fv : PsdFormat) (unknown : Bool) (align : Nat)
    (length : Int) (d : Bytes) : Except String (List PsdStruct × Bytes) :=
  readPsdtagsG dispatchStruct fv unknown align (d.length + 1) length d

/-- PsdLayer.read. -/
def PsdLayer.read (fv : PsdFormat) (unknown : Bool) (d : Bytes) :
    Except String (PsdLayer × Bytes) := do
  let bo := fv.byteorder
  let (top, d) ← readSInt bo 4 d
  let (left, d) ← readSInt bo 4 d
  let (bottom, d) ← readSInt bo 4 d
  let (right, d) ← readSInt bo 4 d
  let (count, d) ← readNat bo 2 d
  let (channels, d) ← readChannelHeaders fv count d
  let (sig4, d) := readAvail 4 d
  if sig4 ≠ strBytes "8BIM" ∧ sig4 ≠ strBytes "MIB8" then
    .error "assert blend mode signature" else do
  let bm ← parseBlendMode (readAvail 4 d).1
  let d := (readAvail 4 d).2
  let (opacity, d) ← readByte d
  let (clipping, d) ← readByte d
  if 1 < clipping then .error "is not a valid PsdClippingType" else do
  let (flags, d) ← readByte d
  let (filler, d) ← readByte d
  if filler ≠ 0 then .error "assert filler is zero" else do
  let (extra, dx) ← readNat bo 4 d
  let dEnd := dx.drop extra
  let (mask, d1) ← PsdLayerMask.read fv dx
  let (nbytes, d2) ← readNat bo 4 d1
  if nbytes % 4 ≠ 0 then .error "assert blending ranges size" else do
  let (ranges, d3) ← readSIntList bo (nbytes / 4) d2
  let (name, d4) ← pascalStringRead 4 d3
  let (info, _) ← read_psdtags fv unknown 2 ((extra : Int) - (dx.length - d4.length : Nat)) d4
  .ok ({ name := name, channels := channels,
         rectangle := ⟨top, left, bottom, right⟩, mask := some mask,
         opacity := opacity, blendmode := bm, blending_ranges := ranges,
         clipping := clipping, flags := flags, info := info }, dEnd)

/-- Loop of PsdLayer.read calls in PsdLayers.read. -/
def readLayerRecords (fv : PsdFormat) (unknown : Bool) : Nat → Bytes →
    Except String (List PsdLayer × Bytes)
  | 0, d => .ok ([], d)
  | n + 1, d => do
    let (l, d) ← PsdLayer.read fv unknown d
    let (ls, d) ← readLayerRecords fv unknown n d
    .ok (l :: ls, d)

/-- Shape selected for one channel image: the mask shape for mask
channel ids (below -1) when the layer has a mask, else the layer shape. -/
def channelShape (l : PsdLayer) (c : PsdChannel) : Nat × Nat :=
  match l.mask with
  | some m => if c.channelid < -1 then m.shapeN else l.shapeN
  | none => l.shapeN

/-- Channel image data loop of PsdLayers.read: per layer, per channel,
in record order. -/
def readChannelImagesLayer (fv : PsdFormat) (dt : DType) (l : PsdLayer) :
    List PsdChannel → Bytes → Except String (List PsdChannel × Bytes)
  | [], d => .ok ([], d)
  | c :: cs, d => do
    let (c2, d) ← PsdChannel.read_image fv (channelShape l c) dt c d
    let (cs2, d) ← readChannelImagesLayer fv dt l cs d
    .ok (c2 :: cs2, d)

/-- Channel image data loop over all layers. -/
def readChannelImages (fv : PsdFormat) (dt : DType) :
    List PsdLayer → Bytes → Except String (List PsdLayer × Bytes)
  | [], d => .ok ([], d)
  | l :: ls, d => do
    let (cs2, d) ← readChannelImagesLayer fv dt l l.channels d
    let (ls2, d) ← readChannelImages fv dt ls d
    .ok ({ l with channels := cs2 } :: ls2, d)

/-- PsdLayers.read: signed 16-bit count whose sign sets the
transparency flag, layer records, then all channel image data in the
same order; the dtype comes from PsdLayers.TYPES (KeyError for other
keys). -/
def PsdLayers.read (fv : PsdFormat) (key : BEnumVal) (unknown : Bool)
    (d : Bytes) : Except String (PsdLayers × Bytes) := do
  let bo := fv.byteorder
  let (count, d) ← readSInt bo 2 d
  let (layers, d) ← readLayerRecords fv unknown count.natAbs d
  match psdLayersTypes key.content with
  | none => .error "KeyError"
  | some dt => do
    let (layers2, d) ← readChannelImages fv dt layers d
    .ok ({ key := key, layers := layers2,
           has_transparency := decide (count < 0) }, d)

/-- State of the TiffImageSourceData.read record loop. -/
structure TopState where
  layers : Option PsdLayers := none
  usermask : Option PsdUserMask := none
  info : List PsdStruct := []
deriving Repr

/-- TiffImageSourceData.read record loop (source dispatch order: empty
record, first layer list, first user mask, registered decoder, preserved
unknown, silent skip).  A second layer-list record or a non-modelled
registered key makes the modelled reader fail instead of guessing.
Always seeks to the payload start plus the size aligned up to 4. -/
def topLoopF (fv : PsdFormat) (unknown : Bool) :
    Nat → TopState → Bytes → Except String (TopState × Bytes)
  | 0, _, _ => .error "reader out of fuel"
  | fuel + 1, st, d =>
    let (sig, d1) := readAvail 4 d
    if sig ≠ fv.value then .ok (st, d1)
    else do
      let key ← parsePsdKey (readAvail 4 d1).1
      let d2 := (readAvail 4 d1).2
      let szw := sizeFieldWidth fv key
      let (size, d3) ← readNat fv.byteorder szw d2
      let skip := size + alignPad 4 size
      let dNext := d3.drop skip
      if size = 0 then
        topLoopF fv unknown fuel { st with info := st.info ++ [.empty key] } dNext
      else if key.content ∈ psdLayersTypesKeys ∧ st.layers = none then do
        let (ls, _) ← PsdLayers.read fv key unknown d3
        topLoopF fv unknown fuel { st with layers := some ls } dNext
      else if key.content = strBytes "LMsk" ∧ st.usermask = none then do
        let (um, _) ← PsdUserMask.read fv d3
        topLoopF fv unknown fuel { st with usermask := some um } dNext
      else if key.content ∈ psdKeyTypeKeys then
        if key.content ∈ psdIntegerKeys then do
          let (v, _) ← readSInt fv.byteorder 4 d3
          topLoopF fv unknown fuel { st with info := st.info ++ [.integer key v] } dNext
        else if key.content ∈ psdWordKeys then
          topLoopF fv unknown fuel
            { st with info := st.info ++ [.word key (readAvail 4 d3).1] } dNext
        else .error "registered structure type not modelled"
      else if unknown then
        topLoopF fv unknown fuel
          { st with info := st.info ++ [.unknown key fv (d3.take size)] } dNext
      else
        topLoopF fv unknown fuel st dNext

/-- TiffImageSourceData.read.  Returns the instance together with the
log_warning diagnostics emitted for a missing layer list or user mask. -/
def TiffImageSourceData.read (unknown : Bool) (d : Bytes) :
    Except String (TiffImageSourceData × List String) := do
  let (sig, d) := readAvail tiffSignature.length d
  if sig ≠ tiffSignature then .error "invalid ImageResourceData" else
  let (fsig, _) := readAvail 4 d
  if fsig.length = 0 then
    .ok ({ psdformat := .BE32BIT, layers := { key := ⟨strBytes "Layr", true⟩ },
           usermask := {}, info := [], name := some (strBytes "BytesIO") }, [])
  else do
  let fv ← PsdFormat.ofBytes fsig
  -- fh.seek(-4, 1): the loop re-reads the signature bytes
  let (st, _) ← topLoopF fv unknown (d.length + 1) {} d
  let (layers, w1) :=
    match st.layers with
    | some ls => (ls, ([] : List String))
    | none => ({ key := ⟨strBytes "Layr", true⟩ }, ["contains no layers"])
  let (usermask, w2) :=
    match st.usermask with
    | some um => (um, ([] : List String))
    | none => (({} : PsdUserMask), ["contains no usermask"])
  .ok ({ psdformat := fv, layers := layers, usermask := usermask,
         info := st.info, name := some (strBytes "BytesIO") }, w1 ++ w2)

/-- TiffImageSourceData.frombytes. -/
def TiffImageSourceData.frombytes (unknown : Bool) (d : Bytes) :
    Except String (TiffImageSourceData × List String) :=
  TiffImageSourceData.read unknown d

/-- Tagged structures accepted by write_psdtags (the Python call sites
pass PsdLayers, PsdUserMask and leaf structures). -/
inductive PsdTag
  | layers (x : PsdLayers)
  | usermask (x : PsdUserMask)
  | leaf (x : PsdStruct)
deriving DecidableEq, Repr

/-- tag.key (PsdUserMask carries the class attribute USER_MASK). -/
def PsdTag.key : PsdTag → BEnumVal
  | .layers x => x.key
  | .usermask _ => ⟨strBytes "LMsk", true⟩
  | .leaf s => s.key

/-- struct pack of a '4s' field: zero-padded or truncated to 4 bytes. -/
def pack4s (b : Bytes) : Bytes := (b ++ List.replicate 4 0).take 4

/-- PsdLayer.write: the layer record is written to the stream and the
gathered channel image data bytes are returned for later emission.  The
extra-data size is patched in place in the source; here the extra region
is built first and concatenated after its length field.  The nested
write_psdtags call is passed as `writeTags` (it is tied after the
definition of write_psdtags below).
Result: (layer record, channel image data, nested write warnings). -/
def PsdLayer.write (fv : PsdFormat) (compression : Option Int) (unknown : Bool)
    (writeTags : List PsdStruct → Except String (Bytes × List String))
    (l : PsdLayer) : Except String (Bytes × Bytes × List String) := do
  let bo := fv.byteorder
  let chs ← l.channels.mapM (PsdChannel.tobytes fv compression)
  let maskB ← match l.mask with
    | none => pure (packNat bo 4 0)
    | some m => do
      let b ← m.tobytes fv
      if b.length = 4 ∨ b.length = 24 ∨ b.length = 40 then pure b
      else throw "assert mask record size"
  let blendB := packNat bo 4 (l.blending_ranges.length * 4) ++
    (l.blending_ranges.map (packSInt bo 4)).flatten
  let nameB := pascalStringWrite 4 l.name
  let (infoB, ws) ← writeTags l.info
  let extra := maskB ++ blendB ++ nameB ++ infoB
  let blendSig := match bo with
    | .be => strBytes "8BIM"
    | .le => (strBytes "8BIM").reverse
  let record := packRect bo l.rectangle ++ packNat bo 2 l.channels.length ++
    (chs.map Prod.fst).flatten ++ blendSig ++
    pack4s (l.blendmode.tobytes bo) ++
    [l.opacity % 256, l.clipping % 256, l.flags % 256, 0] ++
    packNat bo 4 extra.length ++ extra
  .ok (record, (chs.map Prod.snd).flatten, ws)

/-- One record as framed by write_psdtags: signature, key, size field
(patched after the payload is written; modelled by building the payload
first), payload, alignment padding. -/
def frameRecord (fv : PsdFormat) (align : Nat) (key : BEnumVal) (body : Bytes) : Bytes :=
  fv.value ++ key.tobytes fv.byteorder ++
  packNat fv.byteorder (sizeFieldWidth fv key) body.length ++
  body ++ List.replicate (alignPad align body.length) 0

/-- Payload written by a leaf structure (PsdInteger.write, PsdWord.write,
PsdEmpty.write, PsdUnknown.write with its ValueError). -/
def structBody (fv : PsdFormat) : PsdStruct → Except String Bytes
  | .integer _ v => .ok (packSInt fv.byteorder 4 v)
  | .word _ v => .ok v
  | .empty _ => .ok []
  | .unknown _ kf v =>
    if v.length ≤ 1 ∨ kf ≠ fv then .error "can not write opaque bytes"
    else .ok v

/-- write_psdtags over leaf structures (nested per-layer info lists):
unknown structures are dropped when unknown=False, skipped with a
log_warning diagnostic when their stored psdformat differs from the
active one, and written otherwise. -/
def writeStructTags (fv : PsdFormat) (unknown : Bool) (align : Nat) :
    List PsdStruct → Except String (Bytes × List String)
  | [] => .ok ([], [])
  | s :: rest =>
    match s with
    | .unknown _ kf v =>
      if !unknown then writeStructTags fv unknown align rest
      else if kf ≠ fv then do
        let (b, ws) ← writeStructTags fv unknown align rest
        .ok (b, "PsdUnknown not written" :: ws)
      else do
        let body ← structBody fv (.unknown s.key kf v)
        let (b, ws) ← writeStructTags fv unknown align rest
        .ok (frameRecord fv align s.key body ++ b, ws)
    | _ => do
      let body ← structBody fv s
      let (b, ws) ← writeStructTags fv unknown align rest
      .ok (frameRecord fv align s.key body ++ b, ws)

/-- PsdLayer.write with the nested write_psdtags call tied in. -/
def PsdLayer.writeFull (fv : PsdFormat) (compression : Option Int)
    (unknown : Bool) (l : PsdLayer) : Except String (Bytes × Bytes × List String) :=
  PsdLayer.write fv compression unknown (writeStructTags fv unknown 2) l

/-- PsdLayers.write / PsdLayers.tobytes: the signed count (negated for
the transparency flag), the layer records, the gathered channel image
data in layer order, padded to even length. -/
def PsdLayers.tobytes (fv : PsdFormat) (compression : Option Int)
    (unknown : Bool) (x : PsdLayers) : Except String (Bytes × List String) := do
  let bo := fv.byteorder
  let res ← x.layers.mapM (PsdLayer.writeFull fv compression unknown)
  let body := packSInt bo 2 ((if x.has_transparency then -1 else 1) * x.layers.length) ++
    (res.map (·.1)).flatten ++ (res.map (·.2.1)).flatten
  .ok (if body.length % 2 = 1 then body ++ [0] else body,
       (res.map (·.2.2)).flatten)

/-- write_psdtags over the top-level tag sequence. -/
def write_psdtags (fv : PsdFormat) (compression : Option Int) (unknown : Bool)
    (align : Nat) : List PsdTag → Except String (Bytes × List String)
  | [] => .ok ([], [])
  | .leaf s :: rest => do
    let (b1, ws1) ← writeStructTags fv unknown align [s]
    let (b2, ws2) ← write_psdtags fv compression unknown align rest
    .ok (b1 ++ b2, ws1 ++ ws2)
  | .layers x :: rest => do
    let (body, ws1) ← PsdLayers.tobytes fv compression unknown x
    let (b2, ws2) ← write_psdtags fv compression unknown align rest
    .ok (frameRecord fv align x.key body ++ b2, ws1 ++ ws2)
  | .usermask u :: rest => do
    let (b2, ws2) ← write_psdtags fv compression unknown align rest
    .ok (frameRecord fv align ⟨strBytes "LMsk", true⟩ (PsdUserMask.tobytes u fv) ++ b2, ws2)

/-- TiffImageSourceData.tobytes: the ASCII signature followed by the
record sequence (layer list, user mask, then the info structures). -/
def TiffImageSourceData.tobytes (t : TiffImageSourceData)
    (psdformat : Option PsdFormat) (compression : Option Int)
    (unknown : Bool) : Except String (Bytes × List String) := do
  let fv := psdformat.getD t.psdformat
  let (body, ws) ← write_psdtags fv compression unknown 4
    (.layers t.layers :: .usermask t.usermask :: t.info.map .leaf)
  .ok (tiffSignature ++ body, ws)


/-- The value fits a signed two's-complement field of `w` bytes. -/
def intInRange (w : Nat) (v : Int) : Bool :=
  decide (-(2 ^ (8 * w - 1)) ≤ v) && decide (v < 2 ^ (8 * w - 1))

/-- All rectangle coordinates fit their signed 32-bit fields. -/
def rectInRange (r : PsdRectangle) : Bool :=
  intInRange 4 r.top && intInRange 4 r.left &&
  intInRange 4 r.bottom && intInRange 4 r.right

/-- The key is a defined enum member (as every key produced by decoding
a canonically written stream is), and not the byte reversal of one (no
defined key is; checked per instance so the parse direction is
unambiguous). -/
def wfEnumKey (table : List Bytes) (k : BEnumVal) : Bool :=
  k.known && decide (k.value ∈ table) && decide (k.value.reverse ∉ table)

/-- Invariants of a decoded channel plane, plus size bounds keeping
every derived wire count inside its count field (per-scanline RLE
lengths must fit two bytes under the 32-bit formats). -/
def wfPlane (p : Plane) : Bool :=
  p.elems.length == p.height * p.width &&
  p.elems.all (· < 2 ^ (8 * p.dtype.itemsize)) &&
  (!(p.dtype == DType.f) || p.elems.all (fun e => !isNaN32 e)) &&
  decide (p.width * p.dtype.itemsize ≤ 2 ^ 14) && decide (p.height ≤ 2 ^ 14)

/-- Invariants of a decoded channel whose plane matches the shape the
reader will reconstruct for it. -/
def wfChannel (dt : DType) (shape : Nat × Nat) (c : PsdChannel) : Bool :=
  decide (-3 ≤ c.channelid) && decide (c.channelid ≤ 9) &&
  (match c.data with
   | some p => p.dtype == dt && p.height == shape.1 && p.width == shape.2 && wfPlane p
   | none => false)

/-- Mask invariants under which PsdLayer.write succeeds (its assert
admits only the empty and the 20-byte mask records, so no optional
parameter or real-mask fields) and re-decoding reproduces the fields
(default color is stored normalized to 0 or 255). -/
def wfMask (m : PsdLayerMask) : Bool :=
  m.user_mask_density == none && m.user_mask_feather == none &&
  m.vector_mask_density == none && m.vector_mask_feather == none &&
  m.real_flags == none && m.real_background == none &&
  m.real_rectangle == none &&
  m.flags < 256 && !(m.flags.testBit 3) &&
  (match m.rectangle with
   | some r => rectInRange r && (m.default_color == 0 || m.default_color == 255)
   | none => m.default_color == 0 && m.flags == 0)

/-- Invariants of a decoded leaf structure (unknowns carry the active
format and at least two bytes, and their keys are enum members outside
the registry, as produced by the reader). -/
def wfStruct (fv : PsdFormat) (s : PsdStruct) : Bool :=
  match s with
  | .integer k v =>
    wfEnumKey psdKeyValues k && decide (k.value ∈ psdIntegerKeys) && intInRange 4 v
  | .word k v =>
    wfEnumKey psdKeyValues k && decide (k.value ∈ psdWordKeys) &&
    v.length == 4 && validBytes v
  | .empty k => wfEnumKey psdKeyValues k
  | .unknown k kf v =>
    wfEnumKey psdKeyValues k && decide (k.value ∉ psdKeyTypeKeys) &&
    kf == fv && decide (2 ≤ v.length) && decide (v.length < 2 ^ 31) && validBytes v

/-- Invariants of a decoded layer. -/
def wfLayer (fv : PsdFormat) (dt : DType) (l : PsdLayer) : Bool :=
  rectInRange l.rectangle &&
  decide (l.channels.length < 2 ^ 16) &&
  l.channels.all (fun c => wfChannel dt (channelShape l c) c) &&
  (match l.mask with | some m => wfMask m | none => false) &&
  l.opacity < 256 && l.clipping < 2 && l.flags < 256 &&
  wfEnumKey blendModeValues l.blendmode &&
  decide (l.blending_ranges.length ≠ 1) &&
  decide (l.blending_ranges.length < 2 ^ 29) &&
  l.blending_ranges.all (intInRange 4) &&
  decide (l.name.length ≤ 255) && validBytes l.name &&
  l.info.all (wfStruct fv)

/-- Invariants of a decoded layer list. -/
def wfLayers (fv : PsdFormat) (x : PsdLayers) : Bool :=
  wfEnumKey psdKeyValues x.key &&
  decide (x.key.value ∈ psdLayersTypesKeys) &&
  decide (x.layers.length < 2 ^ 15) &&
  (!x.has_transparency || !x.layers.isEmpty) &&
  (match psdLayersTypes x.key.content with
   | some dt => x.layers.all (wfLayer fv dt)
   | none => false)

/-- Invariants established by decoding, together with the size bounds
without which the re-encoded stream would overflow a size field, stated
relative to the format `fv` and the compression override `k` used for
re-encoding. -/
def wfTiff (t : TiffImageSourceData) (fv : PsdFormat) (k : Int) : Bool :=
  wfLayers fv t.layers &&
  t.info.all (wfStruct fv) &&
  t.usermask.components.length == 4 &&
  decide (0 ≤ k) && decide (k ≤ 3) &&
  (match TiffImageSourceData.tobytes t (some fv) (some k) true with
   | .ok (b, _) => decide (b.length < 2 ^ 31)
   | .error _ => false)

/-- decode(encode(tree, V, K)) == tree under the library equality: the
round-trip property of the spec as a Boolean function. -/
def roundtripEq (t : TiffImageSourceData) (fv : PsdFormat) (k : Int) : Bool :=
  match TiffImageSourceData.tobytes t (some fv) (some k) true with
  | .ok (b, _) =>
    match TiffImageSourceData.frombytes true b with
    | .ok (t2, _) => eqTiff t2 t
    | .error _ => false
  | .error _ => false

/-- The empty default layer list substituted for a missing layer-list
structure. -/
def defaultLayers : PsdLayers := { key := ⟨strBytes "Layr", true⟩ }

/-- Decidable equality of Except results (for evaluating the codec on
concrete inputs). -/
instance instDecEqExcept {ε α : Type} [DecidableEq ε] [DecidableEq α] :
    DecidableEq (Except ε α)
  | .ok a, .ok b =>
    if h : a = b then .isTrue (by rw [h]) else .isFalse (by intro hc; cases hc; exact h rfl)
  | .error e, .error f =>
    if h : e = f then .isTrue (by rw [h]) else .isFalse (by intro hc; cases hc; exact h rfl)
  | .ok _, .error _ => .isFalse (by intro hc; cases hc)
  | .error _, .ok _ => .isFalse (by intro hc; cases hc)

/-! ## Theorems -/

theorem ebind_ok {ε α β : Type} (a : α) (f : α → Except ε β) :
    (Except.ok a >>= f) = f a := rfl

theorem ebind_err {ε α β : Type} (e : ε) (f : α → Except ε β) :
    ((Except.error e : Except ε α) >>= f) = .error e := rfl

theorem ebind_pure {ε α β : Type} (a : α) (f : α → Except ε β) :
    ((pure a : Except ε α) >>= f) = f a := rfl

theorem natToBE_length (w v : Nat) : (natToBE w v).length = w := by
  induction w generalizing v with
  | zero => rfl
  | succ w ih => simp [natToBE, ih]

theorem beToNat_append (d e : Bytes) :
    beToNat (d ++ e) = e.foldl (fun a b => a * 256 + b) (beToNat d) := by
  simp [beToNat, List.foldl_append]

theorem beToNat_natToBE (w v : Nat) : beToNat (natToBE w v) = v % 256 ^ w := by
  induction w generalizing v with
  | zero => simp [natToBE, beToNat, Nat.mod_one]
  | succ w ih =>
    rw [natToBE, beToNat_append, ih]
    simp only [List.foldl_cons, List.foldl_nil]
    rw [Nat.pow_succ, Nat.div_mod_eq_mod_mul_div, mul_comm (256 : Nat) (256 ^ w)]
    have h1 : v % 256 = v % (256 ^ w * 256) % 256 :=
      (Nat.mod_mod_of_dvd v ⟨256 ^ w, by ring⟩).symm
    rw [h1]
    generalize v % (256 ^ w * 256) = x
    omega

theorem validBytes_natToBE (w v : Nat) : validBytes (natToBE w v) = true := by
  induction w generalizing v with
  | zero => rfl
  | succ w ih =>
    simp only [natToBE, validBytes, List.all_append, List.all_cons, List.all_nil,
      Bool.and_eq_true, decide_eq_true_eq]
    refine ⟨?_, ?_, trivial⟩
    · exact ih (v / 256)
    · exact Nat.mod_lt _ (by norm_num)

theorem packNat_length (bo : ByteOrder) (w v : Nat) : (packNat bo w v).length = w := by
  cases bo <;> simp [packNat, natToBE_length]

theorem packSInt_length (bo : ByteOrder) (w : Nat) (v : Int) :
    (packSInt bo w v).length = w := packNat_length ..

theorem pow256_eq (w : Nat) : (256 : Nat) ^ w = 2 ^ (8 * w) := by
  rw [show (256 : Nat) = 2 ^ 8 by norm_num, ← pow_mul]

theorem unpackNat_packNat (bo : ByteOrder) (w v : Nat) :
    unpackNat bo (packNat bo w v) = v % 2 ^ (8 * w) := by
  cases bo <;>
    simp [packNat, unpackNat, beToNat_natToBE, List.reverse_reverse, pow256_eq]

theorem unpackSInt_packSInt (bo : ByteOrder) (w : Nat) (v : Int)
    (h1 : -(2 ^ (8 * w - 1)) ≤ v) (h2 : v < 2 ^ (8 * w - 1)) (hw : 0 < w) :
    unpackSInt bo w (packSInt bo w v) = v := by
  obtain ⟨n, hn⟩ : ∃ n, 8 * w = n + 1 := ⟨8 * w - 1, by omega⟩
  have hn1 : 8 * w - 1 = n := by omega
  rw [hn1] at h1 h2
  have hPpos : (0 : Int) < 2 ^ n := by positivity
  have hQpos : (0 : Int) < 2 ^ (n + 1) := by positivity
  have hQP : (2 : Int) ^ (n + 1) = 2 * 2 ^ n := by ring
  have hmod : v.emod (2 ^ (n + 1)) = if 0 ≤ v then v else v + 2 ^ (n + 1) := by
    split
    · next hv => exact Int.emod_eq_of_lt hv (by rw [hQP]; linarith)
    · next hv =>
      push_neg at hv
      have hself : (v + 2 ^ (n + 1) * 1).emod (2 ^ (n + 1)) = v.emod (2 ^ (n + 1)) :=
        Int.add_mul_emod_self_left v (2 ^ (n + 1)) 1
      rw [mul_one] at hself
      rw [← hself]
      exact Int.emod_eq_of_lt (by rw [hQP]; linarith) (by linarith)
  unfold unpackSInt packSInt
  rw [unpackNat_packNat, hn]
  simp only [Nat.add_sub_cancel]
  have hai : ((v.emod ((2 : Int) ^ (n + 1))).toNat : Int) = v.emod (2 ^ (n + 1)) :=
    Int.toNat_of_nonneg (Int.emod_nonneg v (ne_of_gt hQpos))
  have hcastQ : (((2 : Nat) ^ (n + 1) : Nat) : Int) = 2 ^ (n + 1) := by push_cast; rfl
  have hcastP : (((2 : Nat) ^ n : Nat) : Int) = 2 ^ n := by push_cast; rfl
  have haQ : (v.emod ((2 : Int) ^ (n + 1))).toNat < 2 ^ (n + 1) := by
    have := Int.emod_lt_of_pos v hQpos
    omega
  rw [Nat.mod_eq_of_lt haQ]
  by_cases hv : 0 ≤ v
  · rw [hmod, if_pos hv] at hai ⊢
    rw [if_pos (by omega)]
    omega
  · rw [hmod, if_neg hv] at hai ⊢
    rw [if_neg (by omega)]
    omega

theorem validBytes_append (d e : Bytes) :
    validBytes (d ++ e) = (validBytes d && validBytes e) := by
  simp [validBytes]

theorem validBytes_packNat (bo : ByteOrder) (w v : Nat) :
    validBytes (packNat bo w v) = true := by
  cases bo with
  | be => exact validBytes_natToBE w v
  | le =>
    have := validBytes_natToBE w v
    simp only [validBytes, List.all_eq_true] at *
    intro b hb
    exact this b (List.mem_reverse.mp hb)

theorem readExact_append (pre rest : Bytes) (n : Nat) (h : pre.length = n) :
    readExact n (pre ++ rest) = .ok (pre, rest) := by
  subst h
  simp [readExact, List.take_append, List.drop_append]

theorem readNat_append (bo : ByteOrder) (w v : Nat) (rest : Bytes) :
    readNat bo w (packNat bo w v ++ rest) = .ok (v % 2 ^ (8 * w), rest) := by
  rw [readNat, readExact_append _ _ _ (packNat_length bo w v)]
  simp [unpackNat_packNat]

theorem readSInt_append (bo : ByteOrder) (w : Nat) (v : Int) (rest : Bytes)
    (h1 : -(2 ^ (8 * w - 1)) ≤ v) (h2 : v < 2 ^ (8 * w - 1)) (hw : 0 < w) :
    readSInt bo w (packSInt bo w v ++ rest) = .ok (v, rest) := by
  rw [readSInt, readExact_append _ _ _ (packSInt_length bo w v)]
  simp [unpackSInt_packSInt bo w v h1 h2 hw]

/-- C10: In PsdPascalString.read the error branch for a string length
greater than 255 is unreachable for every input (the length is one byte,
hence at most 255), and the read succeeds on every stream with at least
length+1 bytes available. -/
theorem C10_pascal_string_read (pad : Nat) (d : Bytes) (hv : validBytes d = true) :
    pascalStringRead pad d ≠ .error "invalid length of pascal string" ∧
    (∀ b rest, d = b :: rest → b ≤ rest.length →
      ∃ v drest, pascalStringRead pad d = .ok (v, drest)) := by
  cases d with
  | nil =>
    refine ⟨?_, ?_⟩
    · intro h
      rw [show pascalStringRead pad [] = .error "index out of range" from rfl] at h
      exact absurd h (by decide)
    · intro b rest h
      exact absurd h (by simp)
  | cons b rest =>
    have hb : b ≤ 255 := by
      simp only [validBytes, List.all_cons, Bool.and_eq_true, decide_eq_true_eq] at hv
      omega
    have hred : pascalStringRead pad (b :: rest) =
        if rest.length < b then .error "could not read enough data"
        else .ok (rest.take b, (rest.drop b).drop (alignPad pad (b + 1))) := by
      simp only [pascalStringRead, readByte, ebind_ok, readAvail]
      rw [if_neg (by omega)]
      by_cases hlen : rest.length < b
      · rw [if_pos (by simp only [List.length_take, ne_eq]; omega), if_pos hlen]
      · rw [if_neg (by simp only [List.length_take, ne_eq]; omega), if_neg hlen]
    refine ⟨?_, ?_⟩
    · rw [hred]
      by_cases hlen : rest.length < b
      · rw [if_pos hlen]
        intro h
        exact absurd h (by decide)
      · rw [if_neg hlen]
        intro h
        exact Except.noConfusion h
    · intro b2 rest2 heq hle
      rw [List.cons.injEq] at heq
      obtain ⟨h1, h2⟩ := heq
      subst h1
      subst h2
      rw [hred, if_neg (by omega)]
      exact ⟨_, _, rfl⟩

/-- C10 witness: a concrete valid stream with enough bytes. -/
theorem C10_pascal_string_read_witness :
    validBytes [2, 65, 66, 67] = true ∧
    (pascalStringRead 4 [2, 65, 66, 67] ≠ .error "invalid length of pascal string" ∧
      ∃ v drest, pascalStringRead 4 [2, 65, 66, 67] = .ok (v, drest)) := by
  refine ⟨by decide, ?_⟩
  have h := C10_pascal_string_read 4 [2, 65, 66, 67] (by decide)
  exact ⟨h.1, h.2 2 [65, 66, 67] rfl (by decide)⟩

/-- C8: A blob that is exactly the 36-byte signature decodes to an
instance with format BE32BIT, an empty layer list and a default user
mask (and no diagnostics); any blob whose leading bytes differ from the
signature raises the ValueError. -/
theorem C8_signature_only_blob :
    TiffImageSourceData.frombytes true tiffSignature =
      .ok ({ psdformat := .BE32BIT, layers := defaultLayers, usermask := {},
             info := [], name := some (strBytes "BytesIO") }, []) ∧
    ∀ d : Bytes, d.take 36 ≠ tiffSignature →
      TiffImageSourceData.frombytes true d = .error "invalid ImageResourceData" := by
  constructor
  · decide
  · intro d hd
    have hlen : tiffSignature.length = 36 := by decide
    simp only [TiffImageSourceData.frombytes, TiffImageSourceData.read, readAvail, hlen]
    rw [if_pos hd]

/-- C8 witness: a concrete blob with a different leading byte. -/
theorem C8_signature_only_blob_witness :
    (([0] : Bytes).take 36 ≠ tiffSignature) ∧
    TiffImageSourceData.frombytes true [0] = .error "invalid ImageResourceData" :=
  ⟨by decide, (C8_signature_only_blob).2 [0] (by decide)⟩

/-- C9: for every PsdUnknown whose value has length 0 or 1, the
structure body writer (shared by PsdUnknown.tobytes and
PsdUnknown.write) raises even when the active format equals the stored
one, and write_psdtags propagates the failure instead of skipping the
structure with a diagnostic. -/
theorem C9_short_unknown_write_raises (k : BEnumVal) (kf : PsdFormat) (v : Bytes)
    (align : Nat) (rest : List PsdStruct) (h : v.length ≤ 1) :
    structBody kf (.unknown k kf v) = .error "can not write opaque bytes" ∧
    writeStructTags kf true align (.unknown k kf v :: rest) =
      .error "can not write opaque bytes" ∧
    write_psdtags kf none true align (.leaf (.unknown k kf v) :: rest.map .leaf) =
      .error "can not write opaque bytes" := by
  have h1 : structBody kf (.unknown k kf v) = .error "can not write opaque bytes" := by
    simp [structBody, h]
  have h2 : ∀ r : List PsdStruct, writeStructTags kf true align (.unknown k kf v :: r) =
      .error "can not write opaque bytes" := by
    intro r
    simp only [writeStructTags, Bool.not_true]
    rw [if_neg (by simp), if_neg (by simp)]
    rw [show PsdStruct.key (.unknown k kf v) = k from rfl, h1, ebind_err]
  refine ⟨h1, h2 rest, ?_⟩
  simp only [write_psdtags]
  rw [h2 [], ebind_err]

/-- C9 witness: a concrete one-byte opaque structure. -/
theorem C9_short_unknown_write_raises_witness :
    ([5] : Bytes).length ≤ 1 ∧
    structBody .BE32BIT (.unknown ⟨strBytes "Anno", true⟩ .BE32BIT [5]) =
      .error "can not write opaque bytes" ∧
    writeStructTags .BE32BIT true 4 [.unknown ⟨strBytes "Anno", true⟩ .BE32BIT [5]] =
      .error "can not write opaque bytes" ∧
    write_psdtags .BE32BIT none true 4 [.leaf (.unknown ⟨strBytes "Anno", true⟩ .BE32BIT [5])] =
      .error "can not write opaque bytes" := by
  have h := C9_short_unknown_write_raises ⟨strBytes "Anno", true⟩ .BE32BIT [5] 4 []
    (by decide)
  exact ⟨by decide, h.1, h.2.1, h.2.2⟩

theorem readAvail_append (pre rest : Bytes) (n : Nat) (h : pre.length = n) :
    readAvail n (pre ++ rest) = (pre, rest) := by
  subst h
  simp [readAvail, List.take_append, List.drop_append]

theorem psdKeyValues_length4 (v : Bytes) (h : v ∈ psdKeyValues) : v.length = 4 := by
  have hall : psdKeyValues.all (fun x => x.length = 4) = true := by decide
  rw [List.all_eq_true] at hall
  simpa using hall v h

theorem blendModeValues_length4 (v : Bytes) (h : v ∈ blendModeValues) : v.length = 4 := by
  have hall : blendModeValues.all (fun x => x.length = 4) = true := by decide
  rw [List.all_eq_true] at hall
  simpa using hall v h

theorem BEnumVal.tobytes_length (k : BEnumVal) (bo : ByteOrder) (n : Nat)
    (h : k.value.length = n) : (k.tobytes bo).length = n := by
  cases bo <;> simp [BEnumVal.tobytes, h]

theorem parseBytesEnum_tobytes (table : List Bytes) (k : BEnumVal) (bo : ByteOrder)
    (hk : wfEnumKey table k = true) : parseBytesEnum table (k.tobytes bo) = .ok k := by
  simp only [wfEnumKey, Bool.and_eq_true, decide_eq_true_eq] at hk
  obtain ⟨⟨hknown, hmem⟩, hrev⟩ := hk
  cases bo with
  | be =>
    rw [BEnumVal.tobytes, parseBytesEnum, if_pos hmem]
    cases k
    simp_all
  | le =>
    rw [BEnumVal.tobytes, parseBytesEnum, if_neg hrev]
    rw [List.reverse_reverse, if_pos hmem]
    cases k
    simp_all

theorem parsePsdKey_tobytes (k : BEnumVal) (bo : ByteOrder)
    (hk : wfEnumKey psdKeyValues k = true) : parsePsdKey (k.tobytes bo) = .ok k :=
  parseBytesEnum_tobytes psdKeyValues k bo hk

theorem PsdFormat.value_length (fv : PsdFormat) : fv.value.length = 4 := by
  cases fv <;> decide

/-- One iteration of the generic tagged-record loop on a record as
framed by the writer: the signature and key parse back, the declared
size is recovered, and the loop continues at the payload start plus the
size aligned up — for every dispatch function. -/
theorem readPsdtagsG_frame (dispatch : Dispatch) (fv : PsdFormat) (unknown : Bool)
    (align fuel : Nat) (rem : Int) (k : BEnumVal) (body rest : Bytes)
    (hk : wfEnumKey psdKeyValues k = true)
    (hb : body.length < 2 ^ (8 * sizeFieldWidth fv k))
    (hrem : 0 < rem) :
    readPsdtagsG dispatch fv unknown align (fuel + 1) rem
        (frameRecord fv align k body ++ rest) =
      (do
        let tag? ← dispatch fv unknown k body.length
          (body ++ List.replicate (alignPad align body.length) 0 ++ rest)
        let (tail, dEnd) ← readPsdtagsG dispatch fv unknown align fuel
          (rem - (8 + sizeFieldWidth fv k + body.length + alignPad align body.length : Nat))
          rest
        .ok ((match tag? with | some t => t :: tail | none => tail), dEnd)) := by
  have hk4 : k.value.length = 4 := by
    simp only [wfEnumKey, Bool.and_eq_true, decide_eq_true_eq] at hk
    exact psdKeyValues_length4 k.value hk.1.2
  have hd : frameRecord fv align k body ++ rest =
      fv.value ++ (k.tobytes fv.byteorder ++
        (packNat fv.byteorder (sizeFieldWidth fv k) body.length ++
          (body ++ List.replicate (alignPad align body.length) 0 ++ rest))) := by
    simp [frameRecord, List.append_assoc]
  have hdrop : (body ++ List.replicate (alignPad align body.length) 0 ++ rest).drop
      (body.length + alignPad align body.length) = rest := by
    rw [List.append_assoc, List.drop_append_eq_append_drop]
    simp [List.drop_append_eq_append_drop, List.length_replicate]
  rw [readPsdtagsG, if_neg (by omega), hd,
    readAvail_append _ _ 4 (PsdFormat.value_length fv)]
  dsimp only
  rw [if_neg (by simp)]
  rw [readAvail_append _ _ 4 (BEnumVal.tobytes_length k fv.byteorder 4 hk4),
    parsePsdKey_tobytes k fv.byteorder hk, ebind_ok]
  dsimp only
  rw [readNat_append fv.byteorder (sizeFieldWidth fv k) body.length _, ebind_ok]
  dsimp only
  rw [Nat.mod_eq_of_lt hb, hdrop]
  simp [Nat.add_assoc]

theorem frameRecord_length (fv : PsdFormat) (align : Nat) (k : BEnumVal) (body : Bytes)
    (hk4 : k.value.length = 4) :
    (frameRecord fv align k body).length =
      8 + sizeFieldWidth fv k + body.length + alignPad align body.length := by
  simp [frameRecord, packNat_length, BEnumVal.tobytes_length k fv.byteorder 4 hk4,
    PsdFormat.value_length]
  omega

theorem BEnumVal.content_of_known (k : BEnumVal) (h : k.known = true) :
    k.content = k.value := by
  simp [BEnumVal.content, h]

/-- C3 counterexample: an opaque structure with a one-byte value, read
under BE32BIT by read_psdtags, makes write_psdtags under the same
BE32BIT format raise instead of re-encoding it byte-identically. -/
theorem C3_short_unknown_counterexample :
    read_psdtags .BE32BIT true 4 16
        (frameRecord .BE32BIT 4 ⟨strBytes "Anno", true⟩ [5]) =
      .ok ([.unknown ⟨strBytes "Anno", true⟩ .BE32BIT [5]], []) ∧
    writeStructTags .BE32BIT true 4 [.unknown ⟨strBytes "Anno", true⟩ .BE32BIT [5]] =
      .error "can not write opaque bytes" := by
  constructor <;> decide

/-- C3 amended: a PsdUnknown with a defined enum key, a value of at
least two bytes and the stored format `fv` re-encodes under `fv` as
exactly one canonical record, which read_psdtags decodes back to the
same structure; under any other format the structure is skipped, a
diagnostic is recorded, and writing the remaining structures continues
as if it were absent. -/
theorem C3_unknown_roundtrip_and_skip (fv fv2 : PsdFormat) (align : Nat)
    (k : BEnumVal) (v : Bytes)
    (hk : wfEnumKey psdKeyValues k = true)
    (hreg : k.value ∉ psdKeyTypeKeys)
    (hlen : 2 ≤ v.length) (hlen2 : v.length < 2 ^ 31) :
    (writeStructTags fv true align [.unknown k fv v] =
        .ok (frameRecord fv align k v, []) ∧
      ∀ rest : Bytes,
        read_psdtags fv true align ((frameRecord fv align k v).length : Int)
            (frameRecord fv align k v ++ rest) =
          .ok ([.unknown k fv v], rest)) ∧
    (fv2 ≠ fv → ∀ others : List PsdStruct,
      writeStructTags fv2 true align (.unknown k fv v :: others) =
        (writeStructTags fv2 true align others).map
          fun p => (p.1, "PsdUnknown not written" :: p.2)) := by
  have hknown : k.known = true := by
    simp only [wfEnumKey, Bool.and_eq_true, decide_eq_true_eq] at hk
    exact hk.1.1
  have hk4 : k.value.length = 4 := by
    simp only [wfEnumKey, Bool.and_eq_true, decide_eq_true_eq] at hk
    exact psdKeyValues_length4 k.value hk.1.2
  have hszw : v.length < 2 ^ (8 * sizeFieldWidth fv k) := by
    have : 4 ≤ sizeFieldWidth fv k := by
      unfold sizeFieldWidth
      split
      · unfold PsdFormat.sizewidth
        split <;> omega
      · omega
    calc v.length < 2 ^ 31 := hlen2
      _ ≤ 2 ^ (8 * sizeFieldWidth fv k) := Nat.pow_le_pow_right (by norm_num) (by omega)
  refine ⟨⟨?_, ?_⟩, ?_⟩
  · simp only [writeStructTags, Bool.not_true]
    rw [if_neg (by simp), if_neg (by simp)]
    have hbody : structBody fv (.unknown (PsdStruct.key (.unknown k fv v)) fv v) = .ok v := by
      simp only [PsdStruct.key, structBody]
      rw [if_neg (by push_neg; exact ⟨by omega, rfl⟩)]
    rw [hbody]
    simp only [ebind_ok, writeStructTags, PsdStruct.key, List.append_nil]
  · intro rest
    have hflen : (frameRecord fv align k v).length =
        8 + sizeFieldWidth fv k + v.length + alignPad align v.length :=
      frameRecord_length fv align k v hk4
    have hlen3 : (frameRecord fv align k v ++ rest).length =
        (frameRecord fv align k v).length + rest.length := by simp
    obtain ⟨m, hm⟩ : ∃ m, (frameRecord fv align k v ++ rest).length = m + 1 :=
      ⟨(frameRecord fv align k v).length + rest.length - 1, by rw [hlen3, hflen]; omega⟩
    rw [read_psdtags, hm]
    rw [readPsdtagsG_frame dispatchStruct fv true align (m + 1)
      ((frameRecord fv align k v).length : Int) k v rest hk hszw
      (by rw [hflen]; push_cast; omega)]
    have htake : (v ++ List.replicate (alignPad align v.length) 0 ++ rest).take v.length = v := by
      rw [List.append_assoc]
      exact List.take_left v _
    have hdisp : dispatchStruct fv true k v.length
        (v ++ List.replicate (alignPad align v.length) 0 ++ rest) =
        .ok (some (.unknown k fv v)) := by
      rw [dispatchStruct, if_neg (by omega)]
      rw [BEnumVal.content_of_known k hknown]
      rw [if_neg hreg, if_pos rfl, htake]
    rw [hdisp, ebind_ok]
    have hrem0 : ((frameRecord fv align k v).length : Int) -
        ((8 + sizeFieldWidth fv k + v.length + alignPad align v.length : Nat) : Int) ≤ 0 := by
      rw [hflen]; push_cast; omega
    rw [readPsdtagsG, if_pos hrem0]
    rfl
  · intro hne others
    simp only [writeStructTags, Bool.not_true]
    rw [if_neg (by simp), if_pos (Ne.symm hne)]
    cases hres : writeStructTags fv2 true align others with
    | ok p => rfl
    | error e => rfl

/-- C3 amended witness: a concrete two-byte opaque structure under
BE32BIT/LE32BIT. -/
theorem C3_unknown_roundtrip_and_skip_witness :
    wfEnumKey psdKeyValues ⟨strBytes "Anno", true⟩ = true ∧
    strBytes "Anno" ∉ psdKeyTypeKeys ∧
    ((writeStructTags .BE32BIT true 4 [.unknown ⟨strBytes "Anno", true⟩ .BE32BIT [1, 2]] =
        .ok (frameRecord .BE32BIT 4 ⟨strBytes "Anno", true⟩ [1, 2], []) ∧
      ∀ rest : Bytes,
        read_psdtags .BE32BIT true 4
            ((frameRecord .BE32BIT 4 ⟨strBytes "Anno", true⟩ [1, 2]).length : Int)
            (frameRecord .BE32BIT 4 ⟨strBytes "Anno", true⟩ [1, 2] ++ rest) =
          .ok ([.unknown ⟨strBytes "Anno", true⟩ .BE32BIT [1, 2]], rest)) ∧
    (PsdFormat.LE32BIT ≠ .BE32BIT → ∀ others : List PsdStruct,
      writeStructTags .LE32BIT true 4
          (.unknown ⟨strBytes "Anno", true⟩ .BE32BIT [1, 2] :: others) =
        (writeStructTags .LE32BIT true 4 others).map
          fun p => (p.1, "PsdUnknown not written" :: p.2))) :=
  ⟨by decide, by decide,
    C3_unknown_roundtrip_and_skip .BE32BIT .LE32BIT 4 ⟨strBytes "Anno", true⟩ [1, 2]
      (by decide) (by decide) (by decide) (by decide)⟩

/-- C4: the generic tagged-list reader (a) stops when the end offset is
reached, (b) stops when the next four bytes are not the active format
signature (whichever comes first), and (c) after a record header parses,
continues at the payload start plus the declared size rounded up to the
alignment parameter — for an arbitrary declared size, arbitrary payload
bytes and every dispatch function, hence regardless of how many bytes
the record decoder consumed; (d) `size + alignPad align size` is the
declared size rounded up to the next multiple of the alignment. -/
theorem C4_read_psdtags_positions (dispatch : Dispatch) (fv : PsdFormat)
    (unknown : Bool) (align fuel : Nat) (rem : Int) (d : Bytes) :
    (rem ≤ 0 → readPsdtagsG dispatch fv unknown align (fuel + 1) rem d = .ok ([], d)) ∧
    (0 < rem → d.take 4 ≠ fv.value →
      readPsdtagsG dispatch fv unknown align (fuel + 1) rem d = .ok ([], d.drop 4)) ∧
    (∀ (k : BEnumVal) (s : Nat) (tail : Bytes),
      wfEnumKey psdKeyValues k = true → s < 2 ^ (8 * sizeFieldWidth fv k) → 0 < rem →
      readPsdtagsG dispatch fv unknown align (fuel + 1) rem
          (fv.value ++ k.tobytes fv.byteorder ++
            packNat fv.byteorder (sizeFieldWidth fv k) s ++ tail) =
        (do
          let tag? ← dispatch fv unknown k s tail
          let (tl, dEnd) ← readPsdtagsG dispatch fv unknown align fuel
            (rem - (8 + sizeFieldWidth fv k + s + alignPad align s : Nat))
            (tail.drop (s + alignPad align s))
          .ok ((match tag? with | some t => t :: tl | none => tl), dEnd))) ∧
    (0 < align → ∀ s : Nat, s ≤ s + alignPad align s ∧
      (s + alignPad align s) % align = 0 ∧ s + alignPad align s < s + align) := by
  refine ⟨?_, ?_, ?_, ?_⟩
  · intro h
    rw [readPsdtagsG, if_pos h]
  · intro h1 h2
    rw [readPsdtagsG, if_neg (by omega)]
    dsimp only [readAvail]
    rw [if_pos h2]
  · intro k s tail hk hs hrem
    have hk4 : k.value.length = 4 := by
      simp only [wfEnumKey, Bool.and_eq_true, decide_eq_true_eq] at hk
      exact psdKeyValues_length4 k.value hk.1.2
    have hd : fv.value ++ k.tobytes fv.byteorder ++
        packNat fv.byteorder (sizeFieldWidth fv k) s ++ tail =
        fv.value ++ (k.tobytes fv.byteorder ++
          (packNat fv.byteorder (sizeFieldWidth fv k) s ++ tail)) := by
      simp [List.append_assoc]
    rw [readPsdtagsG, if_neg (by omega), hd,
      readAvail_append _ _ 4 (PsdFormat.value_length fv)]
    dsimp only
    rw [if_neg (by simp)]
    rw [readAvail_append _ _ 4 (BEnumVal.tobytes_length k fv.byteorder 4 hk4),
      parsePsdKey_tobytes k fv.byteorder hk, ebind_ok]
    dsimp only
    rw [readNat_append fv.byteorder (sizeFieldWidth fv k) s tail, ebind_ok]
    dsimp only
    rw [Nat.mod_eq_of_lt hs]
    simp [Nat.add_assoc]
  · intro ha s
    unfold alignPad
    have h1 : s % align < align := Nat.mod_lt s ha
    have h2 : (align - s % align) % align < align := Nat.mod_lt _ ha
    refine ⟨by omega, ?_, by omega⟩
    by_cases hz : s % align = 0
    · simp [hz]
    · have heq : (align - s % align) % align = align - s % align := by
        apply Nat.mod_eq_of_lt
        omega
      rw [heq]
      have hdm := Nat.div_add_mod s align
      have heq2 : s + (align - s % align) = align * (s / align + 1) := by
        rw [Nat.mul_add, Nat.mul_one]
        omega
      rw [heq2, Nat.mul_mod_right]

/-- C4 witness: end-offset stop and signature-mismatch stop on concrete
streams, and the alignment arithmetic at a concrete size. -/
theorem C4_read_psdtags_positions_witness :
    readPsdtagsG dispatchStruct .BE32BIT true 4 6 (-1) [9, 9] = .ok ([], [9, 9]) ∧
    readPsdtagsG dispatchStruct .BE32BIT true 4 6 8 [9, 9, 9, 9, 9] = .ok ([], [9]) ∧
    (5 ≤ 5 + alignPad 4 5 ∧ (5 + alignPad 4 5) % 4 = 0 ∧ 5 + alignPad 4 5 < 5 + 4) := by
  have h := C4_read_psdtags_positions dispatchStruct .BE32BIT true 4 5 (-1) [9, 9]
  have h2 := C4_read_psdtags_positions dispatchStruct .BE32BIT true 4 5 8 [9, 9, 9, 9, 9]
  exact ⟨h.1 (by decide), h2.2.1 (by decide) (by decide), h2.2.2.2 (by decide) 5⟩

theorem readLayerRecords_length (fv : PsdFormat) (u : Bool) (n : Nat) (d : Bytes)
    (ls : List PsdLayer) (d2 : Bytes)
    (h : readLayerRecords fv u n d = .ok (ls, d2)) : ls.length = n := by
  induction n generalizing d ls d2 with
  | zero =>
    rw [readLayerRecords] at h
    cases h
    rfl
  | succ n ih =>
    rw [readLayerRecords] at h
    cases hl : PsdLayer.read fv u d with
    | error e => rw [hl, ebind_err] at h; cases h
    | ok p =>
      obtain ⟨l, d1⟩ := p
      rw [hl, ebind_ok] at h
      dsimp only at h
      cases hr : readLayerRecords fv u n d1 with
      | error e => rw [hr, ebind_err] at h; cases h
      | ok q =>
        obtain ⟨ls1, d3⟩ := q
        rw [hr, ebind_ok] at h
        dsimp only at h
        cases h
        simp [ih _ _ _ hr]

theorem readChannelImages_length (fv : PsdFormat) (dt : DType) (ls : List PsdLayer)
    (d : Bytes) (ls2 : List PsdLayer) (d2 : Bytes)
    (h : readChannelImages fv dt ls d = .ok (ls2, d2)) : ls2.length = ls.length := by
  induction ls generalizing d ls2 d2 with
  | nil =>
    rw [readChannelImages] at h
    cases h
    rfl
  | cons l ls ih =>
    rw [readChannelImages] at h
    cases hc : readChannelImagesLayer fv dt l l.channels d with
    | error e => rw [hc, ebind_err] at h; cases h
    | ok p =>
      obtain ⟨cs2, d1⟩ := p
      rw [hc, ebind_ok] at h
      dsimp only at h
      cases hr : readChannelImages fv dt ls d1 with
      | error e => rw [hr, ebind_err] at h; cases h
      | ok q =>
        obtain ⟨ls3, d3⟩ := q
        rw [hr, ebind_ok] at h
        dsimp only at h
        cases h
        simp [ih _ _ _ hr]

/-- C5 counterexample: a layer list with no layers and the transparency
flag set writes the count 0, whose sign does not encode the flag; the
re-read layer list has the flag cleared. -/
theorem C5_empty_transparency_counterexample :
    PsdLayers.tobytes .BE32BIT none true
        { key := ⟨strBytes "Layr", true⟩, layers := [], has_transparency := true } =
      .ok ([0, 0], []) ∧
    PsdLayers.read .BE32BIT ⟨strBytes "Layr", true⟩ true [0, 0] =
      .ok ({ key := ⟨strBytes "Layr", true⟩, layers := [], has_transparency := false }, []) := by
  constructor <;> decide

/-- C5 amended: PsdLayers.read reads a signed 16-bit count; a negative
sign sets has_transparency and the absolute value is the number of layer
records read.  PsdLayers.write emits the signed 16-bit count
(transparency encoded as the sign factor -1), whose sign encodes the
flag and absolute value the layer count whenever the layer list is
nonempty or the flag is clear, and pads the total length to a multiple
of two. -/
theorem C5_layers_count_sign (fv : PsdFormat) (key : BEnumVal) (unknown : Bool)
    (c : Int) (rest : Bytes) (res : PsdLayers) (rest2 : Bytes)
    (x : PsdLayers) (compression : Option Int) (unk2 : Bool) (b : Bytes) (ws : List String)
    (hc : intInRange 2 c = true)
    (hread : PsdLayers.read fv key unknown (packSInt fv.byteorder 2 c ++ rest) =
      .ok (res, rest2))
    (hlen : x.layers.length < 2 ^ 15)
    (hwrite : PsdLayers.tobytes fv compression unk2 x = .ok (b, ws)) :
    (res.has_transparency = decide (c < 0) ∧ res.layers.length = c.natAbs) ∧
    (∃ tailB, b = packSInt fv.byteorder 2
        ((if x.has_transparency then -1 else 1) * x.layers.length) ++ tailB) ∧
    b.length % 2 = 0 ∧
    (x.layers ≠ [] ∨ x.has_transparency = false →
      (((if x.has_transparency then -1 else 1) * (x.layers.length : Int) < 0) ↔
        x.has_transparency = true) ∧
      ((if x.has_transparency then -1 else 1) * (x.layers.length : Int)).natAbs =
        x.layers.length) := by
  simp only [intInRange, Bool.and_eq_true, decide_eq_true_eq] at hc
  constructor
  · rw [PsdLayers.read,
      readSInt_append fv.byteorder 2 c rest (by exact_mod_cast hc.1) (by exact_mod_cast hc.2)
        (by norm_num), ebind_ok] at hread
    dsimp only at hread
    cases hrec : readLayerRecords fv unknown c.natAbs rest with
    | error e => rw [hrec, ebind_err] at hread; cases hread
    | ok p =>
      rw [hrec, ebind_ok] at hread
      cases p with
      | mk ls drest =>
        dsimp only at hread
        cases hty : psdLayersTypes key.content with
        | none => rw [hty] at hread; cases hread
        | some dt =>
          rw [hty] at hread
          dsimp only at hread
          cases him : readChannelImages fv dt ls drest with
          | error e => rw [him, ebind_err] at hread; cases hread
          | ok q =>
            rw [him, ebind_ok] at hread
            cases q
            cases hread
            exact ⟨rfl, by
              rw [readChannelImages_length fv dt ls drest _ _ him]
              exact readLayerRecords_length fv unknown c.natAbs rest ls drest hrec⟩
  · rw [PsdLayers.tobytes] at hwrite
    cases hres : x.layers.mapM (PsdLayer.writeFull fv compression unk2) with
    | error e => rw [hres, ebind_err] at hwrite; cases hwrite
    | ok rs =>
      rw [hres, ebind_ok] at hwrite
      dsimp only at hwrite
      set body := packSInt fv.byteorder 2
          ((if x.has_transparency then -1 else 1) * x.layers.length) ++
          ((rs.map (·.1)).flatten ++ (rs.map (·.2.1)).flatten) with hbody
      have hb : b = if body.length % 2 = 1 then body ++ [0] else body := by
        cases hwrite
        rw [hbody]
        simp [List.append_assoc]
      have hplen : (packSInt fv.byteorder 2
          ((if x.has_transparency then -1 else 1) * x.layers.length)).length = 2 :=
        packSInt_length ..
      refine ⟨?_, ?_, ?_⟩
      · rw [hb]
        by_cases hpar : body.length % 2 = 1
        · refine ⟨(rs.map (·.1)).flatten ++ ((rs.map (·.2.1)).flatten ++ [0]), ?_⟩
          rw [if_pos hpar, hbody]
          simp [List.append_assoc]
        · refine ⟨(rs.map (·.1)).flatten ++ (rs.map (·.2.1)).flatten, ?_⟩
          rw [if_neg hpar, hbody]
      · rw [hb]
        by_cases hpar : body.length % 2 = 1
        · rw [if_pos hpar]
          simp only [List.length_append, List.length_cons, List.length_nil]
          omega
        · rw [if_neg hpar]
          omega
      · intro hnonempty
        cases htr : x.has_transparency with
        | false =>
          rw [if_neg (by simp)]
          refine ⟨⟨?_, ?_⟩, by simp⟩
          · intro hlt
            have hnn : (0 : Int) ≤ (x.layers.length : Int) := Int.natCast_nonneg _
            omega
          · intro hcontra
            exact absurd hcontra (by simp)
        | true =>
          have hne : x.layers.length ≠ 0 := by
            cases hnonempty with
            | inl h =>
              intro hc
              exact h (List.length_eq_zero.mp hc)
            | inr h => rw [htr] at h; cases h
          have hposl : (0 : Int) < (x.layers.length : Int) := by
            exact_mod_cast Nat.pos_of_ne_zero hne
          rw [if_pos rfl]
          refine ⟨⟨fun _ => rfl, fun _ => by omega⟩, ?_⟩
          rw [show (-1 : Int) * (x.layers.length : Int) = -(x.layers.length : Int) by ring,
            Int.natAbs_neg, Int.natAbs_ofNat]

/-- C5 witness: count 0 read back, and the empty list written (flag
clear) with an even total length. -/
theorem C5_layers_count_sign_witness :
    (({ key := ⟨strBytes "Layr", true⟩, layers := [],
        has_transparency := false } : PsdLayers).has_transparency =
          decide ((0 : Int) < 0) ∧
      ({ key := ⟨strBytes "Layr", true⟩, layers := [],
         has_transparency := false } : PsdLayers).layers.length = (0 : Int).natAbs) ∧
    (∃ tailB, ([0, 0] : Bytes) = packSInt PsdFormat.BE32BIT.byteorder 2
        ((if (({ key := ⟨strBytes "Layr", true⟩ } : PsdLayers)).has_transparency then -1 else 1) *
          (({ key := ⟨strBytes "Layr", true⟩ } : PsdLayers)).layers.length) ++ tailB) ∧
    ([0, 0] : Bytes).length % 2 = 0 ∧
    ((({ key := ⟨strBytes "Layr", true⟩ } : PsdLayers)).layers ≠ [] ∨
      (({ key := ⟨strBytes "Layr", true⟩ } : PsdLayers)).has_transparency = false →
      (((if (({ key := ⟨strBytes "Layr", true⟩ } : PsdLayers)).has_transparency then -1 else 1) *
          ((({ key := ⟨strBytes "Layr", true⟩ } : PsdLayers)).layers.length : Int) < 0) ↔
        (({ key := ⟨strBytes "Layr", true⟩ } : PsdLayers)).has_transparency = true) ∧
      ((if (({ key := ⟨strBytes "Layr", true⟩ } : PsdLayers)).has_transparency then -1 else 1) *
        ((({ key := ⟨strBytes "Layr", true⟩ } : PsdLayers)).layers.length : Int)).natAbs =
        (({ key := ⟨strBytes "Layr", true⟩ } : PsdLayers)).layers.length) :=
  C5_layers_count_sign .BE32BIT ⟨strBytes "Layr", true⟩ true 0 []
    { key := ⟨strBytes "Layr", true⟩, layers := [], has_transparency := false } []
    { key := ⟨strBytes "Layr", true⟩ } none true [0, 0] []
    (by decide) (by decide) (by decide) (by decide)

theorem rowsOf_length (w h : Nat) (d : List Nat) : (rowsOf w h d).length = h := by
  induction h generalizing d with
  | zero => rfl
  | succ h ih => simp [rowsOf, ih]

theorem flatten_map_const_length {α β : Type} (l : List α) (f : α → List β) (c : Nat)
    (h : ∀ x ∈ l, (f x).length = c) : ((l.map f).flatten).length = l.length * c := by
  induction l with
  | nil => simp
  | cons x xs ih =>
    simp only [List.map_cons, List.flatten_cons, List.length_append, List.length_cons]
    rw [h x (by simp), ih (fun y hy => h y (by simp [hy]))]
    ring

/-- C6 counterexample: RLE-compressing a one-row plane with no samples
yields the empty byte string, which does not begin with a one-entry
per-scanline length table (2 bytes under BE32BIT). -/
theorem C6_rle_empty_plane_counterexample :
    compress ⟨DType.B, 1, 0, []⟩ 1 ByteOrder.be 2 = .ok [] ∧
    ([] : Bytes).length < 1 * 2 := by
  constructor <;> decide

/-- C6 amended: for planes with at least one sample, the RLE wire
representation is the per-scanline compressed-length table (one entry
per row, each entry as wide as the rlecountfmt count field: 2 bytes
under the 32-bit variants, 4 under the 64-bit variants) followed by the
PackBits-compressed scanlines, and decoding skips exactly rows times
that width before decompressing. -/
theorem C6_rle_layout (fv : PsdFormat) (p : Plane)
    (hsz : p.size ≠ 0)
    (hbound : ((rowsOf p.width p.height p.elems).map
        (fun row => (packbitsEncode (elemsToBytes p.dtype.itemsize row)).length)).all
        (· < 2 ^ (8 * rleCountWidth fv)) = true) :
    (∃ table lines,
      compress p 1 fv.byteorder (rleCountWidth fv) = .ok (table ++ lines) ∧
      table = ((rowsOf p.width p.height p.elems).map
        (fun row => packNat fv.byteorder (rleCountWidth fv)
          (packbitsEncode (elemsToBytes p.dtype.itemsize row)).length)).flatten ∧
      table.length = p.height * rleCountWidth fv ∧
      lines = ((rowsOf p.width p.height p.elems).map
        (fun row => packbitsEncode (elemsToBytes p.dtype.itemsize row))).flatten) ∧
    (fv.isb64 = false → rleCountWidth fv = 2) ∧
    (fv.isb64 = true → rleCountWidth fv = 4) ∧
    (∀ d : Bytes,
      decompress d 1 p.height p.width p.dtype fv.byteorder (rleCountWidth fv) =
        (do
          let u ← packbitsDecode (d.drop (p.height * rleCountWidth fv))
          if u.length = p.height * p.width * p.dtype.itemsize then
            Except.ok (⟨p.dtype, p.height, p.width, bytesToElems p.dtype.itemsize u⟩ : Plane)
          else .error "buffer size must match")) := by
  have hisz : 0 < p.dtype.itemsize := by cases p.dtype <;> decide
  have husz : p.height * p.width * p.dtype.itemsize ≠ 0 := by
    have : p.height * p.width ≠ 0 := hsz
    positivity
  refine ⟨?_, ?_, ?_, ?_⟩
  · refine ⟨_, _, ?_, rfl, ?_, rfl⟩
    · rw [compress]
      dsimp only
      rw [if_neg hsz, if_neg (by decide), if_neg (by decide), if_neg (by decide),
        if_pos rfl]
      rw [if_pos (by simpa [List.all_map, Function.comp] using hbound)]
      rw [List.map_map, List.map_map]
      rfl
    · rw [flatten_map_const_length _ _ (rleCountWidth fv)
        (fun x _ => packNat_length ..), rowsOf_length]
  · intro h
    simp [rleCountWidth, h]
  · intro h
    simp [rleCountWidth, h]
  · intro d
    rw [decompress]
    rw [if_neg husz, if_neg (by decide), if_neg (by decide), if_neg (by decide),
      if_pos rfl]

/-- C6 witness: a concrete 1-by-2 byte plane under BE32BIT. -/
theorem C6_rle_layout_witness :
    (⟨DType.B, 1, 2, [7, 7]⟩ : Plane).size ≠ 0 ∧
    (∃ table lines,
      compress ⟨DType.B, 1, 2, [7, 7]⟩ 1 PsdFormat.BE32BIT.byteorder
          (rleCountWidth .BE32BIT) = .ok (table ++ lines) ∧
      table = ((rowsOf (⟨DType.B, 1, 2, [7, 7]⟩ : Plane).width
          (⟨DType.B, 1, 2, [7, 7]⟩ : Plane).height
          (⟨DType.B, 1, 2, [7, 7]⟩ : Plane).elems).map
        (fun row => packNat PsdFormat.BE32BIT.byteorder (rleCountWidth .BE32BIT)
          (packbitsEncode (elemsToBytes (⟨DType.B, 1, 2, [7, 7]⟩ : Plane).dtype.itemsize
            row)).length)).flatten ∧
      table.length = (⟨DType.B, 1, 2, [7, 7]⟩ : Plane).height * rleCountWidth .BE32BIT ∧
      lines = ((rowsOf (⟨DType.B, 1, 2, [7, 7]⟩ : Plane).width
          (⟨DType.B, 1, 2, [7, 7]⟩ : Plane).height
          (⟨DType.B, 1, 2, [7, 7]⟩ : Plane).elems).map
        (fun row => packbitsEncode (elemsToBytes
          (⟨DType.B, 1, 2, [7, 7]⟩ : Plane).dtype.itemsize row))).flatten) :=
  ⟨by decide, (C6_rle_layout .BE32BIT ⟨DType.B, 1, 2, [7, 7]⟩ (by decide) (by decide)).1⟩

/-- C2 counterexample: encoding a PsdLayerMask that has a rectangle and
only user_mask_feather among the optional fields raises (the writer
asserts the real-mask fields are present whenever any parameter field
is), instead of producing a mask record. -/
theorem C2_feather_only_counterexample :
    PsdLayerMask.tobytes
        { rectangle := some ⟨0, 0, 1, 1⟩, user_mask_feather := some 4607182418800017408 }
        .BE32BIT =
      .error "assert real mask field is not None" := by decide

set_option maxHeartbeats 2000000 in
/-- C2 amended: encoding a PsdLayerMask that has a rectangle, whose only
optional parameter field is user_mask_feather and whose real-mask
trailer fields are present (as the writer asserts), produces a record
whose parameter-flags byte has exactly the USER_FEATHER bit set,
followed by the 8-byte double; decoding recovers the same single
optional parameter field with the other three absent.  Which parameter
fields are emitted is determined purely by which mask fields are
non-absent (the param_flags property). -/
theorem C2_feather_only_mask_record (fv : PsdFormat) (rect rr : PsdRectangle)
    (dc fl f rf rb : Nat)
    (hrect : rectInRange rect = true) (hrr : rectInRange rr = true)
    (hfl : fl < 256) (hf : f < 2 ^ 64) :
    PsdLayerMask.param_flags
      { rectangle := some rect, default_color := dc, flags := fl,
        user_mask_feather := some f, real_flags := some rf,
        real_background := some rb, real_rectangle := some rr } = 2 ∧
    PsdLayerMask.tobytes
        { rectangle := some rect, default_color := dc, flags := fl,
          user_mask_feather := some f, real_flags := some rf,
          real_background := some rb, real_rectangle := some rr } fv =
      .ok (packNat fv.byteorder 4 45 ++ packRect fv.byteorder rect ++
        [if dc ≠ 0 then 255 else 0] ++ [(fl ||| 8) % 256] ++ [2] ++
        packNat fv.byteorder 8 f ++ [rf % 256] ++ [rb % 256] ++
        packRect fv.byteorder rr) ∧
    (packNat fv.byteorder 8 f).length = 8 ∧
    (∀ rest : Bytes, ∃ m2 : PsdLayerMask,
      PsdLayerMask.read fv
          ((packNat fv.byteorder 4 45 ++ packRect fv.byteorder rect ++
            [if dc ≠ 0 then 255 else 0] ++ [(fl ||| 8) % 256] ++ [2] ++
            packNat fv.byteorder 8 f ++ [rf % 256] ++ [rb % 256] ++
            packRect fv.byteorder rr) ++ rest) = .ok (m2, rest) ∧
      m2.user_mask_feather = some f ∧ m2.user_mask_density = none ∧
      m2.vector_mask_density = none ∧ m2.vector_mask_feather = none) := by
  have hflor : fl ||| 8 < 256 := Nat.or_lt_two_pow (n := 8) hfl (by norm_num)
  have hdata45 : (packRect fv.byteorder rect ++ [if dc ≠ 0 then 255 else 0] ++
      [(fl ||| 8) % 256] ++ ([2] ++ packNat fv.byteorder 8 f) ++ [rf % 256] ++
      [rb % 256] ++ packRect fv.byteorder rr).length = 45 := by
    simp [packRect, packSInt_length, packNat_length]
  refine ⟨rfl, ?_, packNat_length .., ?_⟩
  · simp only [PsdLayerMask.tobytes, PsdLayerMask.param_flags, Option.isSome_some,
      Option.isSome_none, if_true, if_false]
    norm_num
    have hprl : ∀ (bo : ByteOrder) (r : PsdRectangle), (packRect bo r).length = 16 := by
      intro bo r
      simp [packRect, packSInt_length]
    simp [hprl, packNat_length, List.append_assoc]
  · intro rest
    simp only [rectInRange, intInRange, Bool.and_eq_true, decide_eq_true_eq] at hrect hrr
    obtain ⟨⟨⟨⟨ht1, ht2⟩, hl1, hl2⟩, hb1, hb2⟩, hr1, hr2⟩ := hrect
    obtain ⟨⟨⟨⟨st1, st2⟩, sl1, sl2⟩, sb1, sb2⟩, sr1, sr2⟩ := hrr
    have hstream : (packNat fv.byteorder 4 45 ++ packRect fv.byteorder rect ++
        [if dc ≠ 0 then 255 else 0] ++ [(fl ||| 8) % 256] ++ [2] ++
        packNat fv.byteorder 8 f ++ [rf % 256] ++ [rb % 256] ++
        packRect fv.byteorder rr) ++ rest =
        packNat fv.byteorder 4 45 ++ (packSInt fv.byteorder 4 rect.top ++
          (packSInt fv.byteorder 4 rect.left ++ (packSInt fv.byteorder 4 rect.bottom ++
          (packSInt fv.byteorder 4 rect.right ++
          ((if dc ≠ 0 then 255 else 0) :: (fl ||| 8) % 256 :: 2 ::
          (packNat fv.byteorder 8 f ++ (rf % 256 :: rb % 256 ::
          (packSInt fv.byteorder 4 rr.top ++ (packSInt fv.byteorder 4 rr.left ++
          (packSInt fv.byteorder 4 rr.bottom ++ (packSInt fv.byteorder 4 rr.right ++
          rest))))))))))) := by
      simp [packRect, List.append_assoc]
    refine ⟨{ rectangle := some rect,
              default_color := if dc ≠ 0 then 255 else 0, flags := fl ||| 8,
              user_mask_feather := some f, real_flags := some (rf % 256),
              real_background := some (rb % 256), real_rectangle := some rr },
            ?_, rfl, rfl, rfl, rfl⟩
    have eTop : ∀ x : Bytes, readSInt fv.byteorder 4 (packSInt fv.byteorder 4 rect.top ++ x) =
        .ok (rect.top, x) := fun x => readSInt_append _ _ _ _ ht1 ht2 (by norm_num)
    have eLeft : ∀ x : Bytes, readSInt fv.byteorder 4 (packSInt fv.byteorder 4 rect.left ++ x) =
        .ok (rect.left, x) := fun x => readSInt_append _ _ _ _ hl1 hl2 (by norm_num)
    have eBottom : ∀ x : Bytes, readSInt fv.byteorder 4 (packSInt fv.byteorder 4 rect.bottom ++ x) =
        .ok (rect.bottom, x) := fun x => readSInt_append _ _ _ _ hb1 hb2 (by norm_num)
    have eRight : ∀ x : Bytes, readSInt fv.byteorder 4 (packSInt fv.byteorder 4 rect.right ++ x) =
        .ok (rect.right, x) := fun x => readSInt_append _ _ _ _ hr1 hr2 (by norm_num)
    have fTop : ∀ x : Bytes, readSInt fv.byteorder 4 (packSInt fv.byteorder 4 rr.top ++ x) =
        .ok (rr.top, x) := fun x => readSInt_append _ _ _ _ st1 st2 (by norm_num)
    have fLeft : ∀ x : Bytes, readSInt fv.byteorder 4 (packSInt fv.byteorder 4 rr.left ++ x) =
        .ok (rr.left, x) := fun x => readSInt_append _ _ _ _ sl1 sl2 (by norm_num)
    have fBottom : ∀ x : Bytes, readSInt fv.byteorder 4 (packSInt fv.byteorder 4 rr.bottom ++ x) =
        .ok (rr.bottom, x) := fun x => readSInt_append _ _ _ _ sb1 sb2 (by norm_num)
    have fRight : ∀ x : Bytes, readSInt fv.byteorder 4 (packSInt fv.byteorder 4 rr.right ++ x) =
        .ok (rr.right, x) := fun x => readSInt_append _ _ _ _ sr1 sr2 (by norm_num)
    have e45 : ∀ x : Bytes, readNat fv.byteorder 4 (packNat fv.byteorder 4 45 ++ x) =
        .ok (45, x) := fun x => by rw [readNat_append]; norm_num
    have eF : ∀ x : Bytes, readNat fv.byteorder 8 (packNat fv.byteorder 8 f ++ x) =
        .ok (f, x) := fun x => by
      rw [readNat_append, Nat.mod_eq_of_lt hf]
    have htb3 : (fl ||| 8).testBit 3 = true := by
      rw [Nat.testBit_or, show Nat.testBit 8 3 = true from by decide, Bool.or_true]
    rw [PsdLayerMask.read, hstream]
    simp only [e45, eTop, eLeft, eBottom, eRight, fTop, fLeft, fBottom, fRight, eF,
      readByte, ebind_ok, ebind_pure, htb3, Nat.mod_eq_of_lt hflor,
      show Nat.testBit 2 0 = false from rfl, show Nat.testBit 2 1 = true from rfl,
      show Nat.testBit 2 2 = false from rfl, show Nat.testBit 2 3 = false from rfl,
      if_true, if_false, Bool.false_eq_true, reduceIte]
    norm_num

/-- Witness for C2_feather_only_mask_record at a concrete mask under
BE32BIT. -/
theorem C2_feather_only_mask_record_witness :
    rectInRange ⟨0, 0, 1, 1⟩ = true ∧ (0 : Nat) < 256 ∧ (5 : Nat) < 2 ^ 64 ∧
    (∃ m2 : PsdLayerMask,
      PsdLayerMask.read PsdFormat.BE32BIT
          ((packNat PsdFormat.BE32BIT.byteorder 4 45 ++
            packRect PsdFormat.BE32BIT.byteorder ⟨0, 0, 1, 1⟩ ++
            [if (0 : Nat) ≠ 0 then 255 else 0] ++ [(0 ||| 8) % 256] ++ [2] ++
            packNat PsdFormat.BE32BIT.byteorder 8 5 ++ [1 % 256] ++ [2 % 256] ++
            packRect PsdFormat.BE32BIT.byteorder ⟨0, 0, 1, 1⟩) ++ []) = .ok (m2, []) ∧
      m2.user_mask_feather = some 5 ∧ m2.user_mask_density = none ∧
      m2.vector_mask_density = none ∧ m2.vector_mask_feather = none) :=
  ⟨by decide, by decide, by norm_num,
   (C2_feather_only_mask_record .BE32BIT ⟨0, 0, 1, 1⟩ ⟨0, 0, 1, 1⟩ 0 0 5 1 2
     (by decide) (by decide) (by decide) (by norm_num)).2.2.2 []⟩

theorem elemsToBytes_cons (isz e : Nat) (es : List Nat) :
    elemsToBytes isz (e :: es) = natToBE isz e ++ elemsToBytes isz es := by
  simp [elemsToBytes]

theorem elemsToBytes_append (isz : Nat) (a b : List Nat) :
    elemsToBytes isz (a ++ b) = elemsToBytes isz a ++ elemsToBytes isz b := by
  simp [elemsToBytes]

theorem elemsToBytes_length (isz : Nat) (es : List Nat) :
    (elemsToBytes isz es).length = es.length * isz := by
  induction es with
  | nil => simp [elemsToBytes]
  | cons e es ih =>
    rw [elemsToBytes_cons, List.length_append, natToBE_length, ih]
    simp [Nat.succ_mul]
    omega

theorem validBytes_elemsToBytes (isz : Nat) (es : List Nat) :
    validBytes (elemsToBytes isz es) = true := by
  induction es with
  | nil => rfl
  | cons e es ih =>
    rw [elemsToBytes_cons, validBytes_append, validBytes_natToBE, ih]
    rfl

theorem bytesToElemsF_nilF (isz : Nat) : ∀ fuel, bytesToElemsF isz fuel [] = []
  | 0 => rfl
  | _ + 1 => rfl

theorem bytesToElemsF_congr (isz : Nat) (h0 : 0 < isz) :
    ∀ fuel fuel' d, d.length ≤ fuel → d.length ≤ fuel' →
      bytesToElemsF isz fuel d = bytesToElemsF isz fuel' d := by
  intro fuel
  induction fuel with
  | zero =>
    intro fuel' d hd _
    have hnil : d = [] := List.eq_nil_of_length_eq_zero (Nat.le_zero.mp hd)
    subst hnil
    rw [bytesToElemsF_nilF, bytesToElemsF_nilF]
  | succ n ih =>
    intro fuel' d hd hd'
    cases d with
    | nil => rw [bytesToElemsF_nilF, bytesToElemsF_nilF]
    | cons x xs =>
      cases fuel' with
      | zero => simp at hd'
      | succ m =>
        show beToNat ((x :: xs).take isz) :: bytesToElemsF isz n ((x :: xs).drop isz) =
          beToNat ((x :: xs).take isz) :: bytesToElemsF isz m ((x :: xs).drop isz)
        congr 1
        apply ih
        · simp only [List.length_drop, List.length_cons]
          simp only [List.length_cons] at hd
          omega
        · simp only [List.length_drop, List.length_cons]
          simp only [List.length_cons] at hd'
          omega

theorem bytesToElems_elemsToBytes (isz : Nat) (h0 : 0 < isz) (es : List Nat)
    (hb : es.all (· < 2 ^ (8 * isz)) = true) :
    bytesToElems isz (elemsToBytes isz es) = es := by
  induction es with
  | nil => rfl
  | cons e es ih =>
    simp only [List.all_cons, Bool.and_eq_true, decide_eq_true_eq] at hb
    have hav := readAvail_append (natToBE isz e) (elemsToBytes isz es) isz
      (natToBE_length isz e)
    simp only [readAvail, Prod.mk.injEq] at hav
    have hlen : (elemsToBytes isz (e :: es)).length = isz + (elemsToBytes isz es).length := by
      rw [elemsToBytes_cons, List.length_append, natToBE_length]
    have hne : ∃ L, (elemsToBytes isz (e :: es)).length = L + 1 := by
      refine ⟨isz - 1 + (elemsToBytes isz es).length, ?_⟩
      omega
    obtain ⟨L, hL⟩ := hne
    rw [bytesToElems, hL]
    have hcons : ∃ y ys, elemsToBytes isz (e :: es) = y :: ys := by
      cases hd : elemsToBytes isz (e :: es) with
      | nil => rw [hd] at hL; simp at hL
      | cons y ys => exact ⟨y, ys, rfl⟩
    obtain ⟨y, ys, hys⟩ := hcons
    rw [hys]
    show beToNat ((y :: ys).take isz) :: bytesToElemsF isz L ((y :: ys).drop isz) = e :: es
    rw [← hys, elemsToBytes_cons, hav.1, hav.2]
    rw [beToNat_natToBE, pow256_eq, Nat.mod_eq_of_lt hb.1]
    congr 1
    rw [bytesToElemsF_congr isz h0 L (elemsToBytes isz es).length _ (by
        rw [elemsToBytes_cons, List.length_append, natToBE_length] at hL
        omega) (Nat.le_refl _)]
    exact ih hb.2

theorem rowsOf_flatten (w : Nat) : ∀ h es, es.length = h * w →
    (rowsOf w h es).flatten = es := by
  intro h
  induction h with
  | zero =>
    intro es hes
    have : es = [] := List.eq_nil_of_length_eq_zero (by omega)
    subst this
    rfl
  | succ n ih =>
    intro es hes
    show es.take w ++ (rowsOf w n (es.drop w)).flatten = es
    rw [ih (es.drop w) (by simp [List.length_drop]; rw [Nat.succ_mul] at hes; omega)]
    exact List.take_append_drop w es

theorem rowsOf_mem_length (w : Nat) : ∀ h es, es.length = h * w →
    ∀ r ∈ rowsOf w h es, r.length = w := by
  intro h
  induction h with
  | zero => intro es _ r hr; simp [rowsOf] at hr
  | succ n ih =>
    intro es hes r hr
    rw [show rowsOf w (n + 1) es = es.take w :: rowsOf w n (es.drop w) from rfl] at hr
    rcases List.mem_cons.mp hr with h1 | h2
    · subst h1
      simp only [List.length_take]
      rw [Nat.succ_mul] at hes
      omega
    · exact ih (es.drop w) (by simp only [List.length_drop]; rw [Nat.succ_mul] at hes; omega) r h2

theorem rowsOf_mem_subset (w h : Nat) (es : List Nat) (hlen : es.length = h * w)
    (r : List Nat) (hr : r ∈ rowsOf w h es) (x : Nat) (hx : x ∈ r) : x ∈ es := by
  rw [← rowsOf_flatten w h es hlen]
  exact List.mem_flatten.mpr ⟨r, hr, hx⟩

theorem rowsOf_flatten_exact (w : Nat) : ∀ (rows : List (List Nat)),
    (∀ r ∈ rows, r.length = w) → rowsOf w rows.length rows.flatten = rows := by
  intro rows
  induction rows with
  | nil => intro _; rfl
  | cons r rs ih =>
    intro hlen
    show (r ++ rs.flatten).take w :: rowsOf w rs.length ((r ++ rs.flatten).drop w) = r :: rs
    have hr : r.length = w := hlen r (List.mem_cons_self r rs)
    have hav := readAvail_append r rs.flatten w hr
    simp only [readAvail, Prod.mk.injEq] at hav
    rw [hav.1, hav.2, ih (fun x hx => hlen x (List.mem_cons_of_mem r hx))]

theorem zlibCompress_length (d : Bytes) : (zlibCompress d).length = 4 + d.length := by
  simp [zlibCompress, natToBE_length]

theorem zlibDecompress_compress (d : Bytes) (h : d.length < 2 ^ 32) :
    zlibDecompress (zlibCompress d) = .ok d := by
  have hav := readAvail_append (natToBE 4 d.length) d 4 (natToBE_length 4 d.length)
  simp only [readAvail, Prod.mk.injEq] at hav
  rw [zlibDecompress, zlibCompress, if_pos (by
    rw [List.length_append, natToBE_length]; omega)]
  rw [hav.1, beToNat_natToBE, pow256_eq]
  rw [show 8 * 4 = 32 from rfl, Nat.mod_eq_of_lt h]
  rw [if_pos (by rw [List.length_append, natToBE_length]; omega)]
  rw [hav.2, List.take_of_length_le (Nat.le_refl _)]

theorem deltaSeq_length (M : Nat) : ∀ (xs : List Nat) (prev : Nat),
    (deltaSeq M prev xs).length = xs.length := by
  intro xs
  induction xs with
  | nil => intro prev; rfl
  | cons y ys ih => intro prev; simp [deltaSeq, ih]

theorem deltaSeq_all_lt (M : Nat) (hM : 0 < M) : ∀ (xs : List Nat) (prev : Nat),
    (deltaSeq M prev xs).all (· < M) = true := by
  intro xs
  induction xs with
  | nil => intro prev; rfl
  | cons y ys ih =>
    intro prev
    rw [deltaSeq, List.all_cons, ih y, Bool.and_true, decide_eq_true_eq]
    have hMz : (M : Int) ≠ 0 := by exact_mod_cast Nat.pos_iff_ne_zero.mp hM
    have h1 : 0 ≤ ((y : Int) - (prev : Int)).emod M := Int.emod_nonneg _ hMz
    have h2 : ((y : Int) - (prev : Int)).emod M < M :=
      Int.emod_lt_of_pos _ (by exact_mod_cast hM)
    omega

theorem all_lt_mem {M : Nat} {xs : List Nat} (h : xs.all (· < M) = true) {a : Nat}
    (ha : a ∈ xs) : a < M := by
  rw [List.all_eq_true] at h
  exact of_decide_eq_true (h a ha)

theorem emod_eq_mod (a b : Int) : a.emod b = a % b := rfl

theorem undeltaSeq_deltaSeq (M : Nat) (hM : 0 < M) : ∀ (xs : List Nat) (prev : Nat),
    prev < M → xs.all (· < M) = true →
    undeltaSeq M prev (deltaSeq M prev xs) = xs := by
  intro xs
  induction xs with
  | nil => intro prev _ _; rfl
  | cons y ys ih =>
    intro prev hprev hall
    simp only [List.all_cons, Bool.and_eq_true, decide_eq_true_eq] at hall
    rw [deltaSeq, undeltaSeq]
    have hMz : (M : Int) ≠ 0 := by exact_mod_cast Nat.pos_iff_ne_zero.mp hM
    have h1 : 0 ≤ ((y : Int) - (prev : Int)).emod M := Int.emod_nonneg _ hMz
    have hkey : (prev + (((y : Int) - (prev : Int)).emod M).toNat) % M = y := by
      have hcast : (((prev + (((y : Int) - (prev : Int)).emod M).toNat) % M : Nat) : Int) =
          (((prev : Int) + ((y : Int) - (prev : Int)) % (M : Int)) % (M : Int)) := by
        push_cast [Int.toNat_of_nonneg h1]
        rfl
      have hstep : ((prev : Int) + ((y : Int) - (prev : Int)) % (M : Int)) % (M : Int) =
          (y : Int) := by
        rw [Int.add_emod, Int.emod_emod_of_dvd _ dvd_rfl, ← Int.add_emod]
        rw [show (prev : Int) + ((y : Int) - (prev : Int)) = (y : Int) by ring]
        exact Int.emod_eq_of_lt (by positivity) (by exact_mod_cast hall.1)
      have := hcast.trans hstep
      exact_mod_cast this
    rw [hkey, ih y hall.1 hall.2]

theorem deltaRowEncode_length (M : Nat) (row : List Nat) :
    (deltaRowEncode M row).length = row.length := by
  cases row with
  | nil => rfl
  | cons x xs => simp [deltaRowEncode, deltaSeq_length]

theorem deltaRowEncode_all_lt (M : Nat) (hM : 0 < M) (row : List Nat)
    (hrow : row.all (· < M) = true) :
    (deltaRowEncode M row).all (· < M) = true := by
  cases row with
  | nil => rfl
  | cons x xs =>
    simp only [List.all_cons, Bool.and_eq_true, decide_eq_true_eq] at hrow
    rw [deltaRowEncode, List.all_cons, deltaSeq_all_lt M hM xs x, Bool.and_true,
      decide_eq_true_eq]
    exact hrow.1

theorem deltaRowDecode_encode (M : Nat) (hM : 0 < M) (row : List Nat)
    (hrow : row.all (· < M) = true) :
    deltaRowDecode M (deltaRowEncode M row) = row := by
  cases row with
  | nil => rfl
  | cons x xs =>
    simp only [List.all_cons, Bool.and_eq_true, decide_eq_true_eq] at hrow
    rw [deltaRowEncode, deltaRowDecode, undeltaSeq_deltaSeq M hM xs x hrow.1 hrow.2]

theorem deltaPlaneEncode_length (M w h : Nat) (es : List Nat) (hes : es.length = h * w) :
    (deltaPlaneEncode M w h es).length = h * w := by
  rw [deltaPlaneEncode, flatten_map_const_length _ _ w (fun r hr => by
    rw [deltaRowEncode_length]
    exact rowsOf_mem_length w h es hes r hr), rowsOf_length]

theorem deltaPlaneEncode_all_lt (M w h : Nat) (hM : 0 < M) (es : List Nat)
    (hes : es.length = h * w) (hall : es.all (· < M) = true) :
    (deltaPlaneEncode M w h es).all (· < M) = true := by
  rw [deltaPlaneEncode, List.all_eq_true]
  intro x hx
  rw [List.mem_flatten] at hx
  obtain ⟨l, hl, hxl⟩ := hx
  rw [List.mem_map] at hl
  obtain ⟨r, hr, hrl⟩ := hl
  subst hrl
  have hrall : r.all (· < M) = true := by
    rw [List.all_eq_true]
    intro a ha
    rw [List.all_eq_true] at hall
    exact hall a (rowsOf_mem_subset w h es hes r hr a ha)
  have := deltaRowEncode_all_lt M hM r hrall
  rw [List.all_eq_true] at this
  exact this x hxl

theorem deltaPlaneDecode_encode (M w h : Nat) (hM : 0 < M) (es : List Nat)
    (hes : es.length = h * w) (hall : es.all (· < M) = true) :
    deltaPlaneDecode M w h (deltaPlaneEncode M w h es) = es := by
  rw [deltaPlaneDecode, deltaPlaneEncode]
  have hrows : rowsOf w h (((rowsOf w h es).map (deltaRowEncode M)).flatten) =
      (rowsOf w h es).map (deltaRowEncode M) := by
    have hcount : ((rowsOf w h es).map (deltaRowEncode M)).length = h := by
      rw [List.length_map, rowsOf_length]
    have hext := rowsOf_flatten_exact w ((rowsOf w h es).map (deltaRowEncode M)) (by
      intro r hr
      rw [List.mem_map] at hr
      obtain ⟨r0, hr0, hr0e⟩ := hr
      subst hr0e
      rw [deltaRowEncode_length]
      exact rowsOf_mem_length w h es hes r0 hr0)
    rw [hcount] at hext
    exact hext
  rw [hrows, List.map_map]
  have hmapid : ((rowsOf w h es).map (fun r => deltaRowDecode M (deltaRowEncode M r))) =
      List.map id (rowsOf w h es) := by
    apply List.map_congr_left
    intro r hr
    show deltaRowDecode M (deltaRowEncode M r) = r
    apply deltaRowDecode_encode M hM
    rw [List.all_eq_true]
    intro a ha
    rw [decide_eq_true_eq]
    exact all_lt_mem hall (rowsOf_mem_subset w h es hes r hr a ha)
  show ((rowsOf w h es).map (fun r => deltaRowDecode M (deltaRowEncode M r))).flatten = es
  rw [hmapid, List.map_id]
  exact rowsOf_flatten w h es hes

theorem packbitsEncodeF_nilF : ∀ fuel, packbitsEncodeF fuel [] = []
  | 0 => rfl
  | _ + 1 => rfl

theorem packbitsEncodeF_cons (fuel x : Nat) (xs : Bytes) :
    packbitsEncodeF (fuel + 1) (x :: xs) =
      (((x :: xs).take 128).length - 1) ::
        ((x :: xs).take 128 ++ packbitsEncodeF fuel ((x :: xs).drop 128)) := rfl

theorem packbitsEncodeF_length_ge : ∀ (fuel : Nat) (d : Bytes), d.length ≤ fuel →
    d.length ≤ (packbitsEncodeF fuel d).length := by
  intro fuel
  induction fuel with
  | zero =>
    intro d hd
    have : d = [] := List.eq_nil_of_length_eq_zero (Nat.le_zero.mp hd)
    subst this
    simp [packbitsEncodeF_nilF]
  | succ n ih =>
    intro d hd
    cases d with
    | nil => simp
    | cons x xs =>
      rw [packbitsEncodeF_cons]
      have hrec := ih ((x :: xs).drop 128) (by
        simp only [List.length_drop, List.length_cons]
        simp only [List.length_cons] at hd
        omega)
      simp only [List.length_cons, List.length_append, List.length_take,
        List.length_drop] at hrec ⊢
      omega

theorem packbitsEncodeF_length_le : ∀ (fuel : Nat) (d : Bytes), d.length ≤ fuel →
    (packbitsEncodeF fuel d).length ≤ 2 * d.length := by
  intro fuel
  induction fuel with
  | zero =>
    intro d hd
    have : d = [] := List.eq_nil_of_length_eq_zero (Nat.le_zero.mp hd)
    subst this
    simp [packbitsEncodeF_nilF]
  | succ n ih =>
    intro d hd
    cases d with
    | nil => simp [packbitsEncodeF_nilF]
    | cons x xs =>
      rw [packbitsEncodeF_cons]
      have hrec := ih ((x :: xs).drop 128) (by
        simp only [List.length_drop, List.length_cons]
        simp only [List.length_cons] at hd
        omega)
      simp only [List.length_cons, List.length_append, List.length_take,
        List.length_drop] at hrec ⊢
      omega

theorem packbitsEncode_length_le (d : Bytes) :
    (packbitsEncode d).length ≤ 2 * d.length :=
  packbitsEncodeF_length_le d.length d (Nat.le_refl _)

theorem packbitsDecodeF_nil (fuel : Nat) : packbitsDecodeF fuel [] = .ok [] := by
  cases fuel <;> rfl

theorem packbitsDecodeF_succ_cons (fuel n : Nat) (rest : Bytes) :
    packbitsDecodeF (fuel + 1) (n :: rest) =
      (if n ≤ 127 then
        if n + 1 ≤ rest.length then do
          let tail ← packbitsDecodeF fuel (rest.drop (n + 1))
          return rest.take (n + 1) ++ tail
        else .error "truncated packbits literal"
      else if n = 128 then packbitsDecodeF fuel rest
      else
        match rest with
        | [] => .error "truncated packbits run"
        | b :: rest2 => do
          let tail ← packbitsDecodeF fuel rest2
          return List.replicate (257 - n) b ++ tail) := rfl

theorem packbitsDecodeF_cons_lit (fuel n : Nat) (rest : Bytes) (h : n ≤ 127)
    (h2 : n + 1 ≤ rest.length) :
    packbitsDecodeF (fuel + 1) (n :: rest) =
      (do
        let tail ← packbitsDecodeF fuel (rest.drop (n + 1))
        return rest.take (n + 1) ++ tail) := by
  rw [packbitsDecodeF_succ_cons, if_pos h, if_pos h2]

theorem packbitsDecodeF_mono : ∀ (fuel : Nat) (d : Bytes) (v : Bytes),
    packbitsDecodeF fuel d = .ok v → ∀ fuel', fuel ≤ fuel' →
    packbitsDecodeF fuel' d = .ok v := by
  intro fuel
  induction fuel with
  | zero =>
    intro d v h fuel' _
    cases d with
    | nil =>
      rw [packbitsDecodeF_nil] at h
      rw [packbitsDecodeF_nil]
      exact h
    | cons b rest => exact absurd h (by rw [show packbitsDecodeF 0 (b :: rest) =
        .error "packbits decoder out of fuel" from rfl]; intro hc; cases hc)
  | succ n ih =>
    intro d v h fuel' hle
    cases d with
    | nil =>
      rw [packbitsDecodeF_nil] at h
      rw [packbitsDecodeF_nil]
      exact h
    | cons b rest =>
      obtain ⟨m, hm⟩ : ∃ m, fuel' = m + 1 := ⟨fuel' - 1, by omega⟩
      subst hm
      have hnm : n ≤ m := by omega
      by_cases h127 : b ≤ 127
      · by_cases hlen : b + 1 ≤ rest.length
        · rw [packbitsDecodeF_cons_lit n b rest h127 hlen] at h
          rw [packbitsDecodeF_cons_lit m b rest h127 hlen]
          cases hrec : packbitsDecodeF n (rest.drop (b + 1)) with
          | error e => rw [hrec, ebind_err] at h; exact absurd h (by intro hc; cases hc)
          | ok t =>
            rw [hrec, ebind_ok] at h
            rw [ih _ _ hrec m hnm, ebind_ok]
            exact h
        · rw [packbitsDecodeF_succ_cons, if_pos h127, if_neg hlen] at h
          exact absurd h (by intro hc; cases hc)
      · by_cases h128 : b = 128
        · have hstep : ∀ f, packbitsDecodeF (f + 1) (b :: rest) = packbitsDecodeF f rest := by
            intro f
            rw [packbitsDecodeF_succ_cons, if_neg h127, if_pos h128]
          rw [hstep] at h
          rw [hstep]
          exact ih _ _ h m hnm
        · cases rest with
          | nil =>
            have hstep : ∀ f, packbitsDecodeF (f + 1) [b] =
                .error "truncated packbits run" := by
              intro f
              rw [packbitsDecodeF_succ_cons, if_neg h127, if_neg h128]
            rw [hstep] at h
            exact absurd h (by intro hc; cases hc)
          | cons b2 rest2 =>
            have hstep : ∀ f, packbitsDecodeF (f + 1) (b :: b2 :: rest2) =
                (do
                  let tail ← packbitsDecodeF f rest2
                  return List.replicate (257 - b) b2 ++ tail) := by
              intro f
              rw [packbitsDecodeF_succ_cons, if_neg h127, if_neg h128]
            rw [hstep] at h
            rw [hstep]
            cases hrec : packbitsDecodeF n rest2 with
            | error e => rw [hrec, ebind_err] at h; exact absurd h (by intro hc; cases hc)
            | ok t =>
              rw [hrec, ebind_ok] at h
              rw [ih _ _ hrec m hnm, ebind_ok]
              exact h

theorem packbitsDecodeF_encodeF : ∀ (N : Nat) (d rest v : Bytes) (fuel : Nat),
    d.length ≤ N → packbitsDecodeF fuel rest = .ok v →
    packbitsDecodeF (d.length + fuel) (packbitsEncodeF N d ++ rest) = .ok (d ++ v) := by
  intro N
  induction N with
  | zero =>
    intro d rest v fuel hd hrest
    have : d = [] := List.eq_nil_of_length_eq_zero (Nat.le_zero.mp hd)
    subst this
    simpa using hrest
  | succ m ih =>
    intro d rest v fuel hd hrest
    cases d with
    | nil => simpa using hrest
    | cons x xs =>
      rw [packbitsEncodeF_cons]
      have hc1 : 1 ≤ ((x :: xs).take 128).length := by
        simp only [List.length_take, List.length_cons]
        omega
      have hc128 : ((x :: xs).take 128).length ≤ 128 := by
        simp only [List.length_take]
        omega
      obtain ⟨L, hL⟩ : ∃ L, (x :: xs).length + fuel = L + 1 :=
        ⟨(x :: xs).length + fuel - 1, by simp only [List.length_cons]; omega⟩
      rw [hL, List.cons_append, packbitsDecodeF_cons_lit L _ _ (by omega) (by
        rw [show ((x :: xs).take 128).length - 1 + 1 = ((x :: xs).take 128).length
          from by omega]
        simp only [List.length_append]
        omega)]
      rw [show ((x :: xs).take 128).length - 1 + 1 = ((x :: xs).take 128).length
        from by omega]
      have hav := readAvail_append ((x :: xs).take 128)
        (packbitsEncodeF m ((x :: xs).drop 128) ++ rest) ((x :: xs).take 128).length rfl
      simp only [readAvail, Prod.mk.injEq] at hav
      rw [List.append_assoc, hav.1, hav.2]
      have hihlen : ((x :: xs).drop 128).length ≤ m := by
        simp only [List.length_drop, List.length_cons]
        simp only [List.length_cons] at hd
        omega
      have hihres := ih ((x :: xs).drop 128) rest v fuel hihlen hrest
      have hmono := packbitsDecodeF_mono _ _ _ hihres L (by
        simp only [List.length_drop, List.length_take, List.length_cons] at hL ⊢
        omega)
      rw [hmono, ebind_ok]
      rw [← List.append_assoc, List.take_append_drop]
      rfl

theorem packbitsDecode_encodes (rs : List Bytes) :
    packbitsDecodeF (((rs.map packbitsEncode).flatten).length)
      ((rs.map packbitsEncode).flatten) = .ok rs.flatten := by
  induction rs with
  | nil => rfl
  | cons r rest ih =>
    simp only [List.map_cons, List.flatten_cons]
    have hres := packbitsDecodeF_encodeF r.length r ((rest.map packbitsEncode).flatten)
      rest.flatten ((rest.map packbitsEncode).flatten).length (Nat.le_refl _) ih
    have hge := packbitsEncodeF_length_ge r.length r (Nat.le_refl _)
    exact packbitsDecodeF_mono _ _ _ hres _ (by
      simp only [List.length_append]
      rw [packbitsEncode] at *
      omega)

theorem split4_cons (a b c e : Nat) (rest : Bytes) :
    split4 (a :: b :: c :: e :: rest) =
      (a :: (split4 rest).1, b :: (split4 rest).2.1, c :: (split4 rest).2.2.1,
       e :: (split4 rest).2.2.2) := rfl

theorem join4_cons (a b c e : Nat) (p q r s : Bytes) :
    join4 (a :: p) (b :: q) (c :: r) (e :: s) = a :: b :: c :: e :: join4 p q r s := rfl

theorem join4_split4 : ∀ d : Bytes, d.length % 4 = 0 →
    join4 (split4 d).1 (split4 d).2.1 (split4 d).2.2.1 (split4 d).2.2.2 = d
  | [], _ => rfl
  | [_], h => by simp at h
  | [_, _], h => by simp at h
  | [_, _, _], h => by simp at h
  | a :: b :: c :: e :: rest, h => by
    have ih := join4_split4 rest (by
      simp only [List.length_cons] at h
      omega)
    rw [split4_cons]
    show a :: b :: c :: e :: join4 (split4 rest).1 (split4 rest).2.1
      (split4 rest).2.2.1 (split4 rest).2.2.2 = a :: b :: c :: e :: rest
    rw [ih]

theorem split4_lengths : ∀ d : Bytes, d.length % 4 = 0 →
    (split4 d).1.length = d.length / 4 ∧ (split4 d).2.1.length = d.length / 4 ∧
    (split4 d).2.2.1.length = d.length / 4 ∧ (split4 d).2.2.2.length = d.length / 4
  | [], _ => by exact ⟨rfl, rfl, rfl, rfl⟩
  | [_], h => by simp at h
  | [_, _], h => by simp at h
  | [_, _, _], h => by simp at h
  | a :: b :: c :: e :: rest, h => by
    have ih := split4_lengths rest (by
      simp only [List.length_cons] at h
      omega)
    rw [split4_cons]
    simp only [List.length_cons]
    refine ⟨?_, ?_, ?_, ?_⟩ <;>
      [rw [ih.1]; rw [ih.2.1]; rw [ih.2.2.1]; rw [ih.2.2.2]] <;>
      (simp only [List.length_cons] at h ⊢; omega)

theorem split4_concat_all (P : Nat → Bool) : ∀ d : Bytes, d.all P = true →
    ((split4 d).1 ++ (split4 d).2.1 ++ (split4 d).2.2.1 ++ (split4 d).2.2.2).all P = true
  | [], _ => rfl
  | [x], h => by
    simp only [List.all_cons, List.all_nil, Bool.and_true] at h
    show (([] : Bytes) ++ [] ++ [] ++ []).all P = true
    rfl
  | [x, y], h => by
    show (([] : Bytes) ++ [] ++ [] ++ []).all P = true
    rfl
  | [x, y, z], h => by
    show (([] : Bytes) ++ [] ++ [] ++ []).all P = true
    rfl
  | a :: b :: c :: e :: rest, h => by
    simp only [List.all_cons, Bool.and_eq_true] at h
    have ih := split4_concat_all P rest h.2.2.2.2
    rw [split4_cons]
    simp only [List.cons_append, List.all_cons, List.all_append, Bool.and_eq_true] at ih ⊢
    tauto

theorem floatpredRowEncode_length (row : List Nat) :
    (floatpredRowEncode row).length = 4 * row.length := by
  rw [floatpredRowEncode]
  have hrb : (elemsToBytes 4 row).length = row.length * 4 := elemsToBytes_length 4 row
  have hmod : (elemsToBytes 4 row).length % 4 = 0 := by rw [hrb]; omega
  have hsp := split4_lengths (elemsToBytes 4 row) hmod
  rw [deltaRowEncode_length]
  simp only [List.length_append]
  rw [hsp.1, hsp.2.1, hsp.2.2.1, hsp.2.2.2, hrb]
  omega

theorem drop_append_ge (l1 l2 : Bytes) (m : Nat) (hm : l1.length ≤ m) :
    (l1 ++ l2).drop m = l2.drop (m - l1.length) := by
  rw [List.drop_append_eq_append_drop, List.drop_of_length_le hm]
  rfl

theorem take_drop_chunks (p q r s : Bytes) (n : Nat) (hp : p.length = n)
    (hq : q.length = n) (hr : r.length = n) (hs : s.length = n) :
    (p ++ (q ++ (r ++ s))).take n = p ∧
    ((p ++ (q ++ (r ++ s))).drop n).take n = q ∧
    ((p ++ (q ++ (r ++ s))).drop (2 * n)).take n = r ∧
    ((p ++ (q ++ (r ++ s))).drop (3 * n)).take n = s := by
  have h1 := readAvail_append p (q ++ (r ++ s)) n hp
  simp only [readAvail, Prod.mk.injEq] at h1
  have h2 := readAvail_append q (r ++ s) n hq
  simp only [readAvail, Prod.mk.injEq] at h2
  have h3 := readAvail_append r s n hr
  simp only [readAvail, Prod.mk.injEq] at h3
  have hd2 : (p ++ (q ++ (r ++ s))).drop (2 * n) = r ++ s := by
    rw [drop_append_ge _ _ _ (by omega), hp, show 2 * n - n = n from by omega,
      drop_append_ge _ _ _ (by omega), hq, show n - n = 0 from by omega, List.drop_zero]
  have hd3 : (p ++ (q ++ (r ++ s))).drop (3 * n) = s := by
    rw [drop_append_ge _ _ _ (by omega), hp, show 3 * n - n = 2 * n from by omega,
      drop_append_ge _ _ _ (by omega), hq, show 2 * n - n = n from by omega,
      drop_append_ge _ _ _ (by omega), hr, show n - n = 0 from by omega, List.drop_zero]
  refine ⟨h1.1, ?_, ?_, ?_⟩
  · rw [h1.2, h2.1]
  · rw [hd2, h3.1]
  · rw [hd3, List.take_of_length_le (Nat.le_of_eq hs)]

theorem floatpredRowDecode_encode (row : List Nat)
    (hall : row.all (· < 2 ^ 32) = true) :
    floatpredRowDecode row.length (floatpredRowEncode row) = row := by
  rw [floatpredRowEncode, floatpredRowDecode]
  have hrb : (elemsToBytes 4 row).length = row.length * 4 := elemsToBytes_length 4 row
  have hmod : (elemsToBytes 4 row).length % 4 = 0 := by rw [hrb]; omega
  have hsp := split4_lengths (elemsToBytes 4 row) hmod
  have hplen : (split4 (elemsToBytes 4 row)).1.length = row.length := by
    rw [hsp.1, hrb]; omega
  have hqlen : (split4 (elemsToBytes 4 row)).2.1.length = row.length := by
    rw [hsp.2.1, hrb]; omega
  have hrlen : (split4 (elemsToBytes 4 row)).2.2.1.length = row.length := by
    rw [hsp.2.2.1, hrb]; omega
  have hslen : (split4 (elemsToBytes 4 row)).2.2.2.length = row.length := by
    rw [hsp.2.2.2, hrb]; omega
  have hallconc : ((split4 (elemsToBytes 4 row)).1 ++ (split4 (elemsToBytes 4 row)).2.1 ++
      (split4 (elemsToBytes 4 row)).2.2.1 ++ (split4 (elemsToBytes 4 row)).2.2.2).all
      (· < 256) = true :=
    split4_concat_all _ (elemsToBytes 4 row) (validBytes_elemsToBytes 4 row)
  have hdec := deltaRowDecode_encode 256 (by norm_num)
    ((split4 (elemsToBytes 4 row)).1 ++ (split4 (elemsToBytes 4 row)).2.1 ++
      (split4 (elemsToBytes 4 row)).2.2.1 ++ (split4 (elemsToBytes 4 row)).2.2.2) hallconc
  rw [hdec]
  rw [List.append_assoc, List.append_assoc]
  have hch := take_drop_chunks (split4 (elemsToBytes 4 row)).1
    (split4 (elemsToBytes 4 row)).2.1 (split4 (elemsToBytes 4 row)).2.2.1
    (split4 (elemsToBytes 4 row)).2.2.2 row.length hplen hqlen hrlen hslen
  rw [hch.1, hch.2.1, hch.2.2.1, hch.2.2.2]
  rw [join4_split4 (elemsToBytes 4 row) hmod]
  exact bytesToElems_elemsToBytes 4 (by norm_num) row hall

theorem floatpredPlaneEncode_length (w h : Nat) (es : List Nat)
    (hes : es.length = h * w) :
    (floatpredPlaneEncode w h es).length = h * (4 * w) := by
  rw [floatpredPlaneEncode, flatten_map_const_length _ _ (4 * w) (fun r hr => by
    rw [floatpredRowEncode_length, rowsOf_mem_length w h es hes r hr]), rowsOf_length]

theorem floatpredPlaneDecode_encode (w h : Nat) (es : List Nat)
    (hes : es.length = h * w) (hall : es.all (· < 2 ^ 32) = true) :
    floatpredPlaneDecode w h (floatpredPlaneEncode w h es) = es := by
  rw [floatpredPlaneDecode, floatpredPlaneEncode]
  have hrows : rowsOf (4 * w) h (((rowsOf w h es).map floatpredRowEncode).flatten) =
      (rowsOf w h es).map floatpredRowEncode := by
    have hcount : ((rowsOf w h es).map floatpredRowEncode).length = h := by
      rw [List.length_map, rowsOf_length]
    have hext := rowsOf_flatten_exact (4 * w) ((rowsOf w h es).map floatpredRowEncode) (by
      intro r hr
      rw [List.mem_map] at hr
      obtain ⟨r0, hr0, hr0e⟩ := hr
      subst hr0e
      rw [floatpredRowEncode_length, rowsOf_mem_length w h es hes r0 hr0])
    rw [hcount] at hext
    exact hext
  rw [hrows, List.map_map]
  have hmapid : ((rowsOf w h es).map (fun r => floatpredRowDecode w (floatpredRowEncode r))) =
      List.map id (rowsOf w h es) := by
    apply List.map_congr_left
    intro r hr
    show floatpredRowDecode w (floatpredRowEncode r) = r
    rw [← rowsOf_mem_length w h es hes r hr]
    apply floatpredRowDecode_encode
    rw [List.all_eq_true]
    intro a ha
    rw [decide_eq_true_eq]
    exact all_lt_mem hall (rowsOf_mem_subset w h es hes r hr a ha)
  show ((rowsOf w h es).map (fun r => floatpredRowDecode w (floatpredRowEncode r))).flatten = es
  rw [hmapid, List.map_id]
  exact rowsOf_flatten w h es hes

theorem itemsize_pos (dt : DType) : 0 < dt.itemsize := by cases dt <;> decide

theorem flatten_map_length_le {α : Type} (l : List α) (f : α → List Nat) (c : Nat)
    (h : ∀ x ∈ l, (f x).length ≤ c) : ((l.map f).flatten).length ≤ l.length * c := by
  induction l with
  | nil => simp
  | cons x xs ih =>
    simp only [List.map_cons, List.flatten_cons, List.length_append, List.length_cons]
    have h1 := h x (by simp)
    have h2 := ih (fun y hy => h y (by simp [hy]))
    have : (xs.length + 1) * c = xs.length * c + c := by ring
    omega

theorem elemsToBytes_flatten (isz : Nat) (l : List (List Nat)) :
    ((l.map (elemsToBytes isz)).flatten) = elemsToBytes isz l.flatten := by
  induction l with
  | nil => rfl
  | cons x xs ih =>
    simp only [List.map_cons, List.flatten_cons, elemsToBytes_append, ih]

theorem usize_ne_zero (dt : DType) (h w : Nat) (hsz : h * w ≠ 0) :
    h * w * dt.itemsize ≠ 0 := by
  have := itemsize_pos dt
  intro hc
  rcases Nat.mul_eq_zero.mp hc with h1 | h2
  · exact hsz h1
  · omega

theorem decompress_raw (dt : DType) (h w : Nat) (es : List Nat) (bo : ByteOrder)
    (rcw : Nat) (hsz : h * w ≠ 0) (hlen : es.length = h * w)
    (hall : es.all (· < 2 ^ (8 * dt.itemsize)) = true) :
    decompress (elemsToBytes dt.itemsize es) 0 h w dt bo rcw = .ok ⟨dt, h, w, es⟩ := by
  simp only [decompress]
  rw [if_neg (usize_ne_zero dt h w hsz), if_pos trivial,
    if_pos (by rw [elemsToBytes_length, hlen]),
    bytesToElems_elemsToBytes dt.itemsize (itemsize_pos dt) es hall]

theorem decompress_zip (dt : DType) (h w : Nat) (es : List Nat) (bo : ByteOrder)
    (rcw : Nat) (hsz : h * w ≠ 0) (hlen : es.length = h * w)
    (hall : es.all (· < 2 ^ (8 * dt.itemsize)) = true)
    (hlt : (elemsToBytes dt.itemsize es).length < 2 ^ 32) :
    decompress (zlibCompress (elemsToBytes dt.itemsize es)) 2 h w dt bo rcw =
      .ok ⟨dt, h, w, es⟩ := by
  simp only [decompress]
  rw [if_neg (usize_ne_zero dt h w hsz), if_neg (by decide), if_pos trivial,
    zlibDecompress_compress _ hlt, ebind_ok]
  rw [if_pos (by rw [elemsToBytes_length, hlen]),
    bytesToElems_elemsToBytes dt.itemsize (itemsize_pos dt) es hall]

theorem decompress_zipp_f (h w : Nat) (es : List Nat) (bo : ByteOrder)
    (rcw : Nat) (hsz : h * w ≠ 0) (hlen : es.length = h * w)
    (hall : es.all (· < 2 ^ 32) = true)
    (hlt : (floatpredPlaneEncode w h es).length < 2 ^ 32) :
    decompress (zlibCompress (floatpredPlaneEncode w h es)) 3 h w .f bo rcw =
      .ok ⟨.f, h, w, es⟩ := by
  simp only [decompress]
  rw [if_neg (usize_ne_zero .f h w hsz), if_neg (by decide), if_neg (by decide),
    if_pos trivial, zlibDecompress_compress _ hlt, ebind_ok]
  rw [if_pos (by rw [floatpredPlaneEncode_length w h es hlen]; show h * (4 * w) = h * w * 4; ring)]
  rw [floatpredPlaneDecode_encode w h es hlen hall]

theorem decompress_zipp_delta (dt : DType) (hdt : dt = DType.B ∨ dt = DType.H)
    (h w : Nat) (es : List Nat) (bo : ByteOrder) (rcw : Nat)
    (hsz : h * w ≠ 0) (hlen : es.length = h * w)
    (hall : es.all (· < 2 ^ (8 * dt.itemsize)) = true)
    (hlt : (elemsToBytes dt.itemsize
      (deltaPlaneEncode (2 ^ (8 * dt.itemsize)) w h es)).length < 2 ^ 32) :
    decompress (zlibCompress (elemsToBytes dt.itemsize
        (deltaPlaneEncode (2 ^ (8 * dt.itemsize)) w h es))) 3 h w dt bo rcw =
      .ok ⟨dt, h, w, es⟩ := by
  have hM : 0 < 2 ^ (8 * dt.itemsize) := Nat.pos_pow_of_pos _ (by norm_num)
  have hdlen : (deltaPlaneEncode (2 ^ (8 * dt.itemsize)) w h es).length = h * w :=
    deltaPlaneEncode_length _ w h es hlen
  have hdall : (deltaPlaneEncode (2 ^ (8 * dt.itemsize)) w h es).all
      (· < 2 ^ (8 * dt.itemsize)) = true :=
    deltaPlaneEncode_all_lt _ w h hM es hlen hall
  rcases hdt with h1 | h1 <;> subst h1 <;>
    (simp only [decompress]
     rw [if_neg (usize_ne_zero _ h w hsz), if_neg (by decide), if_neg (by decide),
       if_pos trivial, zlibDecompress_compress _ hlt, ebind_ok]
     rw [if_pos (by rw [elemsToBytes_length, hdlen])]
     simp only [bytesToElems_elemsToBytes _ (itemsize_pos _) _ hdall,
       deltaPlaneDecode_encode _ w h hM es hlen hall])

theorem decompress_rle (dt : DType) (h w : Nat) (es : List Nat) (bo : ByteOrder)
    (rcw : Nat) (hsz : h * w ≠ 0) (hlen : es.length = h * w)
    (hall : es.all (· < 2 ^ (8 * dt.itemsize)) = true)
    (sizes : List Nat)
    (hsizes : sizes = ((rowsOf w h es).map fun row =>
      packbitsEncode (elemsToBytes dt.itemsize row)).map List.length) :
    decompress ((sizes.map (packNat bo rcw)).flatten ++
        ((rowsOf w h es).map fun row =>
          packbitsEncode (elemsToBytes dt.itemsize row)).flatten) 1 h w dt bo rcw =
      .ok ⟨dt, h, w, es⟩ := by
  have htablen : ((sizes.map (packNat bo rcw)).flatten).length = h * rcw := by
    rw [flatten_map_const_length _ _ rcw (fun x _ => packNat_length bo rcw x), hsizes,
      List.length_map, List.length_map, rowsOf_length]
  simp only [decompress]
  rw [if_neg (usize_ne_zero dt h w hsz), if_neg (by decide), if_neg (by decide),
    if_neg (by decide), if_pos trivial]
  rw [drop_append_ge _ _ _ (Nat.le_of_eq htablen), htablen, Nat.sub_self, List.drop_zero]
  have hlines : ((rowsOf w h es).map fun row =>
      packbitsEncode (elemsToBytes dt.itemsize row)) =
      ((rowsOf w h es).map (elemsToBytes dt.itemsize)).map packbitsEncode := by
    rw [List.map_map]
    rfl
  rw [hlines, packbitsDecode]
  rw [packbitsDecode_encodes ((rowsOf w h es).map (elemsToBytes dt.itemsize))]
  rw [ebind_ok]
  rw [elemsToBytes_flatten, rowsOf_flatten w h es hlen]
  rw [if_pos (by rw [elemsToBytes_length, hlen]),
    bytesToElems_elemsToBytes dt.itemsize (itemsize_pos dt) es hall]

theorem compress_roundtrip (p : Plane) (k : Int) (bo : ByteOrder) (rcw : Nat)
    (hwf : wfPlane p = true) (hk0 : 0 ≤ k) (hk3 : k ≤ 3)
    (hrw2 : 2 ≤ rcw) (hrw4 : rcw ≤ 4) :
    ∃ body, compress p k bo rcw = .ok body ∧ body.length < 2 ^ 30 ∧
      decompress body k p.height p.width p.dtype bo rcw = .ok p := by
  obtain ⟨dt, h, w, es⟩ := p
  simp only [wfPlane, Bool.and_eq_true, beq_iff_eq, decide_eq_true_eq] at hwf
  obtain ⟨⟨⟨⟨hlen, hall⟩, hnan⟩, hwisz⟩, hh⟩ := hwf
  by_cases hsz : h * w = 0
  · have hes : es = [] := List.eq_nil_of_length_eq_zero (by rw [hlen, hsz])
    subst hes
    refine ⟨[], ?_, by norm_num, ?_⟩
    · simp only [compress]
      rw [if_pos (by simp only [Plane.size]; exact hsz)]
    · simp only [decompress]
      rw [if_pos (by rw [hsz, Nat.zero_mul])]
      rw [hsz]
      rfl
  · have hisz := itemsize_pos dt
    have hbytes_len : (elemsToBytes dt.itemsize es).length = h * w * dt.itemsize := by
      rw [elemsToBytes_length, hlen]
    have hsize_bound : h * w * dt.itemsize ≤ 2 ^ 28 := by
      have heq : h * w * dt.itemsize = h * (w * dt.itemsize) := by ring
      rw [heq]
      calc h * (w * dt.itemsize) ≤ 2 ^ 14 * 2 ^ 14 := Nat.mul_le_mul hh hwisz
      _ = 2 ^ 28 := by norm_num
    have hszB : (Plane.mk dt h w es).size ≠ 0 := by
      simp only [Plane.size]
      exact hsz
    have hk : k = 0 ∨ k = 1 ∨ k = 2 ∨ k = 3 := by omega
    rcases hk with hk | hk | hk | hk <;> subst hk
    · refine ⟨elemsToBytes dt.itemsize es, ?_, ?_, ?_⟩
      · simp only [compress]
        rw [if_neg hszB, if_pos trivial]
      · rw [hbytes_len]
        calc h * w * dt.itemsize ≤ 2 ^ 28 := hsize_bound
        _ < 2 ^ 30 := by norm_num
      · exact decompress_raw dt h w es bo rcw hsz hlen hall
    · have hline_le : ∀ row ∈ rowsOf w h es,
          (packbitsEncode (elemsToBytes dt.itemsize row)).length ≤ 2 * (w * dt.itemsize) := by
        intro row hrow
        have hb := packbitsEncode_length_le (elemsToBytes dt.itemsize row)
        rw [elemsToBytes_length, rowsOf_mem_length w h es hlen row hrow] at hb
        omega
      have hsizes_all : ((((rowsOf w h es).map fun row =>
          packbitsEncode (elemsToBytes dt.itemsize row)).map List.length).all
          (· < 2 ^ (8 * rcw))) = true := by
        rw [List.all_eq_true]
        intro x hx
        rw [List.mem_map] at hx
        obtain ⟨l, hl, hlx⟩ := hx
        rw [List.mem_map] at hl
        obtain ⟨row, hrow, hrowl⟩ := hl
        subst hrowl
        subst hlx
        rw [decide_eq_true_eq]
        have h1 := hline_le row hrow
        have h16 : (2 : Nat) ^ 16 ≤ 2 ^ (8 * rcw) :=
          Nat.pow_le_pow_right (by norm_num) (by omega)
        have h16v : (2 : Nat) ^ 16 = 65536 := by norm_num
        have h14v : (2 : Nat) ^ 14 = 16384 := by norm_num
        omega
      refine ⟨((((rowsOf w h es).map fun row =>
          packbitsEncode (elemsToBytes dt.itemsize row)).map List.length).map
            (packNat bo rcw)).flatten ++
          ((rowsOf w h es).map fun row =>
            packbitsEncode (elemsToBytes dt.itemsize row)).flatten, ?_, ?_, ?_⟩
      · simp only [compress]
        rw [if_neg hszB, if_neg (by decide), if_neg (by decide), if_neg (by decide),
          if_pos trivial, if_pos hsizes_all]
      · have htab : (((((rowsOf w h es).map fun row =>
            packbitsEncode (elemsToBytes dt.itemsize row)).map List.length).map
              (packNat bo rcw)).flatten).length = h * rcw := by
          rw [flatten_map_const_length _ _ rcw (fun x _ => packNat_length bo rcw x),
            List.length_map, List.length_map, rowsOf_length]
        have hflat : (((rowsOf w h es).map fun row =>
            packbitsEncode (elemsToBytes dt.itemsize row)).flatten).length ≤
            h * (2 * (w * dt.itemsize)) := by
          have := flatten_map_length_le (rowsOf w h es)
            (fun row => packbitsEncode (elemsToBytes dt.itemsize row))
            (2 * (w * dt.itemsize)) hline_le
          rw [rowsOf_length] at this
          exact this
        rw [List.length_append, htab]
        have h14v : (2 : Nat) ^ 14 = 16384 := by norm_num
        have h30v : (2 : Nat) ^ 30 = 1073741824 := by norm_num
        have hbound2 : h * (2 * (w * dt.itemsize)) ≤ 2 ^ 14 * (2 * 2 ^ 14) :=
          Nat.mul_le_mul hh (by omega)
        have hb2v : (2 : Nat) ^ 14 * (2 * 2 ^ 14) = 536870912 := by norm_num
        have hhr : h * rcw ≤ 16384 * 4 := Nat.mul_le_mul (by omega) hrw4
        omega
      · exact decompress_rle dt h w es bo rcw hsz hlen hall _ rfl
    · refine ⟨zlibCompress (elemsToBytes dt.itemsize es), ?_, ?_, ?_⟩
      · simp only [compress]
        rw [if_neg hszB, if_neg (by decide), if_pos trivial]
      · rw [zlibCompress_length, hbytes_len]
        have : (2 : Nat) ^ 28 = 268435456 := by norm_num
        have h30v : (2 : Nat) ^ 30 = 1073741824 := by norm_num
        omega
      · exact decompress_zip dt h w es bo rcw hsz hlen hall (by
          rw [hbytes_len]
          have : (2 : Nat) ^ 28 = 268435456 := by norm_num
          have h32v : (2 : Nat) ^ 32 = 4294967296 := by norm_num
          omega)
    · cases dt with
      | f =>
        have henc_len : (floatpredPlaneEncode w h es).length = h * w * 4 := by
          rw [floatpredPlaneEncode_length w h es hlen]
          ring
        refine ⟨zlibCompress (floatpredPlaneEncode w h es), ?_, ?_, ?_⟩
        · simp only [compress]
          rw [if_neg hszB, if_neg (by decide), if_neg (by decide), if_pos trivial]
        · rw [zlibCompress_length, henc_len]
          have h28 : h * w * 4 ≤ 2 ^ 28 := hsize_bound
          have : (2 : Nat) ^ 28 = 268435456 := by norm_num
          have h30v : (2 : Nat) ^ 30 = 1073741824 := by norm_num
          omega
        · exact decompress_zipp_f h w es bo rcw hsz hlen hall (by
            rw [henc_len]
            have h28 : h * w * 4 ≤ 2 ^ 28 := hsize_bound
            have : (2 : Nat) ^ 28 = 268435456 := by norm_num
            have h32v : (2 : Nat) ^ 32 = 4294967296 := by norm_num
            omega)
      | B =>
        have hdlen : (deltaPlaneEncode (2 ^ (8 * DType.B.itemsize)) w h es).length =
            h * w := deltaPlaneEncode_length _ w h es hlen
        have henc_len : (elemsToBytes DType.B.itemsize
            (deltaPlaneEncode (2 ^ (8 * DType.B.itemsize)) w h es)).length =
            h * w * DType.B.itemsize := by
          rw [elemsToBytes_length, hdlen]
        refine ⟨zlibCompress (elemsToBytes DType.B.itemsize
            (deltaPlaneEncode (2 ^ (8 * DType.B.itemsize)) w h es)), ?_, ?_, ?_⟩
        · simp only [compress]
          rw [if_neg hszB, if_neg (by decide), if_neg (by decide), if_pos trivial]
        · rw [zlibCompress_length, henc_len]
          have h28 := hsize_bound
          have : (2 : Nat) ^ 28 = 268435456 := by norm_num
          have h30v : (2 : Nat) ^ 30 = 1073741824 := by norm_num
          omega
        · exact decompress_zipp_delta DType.B (Or.inl rfl) h w es bo rcw hsz hlen hall (by
            rw [henc_len]
            have h28 := hsize_bound
            have : (2 : Nat) ^ 28 = 268435456 := by norm_num
            have h32v : (2 : Nat) ^ 32 = 4294967296 := by norm_num
            omega)
      | H =>
        have hdlen : (deltaPlaneEncode (2 ^ (8 * DType.H.itemsize)) w h es).length =
            h * w := deltaPlaneEncode_length _ w h es hlen
        have henc_len : (elemsToBytes DType.H.itemsize
            (deltaPlaneEncode (2 ^ (8 * DType.H.itemsize)) w h es)).length =
            h * w * DType.H.itemsize := by
          rw [elemsToBytes_length, hdlen]
        refine ⟨zlibCompress (elemsToBytes DType.H.itemsize
            (deltaPlaneEncode (2 ^ (8 * DType.H.itemsize)) w h es)), ?_, ?_, ?_⟩
        · simp only [compress]
          rw [if_neg hszB, if_neg (by decide), if_neg (by decide), if_pos trivial]
        · rw [zlibCompress_length, henc_len]
          have h28 := hsize_bound
          have : (2 : Nat) ^ 28 = 268435456 := by norm_num
          have h30v : (2 : Nat) ^ 30 = 1073741824 := by norm_num
          omega
        · exact decompress_zipp_delta DType.H (Or.inr rfl) h w es bo rcw hsz hlen hall (by
            rw [henc_len]
            have h28 := hsize_bound
            have : (2 : Nat) ^ 28 = 268435456 := by norm_num
            have h32v : (2 : Nat) ^ 32 = 4294967296 := by norm_num
            omega)

set_option maxHeartbeats 2000000 in
theorem mask_write_read (fv : PsdFormat) (m : PsdLayerMask) (hwf : wfMask m = true) :
    ∃ mb, PsdLayerMask.tobytes m fv = .ok mb ∧ (mb.length = 4 ∨ mb.length = 24) ∧
      ∀ rest, PsdLayerMask.read fv (mb ++ rest) = .ok (m, rest) := by
  obtain ⟨dc, rc, fl, umd, umf, vmd, vmf, rf, rb, rr⟩ := m
  cases rc with
  | none =>
    simp only [wfMask, Bool.and_eq_true, beq_iff_eq, Bool.not_eq_true'] at hwf
    obtain ⟨⟨⟨⟨⟨⟨⟨⟨⟨h1, h2⟩, h3⟩, h4⟩, h5⟩, h6⟩, h7⟩, h8⟩, h9⟩, h10, h11⟩ := hwf
    subst h1 h2 h3 h4 h5 h6 h7 h10 h11
    refine ⟨packNat fv.byteorder 4 0, rfl, Or.inl (packNat_length _ _ _), ?_⟩
    intro rest
    rw [PsdLayerMask.read, readNat_append, ebind_ok]
    dsimp only
    rw [show (0 : Nat) % 2 ^ (8 * 4) = 0 from by norm_num, if_pos rfl]
  | some r =>
    obtain ⟨rt, rl2, rb2, rr2⟩ := r
    simp only [wfMask, Bool.and_eq_true, beq_iff_eq, Bool.not_eq_true',
      Bool.or_eq_true, rectInRange, intInRange, decide_eq_true_eq] at hwf
    obtain ⟨hpre, hrect4, hdc⟩ := hwf
    obtain ⟨⟨⟨⟨⟨⟨⟨⟨h1, h2⟩, h3⟩, h4⟩, h5⟩, h6⟩, h7⟩, h8⟩, h9⟩ := hpre
    obtain ⟨⟨⟨⟨ht1, ht2⟩, hl1, hl2⟩, hb1, hb2⟩, hr1, hr2⟩ := hrect4
    subst h1 h2 h3 h4 h5 h6 h7
    refine ⟨packNat fv.byteorder 4 20 ++ (packSInt fv.byteorder 4 rt ++
      (packSInt fv.byteorder 4 rl2 ++ (packSInt fv.byteorder 4 rb2 ++
      (packSInt fv.byteorder 4 rr2 ++
      ((if dc ≠ 0 then 255 else 0) :: fl % 256 :: 0 :: 0 :: ([] : Bytes)))))), ?_, ?_, ?_⟩
    · simp only [PsdLayerMask.tobytes, PsdLayerMask.param_flags, Option.isSome_none,
        Bool.false_eq_true, if_false, if_true]
      norm_num
      simp [packRect, packSInt_length, packNat_length, List.append_assoc]
    · simp [packNat_length, packSInt_length]
    · intro rest
      have eTop : ∀ x : Bytes, readSInt fv.byteorder 4 (packSInt fv.byteorder 4 rt ++ x) =
          .ok (rt, x) := fun x => readSInt_append _ _ _ _ ht1 ht2 (by norm_num)
      have eLeft : ∀ x : Bytes, readSInt fv.byteorder 4 (packSInt fv.byteorder 4 rl2 ++ x) =
          .ok (rl2, x) := fun x => readSInt_append _ _ _ _ hl1 hl2 (by norm_num)
      have eBottom : ∀ x : Bytes, readSInt fv.byteorder 4 (packSInt fv.byteorder 4 rb2 ++ x) =
          .ok (rb2, x) := fun x => readSInt_append _ _ _ _ hb1 hb2 (by norm_num)
      have eRight : ∀ x : Bytes, readSInt fv.byteorder 4 (packSInt fv.byteorder 4 rr2 ++ x) =
          .ok (rr2, x) := fun x => readSInt_append _ _ _ _ hr1 hr2 (by norm_num)
      have e20 : ∀ x : Bytes, readNat fv.byteorder 4 (packNat fv.byteorder 4 20 ++ x) =
          .ok (20, x) := fun x => by rw [readNat_append]; norm_num
      have hstream : (packNat fv.byteorder 4 20 ++ (packSInt fv.byteorder 4 rt ++
          (packSInt fv.byteorder 4 rl2 ++ (packSInt fv.byteorder 4 rb2 ++
          (packSInt fv.byteorder 4 rr2 ++
          ((if dc ≠ 0 then 255 else 0) :: fl % 256 :: 0 :: 0 :: ([] : Bytes))))))) ++ rest =
          packNat fv.byteorder 4 20 ++ (packSInt fv.byteorder 4 rt ++
          (packSInt fv.byteorder 4 rl2 ++ (packSInt fv.byteorder 4 rb2 ++
          (packSInt fv.byteorder 4 rr2 ++
          ((if dc ≠ 0 then 255 else 0) :: fl % 256 :: 0 :: 0 :: rest))))) := by
        simp [List.append_assoc]
      rw [hstream, PsdLayerMask.read]
      simp only [e20, eTop, eLeft, eBottom, eRight, readByte, ebind_ok, ebind_pure,
        Nat.mod_eq_of_lt h8, h9, if_true, if_false, Bool.false_eq_true, reduceIte]
      rcases hdc with hdc | hdc <;> subst hdc <;> norm_num

theorem readExact_of_le (n : Nat) (d : Bytes) (h : n ≤ d.length) :
    readExact n d = .ok (d.take n, d.drop n) := by
  rw [readExact, if_pos h]

theorem readNat_of_le (bo : ByteOrder) (w : Nat) (d : Bytes) (h : w ≤ d.length) :
    readNat bo w d = .ok (unpackNat bo (d.take w), d.drop w) := by
  rw [readNat, readExact_of_le w d h, ebind_ok]
  rfl

theorem readSInt_of_le (bo : ByteOrder) (w : Nat) (d : Bytes) (h : w ≤ d.length) :
    readSInt bo w d = .ok (unpackSInt bo w (d.take w), d.drop w) := by
  rw [readSInt, readExact_of_le w d h, ebind_ok]
  rfl

theorem userMask_read_of_len (fv : PsdFormat) (d : Bytes) (hlen : 13 ≤ d.length) :
    ∃ u d2, PsdUserMask.read fv d = .ok (u, d2) := by
  have hcomp : ∀ (cs : Int) (dd : Bytes), 2 ≤ dd.length → ∃ v : Int,
      (if cs = 7 then readSInt fv.byteorder 2 dd
       else do
         let (v, dd) ← readNat fv.byteorder 2 dd
         pure ((v : Int), dd)) = .ok (v, dd.drop 2) := by
    intro cs dd hdd
    by_cases h7 : cs = 7
    · exact ⟨_, by rw [if_pos h7, readSInt_of_le _ _ _ hdd]⟩
    · refine ⟨((unpackNat fv.byteorder (dd.take 2) : Nat) : Int), ?_⟩
      rw [if_neg h7, readNat_of_le _ _ _ hdd, ebind_ok]
      rfl
  rw [PsdUserMask.read, readSInt_of_le _ _ _ (by omega), ebind_ok]
  dsimp only
  obtain ⟨c1, hc1⟩ := hcomp (unpackSInt fv.byteorder 2 (d.take 2)) (d.drop 2) (by
    simp only [List.length_drop]; omega)
  rw [hc1, ebind_ok]
  dsimp only
  obtain ⟨c2, hc2⟩ := hcomp (unpackSInt fv.byteorder 2 (d.take 2)) ((d.drop 2).drop 2) (by
    simp only [List.length_drop]; omega)
  rw [hc2, ebind_ok]
  dsimp only
  obtain ⟨c3, hc3⟩ := hcomp (unpackSInt fv.byteorder 2 (d.take 2))
    (((d.drop 2).drop 2).drop 2) (by simp only [List.length_drop]; omega)
  rw [hc3, ebind_ok]
  dsimp only
  obtain ⟨c4, hc4⟩ := hcomp (unpackSInt fv.byteorder 2 (d.take 2))
    ((((d.drop 2).drop 2).drop 2).drop 2) (by simp only [List.length_drop]; omega)
  rw [hc4, ebind_ok]
  dsimp only
  rw [readNat_of_le _ _ _ (by simp only [List.length_drop]; omega), ebind_ok]
  dsimp only
  cases hb : ((((((d.drop 2).drop 2).drop 2).drop 2).drop 2).drop 2) with
  | nil =>
    exact absurd hb (by
      intro hc
      have := congrArg List.length hc
      simp only [List.length_drop, List.length_nil] at this
      omega)
  | cons b rest =>
    exact ⟨_, _, rfl⟩

theorem readSIntList_append (bo : ByteOrder) : ∀ (vs : List Int) (rest : Bytes),
    vs.all (intInRange 4) = true →
    readSIntList bo vs.length ((vs.map (packSInt bo 4)).flatten ++ rest) = .ok (vs, rest) := by
  intro vs
  induction vs with
  | nil => intro rest _; rfl
  | cons v vs ih =>
    intro rest hall
    simp only [List.all_cons, Bool.and_eq_true, intInRange, decide_eq_true_eq] at hall
    obtain ⟨⟨hv1, hv2⟩, hvs⟩ := hall
    simp only [List.length_cons, List.map_cons, List.flatten_cons, List.append_assoc]
    rw [readSIntList, readSInt_append _ _ _ _ hv1 hv2 (by norm_num), ebind_ok]
    dsimp only
    rw [ih rest (by
      rw [List.all_eq_true]
      intro a ha
      rw [List.all_eq_true] at hvs
      exact hvs a ha), ebind_ok]

theorem pascal_write_read (name : Bytes) (hlen : name.length ≤ 255) (rest : Bytes) :
    pascalStringRead 4 (pascalStringWrite 4 name ++ rest) = .ok (name, rest) := by
  have hv : name.take 255 = name := List.take_of_length_le hlen
  rw [pascalStringWrite, hv]
  have hshape : ([name.length % 256] ++ name ++
      List.replicate (alignPad 4 (name.length + 1)) 0) ++ rest =
      name.length % 256 :: (name ++
        (List.replicate (alignPad 4 (name.length + 1)) 0 ++ rest)) := by
    simp [List.append_assoc]
  rw [hshape, pascalStringRead]
  have hm : name.length % 256 = name.length := Nat.mod_eq_of_lt (by omega)
  rw [show readByte (name.length % 256 :: (name ++
      (List.replicate (alignPad 4 (name.length + 1)) 0 ++ rest))) =
      .ok (name.length % 256, name ++
        (List.replicate (alignPad 4 (name.length + 1)) 0 ++ rest)) from rfl, ebind_ok]
  dsimp only
  rw [hm, if_neg (by omega)]
  rw [readAvail_append name (List.replicate (alignPad 4 (name.length + 1)) 0 ++ rest)
    name.length rfl]
  dsimp only
  rw [if_neg (by intro hc; exact hc rfl)]
  rw [drop_append_ge _ _ _ (by rw [List.length_replicate])]
  rw [List.length_replicate, Nat.sub_self, List.drop_zero]

theorem readChannelHeaders_append (fv : PsdFormat) : ∀ (ps : List (Int × Nat)) (rest : Bytes),
    (∀ q ∈ ps, -3 ≤ q.1 ∧ q.1 ≤ 9 ∧ q.2 < 2 ^ (8 * fv.sizewidth)) →
    readChannelHeaders fv ps.length
      ((ps.map fun q => packSInt fv.byteorder 2 q.1 ++
        packNat fv.byteorder fv.sizewidth q.2).flatten ++ rest) =
      .ok (ps.map fun q => ⟨q.1, 0, none, q.2⟩, rest) := by
  intro ps
  induction ps with
  | nil => intro rest _; rfl
  | cons q ps ih =>
    intro rest hall
    have hq := hall q (List.mem_cons_self q ps)
    simp only [List.length_cons, List.map_cons, List.flatten_cons, List.append_assoc]
    rw [readChannelHeaders, PsdChannel.read]
    rw [readSInt_append _ _ _ _ (by
        have : -(2 : Int) ^ (8 * 2 - 1) = -32768 := by norm_num
        omega) (by
        have : (2 : Int) ^ (8 * 2 - 1) = 32768 := by norm_num
        omega) (by norm_num), ebind_ok]
    dsimp only
    rw [if_neg (by omega)]
    rw [readNat_append, Nat.mod_eq_of_lt hq.2.2, ebind_ok]
    dsimp only
    rw [ebind_ok]
    dsimp only
    rw [ih rest (fun x hx => hall x (List.mem_cons_of_mem q hx)), ebind_ok]

theorem emod65536_small (k : Int) (hk0 : 0 ≤ k) (hk3 : k ≤ 3) :
    ((k.emod 65536).toNat : Int) = k ∧ (k.emod 65536).toNat < 2 ^ 16 := by
  have h1 : k.emod 65536 = k := Int.emod_eq_of_lt hk0 (by omega)
  constructor
  · rw [h1]
    exact Int.toNat_of_nonneg hk0
  · rw [h1]
    omega

theorem read_image_of_written (fv : PsdFormat) (shape : Nat × Nat) (dt : DType)
    (cid : Int) (k : Int) (hk0 : 0 ≤ k) (hk3 : k ≤ 3) (body : Bytes) (p : Plane)
    (hdec : decompress body k shape.1 shape.2 dt fv.byteorder (rleCountWidth fv) = .ok p)
    (rest : Bytes) :
    PsdChannel.read_image fv shape dt ⟨cid, 0, none, 2 + body.length⟩
      ((packNat fv.byteorder 2 (k.emod 65536).toNat ++ body) ++ rest) =
      .ok (⟨cid, k, some p, 2 + body.length⟩, rest) := by
  obtain ⟨hcast, hlt⟩ := emod65536_small k hk0 hk3
  rw [PsdChannel.read_image]
  rw [if_neg (by intro hc; simp at hc)]
  rw [List.append_assoc, readNat_append, ebind_ok]
  dsimp only
  rw [if_neg (by omega)]
  rw [show 2 + body.length - 2 = body.length from by omega]
  rw [readAvail_append body rest body.length rfl]
  dsimp only
  rw [Nat.mod_eq_of_lt (by
    have : (2 : Nat) ^ (8 * 2) = 65536 := by norm_num
    omega), hcast, hdec, ebind_ok]

theorem psdIntegerKeys_sub_type : ∀ v ∈ psdIntegerKeys, v ∈ psdKeyTypeKeys := by decide

theorem psdWordKeys_sub_type : ∀ v ∈ psdWordKeys, v ∈ psdKeyTypeKeys := by decide

theorem psdWordKeys_not_int : ∀ v ∈ psdWordKeys, v ∉ psdIntegerKeys := by decide

theorem psdLayersKeys_sub_type : ∀ v ∈ psdLayersTypesKeys, v ∈ psdKeyTypeKeys := by decide

theorem sizeFieldWidth_ge4 (fv : PsdFormat) (k : BEnumVal) : 4 ≤ sizeFieldWidth fv k := by
  cases fv <;> (rw [sizeFieldWidth]; split <;> decide)

theorem pow_sizeFieldWidth_ge (fv : PsdFormat) (k : BEnumVal) :
    (2 : Nat) ^ 32 ≤ 2 ^ (8 * sizeFieldWidth fv k) :=
  Nat.pow_le_pow_right (by norm_num) (by have := sizeFieldWidth_ge4 fv k; omega)

theorem dispatch_empty (fv : PsdFormat) (u : Bool) (k : BEnumVal) (payload : Bytes) :
    dispatchStruct fv u k 0 payload = .ok (some (.empty k)) := by
  rw [dispatchStruct, if_pos rfl]

theorem dispatch_integer (fv : PsdFormat) (u : Bool) (k : BEnumVal) (v : Int)
    (rest : Bytes) (hknown : k.known = true) (hmem : k.value ∈ psdIntegerKeys)
    (h1 : -(2 ^ (8 * 4 - 1)) ≤ v) (h2 : v < 2 ^ (8 * 4 - 1)) :
    dispatchStruct fv u k 4 (packSInt fv.byteorder 4 v ++ rest) =
      .ok (some (.integer k v)) := by
  rw [dispatchStruct, if_neg (by omega), BEnumVal.content_of_known k hknown,
    if_pos (psdIntegerKeys_sub_type _ hmem), if_pos hmem,
    readSInt_append _ _ _ _ h1 h2 (by norm_num), ebind_ok]

theorem dispatch_word (fv : PsdFormat) (u : Bool) (k : BEnumVal) (v : Bytes)
    (rest : Bytes) (hknown : k.known = true) (hmem : k.value ∈ psdWordKeys)
    (h4 : v.length = 4) :
    dispatchStruct fv u k 4 (v ++ rest) = .ok (some (.word k v)) := by
  have hav := readAvail_append v rest 4 h4
  simp only [readAvail, Prod.mk.injEq] at hav
  rw [dispatchStruct, if_neg (by omega), BEnumVal.content_of_known k hknown,
    if_pos (psdWordKeys_sub_type _ hmem), if_neg (psdWordKeys_not_int _ hmem),
    if_pos hmem]
  show Except.ok (some (PsdStruct.word k (readAvail 4 (v ++ rest)).1)) = _
  rw [show (readAvail 4 (v ++ rest)).1 = (v ++ rest).take 4 from rfl, hav.1]

theorem dispatch_unknown (fv : PsdFormat) (k : BEnumVal) (v : Bytes) (rest : Bytes)
    (hknown : k.known = true) (hnot : k.value ∉ psdKeyTypeKeys) (h2 : 2 ≤ v.length) :
    dispatchStruct fv true k v.length (v ++ rest) = .ok (some (.unknown k fv v)) := by
  have hav := readAvail_append v rest v.length rfl
  simp only [readAvail, Prod.mk.injEq] at hav
  rw [dispatchStruct, if_neg (by omega), BEnumVal.content_of_known k hknown,
    if_neg hnot, if_pos rfl, hav.1]

theorem structTags_roundtrip (fv : PsdFormat) : ∀ (ss : List PsdStruct),
    ss.all (wfStruct fv) = true →
    ∃ b : Bytes, writeStructTags fv true 2 ss = .ok (b, []) ∧
      ss.length ≤ b.length ∧
      ∀ (fuel : Nat) (rest : Bytes), ss.length < fuel →
        readPsdtagsG dispatchStruct fv true 2 fuel ((b.length : Int)) (b ++ rest) =
          .ok (ss, rest) := by
  intro ss
  induction ss with
  | nil =>
    intro _
    refine ⟨[], rfl, Nat.le_refl _, ?_⟩
    intro fuel rest hfuel
    obtain ⟨m, rfl⟩ : ∃ m, fuel = m + 1 := ⟨fuel - 1, by omega⟩
    rw [readPsdtagsG, if_pos (by norm_num)]
    simp
  | cons s ss ih =>
    intro hall
    simp only [List.all_cons, Bool.and_eq_true] at hall
    obtain ⟨hs, hss⟩ := hall
    obtain ⟨b', hw', hlen', hread'⟩ := ih hss
    cases s with
    | empty k =>
      simp only [wfStruct, wfEnumKey, Bool.and_eq_true, decide_eq_true_eq] at hs
      obtain ⟨⟨hknown, hmem⟩, hrev⟩ := hs
      have hwfk : wfEnumKey psdKeyValues k = true := by
        simp only [wfEnumKey, Bool.and_eq_true, decide_eq_true_eq]
        exact ⟨⟨hknown, hmem⟩, hrev⟩
      have hk4 : k.value.length = 4 := psdKeyValues_length4 k.value hmem
      refine ⟨frameRecord fv 2 k [] ++ b', ?_, ?_, ?_⟩
      · simp only [writeStructTags, structBody, PsdStruct.key, hw', ebind_ok]
      · rw [List.length_append, frameRecord_length fv 2 k [] hk4]
        simp only [List.length_cons, List.length_nil]
        omega
      · intro fuel rest hfuel
        obtain ⟨m, rfl⟩ : ∃ m, fuel = m + 1 := ⟨fuel - 1, by omega⟩
        rw [List.append_assoc]
        rw [readPsdtagsG_frame dispatchStruct fv true 2 m _ k [] (b' ++ rest) hwfk
          (by simp only [List.length_nil]; have := pow_sizeFieldWidth_ge fv k; omega)
          (by
            rw [List.length_append, frameRecord_length fv 2 k [] hk4]
            push_cast
            omega)]
        simp only [List.length_nil]
        rw [dispatch_empty, ebind_ok]
        have hrem : ((frameRecord fv 2 k [] ++ b').length : Int) -
            ((8 + sizeFieldWidth fv k + 0 + alignPad 2 0 : Nat) : Int) =
            (b'.length : Int) := by
          rw [List.length_append, frameRecord_length fv 2 k [] hk4]
          simp only [List.length_nil]
          push_cast
          ring
        rw [hrem, hread' m rest (by simp only [List.length_cons] at hfuel; omega), ebind_ok]
    | integer k v =>
      simp only [wfStruct, wfEnumKey, Bool.and_eq_true, decide_eq_true_eq,
        intInRange] at hs
      obtain ⟨⟨⟨⟨hknown, hmem⟩, hrev⟩, hmemI⟩, hv1, hv2⟩ := hs
      have hwfk : wfEnumKey psdKeyValues k = true := by
        simp only [wfEnumKey, Bool.and_eq_true, decide_eq_true_eq]
        exact ⟨⟨hknown, hmem⟩, hrev⟩
      have hk4 : k.value.length = 4 := psdKeyValues_length4 k.value hmem
      have hblen : (packSInt fv.byteorder 4 v).length = 4 := packSInt_length _ _ _
      refine ⟨frameRecord fv 2 k (packSInt fv.byteorder 4 v) ++ b', ?_, ?_, ?_⟩
      · simp only [writeStructTags, structBody, PsdStruct.key, hw', ebind_ok]
      · rw [List.length_append, frameRecord_length fv 2 k _ hk4]
        simp only [List.length_cons]
        omega
      · intro fuel rest hfuel
        obtain ⟨m, rfl⟩ : ∃ m, fuel = m + 1 := ⟨fuel - 1, by omega⟩
        rw [List.append_assoc]
        rw [readPsdtagsG_frame dispatchStruct fv true 2 m _ k _ (b' ++ rest) hwfk
          (by rw [hblen]; have := pow_sizeFieldWidth_ge fv k; omega)
          (by
            rw [List.length_append, frameRecord_length fv 2 k _ hk4]
            push_cast
            omega)]
        rw [hblen, List.append_assoc,
          dispatch_integer fv true k v _ hknown hmemI hv1 hv2, ebind_ok]
        have hrem : ((frameRecord fv 2 k (packSInt fv.byteorder 4 v) ++ b').length : Int) -
            ((8 + sizeFieldWidth fv k + 4 + alignPad 2 4 : Nat) : Int) =
            (b'.length : Int) := by
          rw [List.length_append, frameRecord_length fv 2 k _ hk4, hblen]
          push_cast
          ring
        rw [hrem, hread' m rest (by simp only [List.length_cons] at hfuel; omega), ebind_ok]
    | word k v =>
      simp only [wfStruct, wfEnumKey, Bool.and_eq_true, decide_eq_true_eq,
        beq_iff_eq] at hs
      obtain ⟨⟨⟨⟨⟨hknown, hmem⟩, hrev⟩, hmemW⟩, h4⟩, hvalid⟩ := hs
      have hwfk : wfEnumKey psdKeyValues k = true := by
        simp only [wfEnumKey, Bool.and_eq_true, decide_eq_true_eq]
        exact ⟨⟨hknown, hmem⟩, hrev⟩
      have hk4 : k.value.length = 4 := psdKeyValues_length4 k.value hmem
      refine ⟨frameRecord fv 2 k v ++ b', ?_, ?_, ?_⟩
      · simp only [writeStructTags, structBody, PsdStruct.key, hw', ebind_ok]
      · rw [List.length_append, frameRecord_length fv 2 k _ hk4]
        simp only [List.length_cons]
        omega
      · intro fuel rest hfuel
        obtain ⟨m, rfl⟩ : ∃ m, fuel = m + 1 := ⟨fuel - 1, by omega⟩
        rw [List.append_assoc]
        rw [readPsdtagsG_frame dispatchStruct fv true 2 m _ k v (b' ++ rest) hwfk
          (by rw [h4]; have := pow_sizeFieldWidth_ge fv k; omega)
          (by
            rw [List.length_append, frameRecord_length fv 2 k _ hk4]
            push_cast
            omega)]
        rw [h4, List.append_assoc, dispatch_word fv true k v _ hknown hmemW h4, ebind_ok]
        have hrem : ((frameRecord fv 2 k v ++ b').length : Int) -
            ((8 + sizeFieldWidth fv k + 4 + alignPad 2 4 : Nat) : Int) =
            (b'.length : Int) := by
          rw [List.length_append, frameRecord_length fv 2 k _ hk4, h4]
          push_cast
          ring
        rw [hrem, hread' m rest (by simp only [List.length_cons] at hfuel; omega), ebind_ok]
    | unknown k kf v =>
      simp only [wfStruct, wfEnumKey, Bool.and_eq_true, decide_eq_true_eq,
        beq_iff_eq] at hs
      obtain ⟨⟨⟨⟨⟨⟨⟨hknown, hmem⟩, hrev⟩, hnot⟩, hkf⟩, h2v⟩, h31⟩, hvalid⟩ := hs
      subst kf
      have hwfk : wfEnumKey psdKeyValues k = true := by
        simp only [wfEnumKey, Bool.and_eq_true, decide_eq_true_eq]
        exact ⟨⟨hknown, hmem⟩, hrev⟩
      have hk4 : k.value.length = 4 := psdKeyValues_length4 k.value hmem
      refine ⟨frameRecord fv 2 k v ++ b', ?_, ?_, ?_⟩
      · simp only [writeStructTags, Bool.not_true, structBody, PsdStruct.key]
        rw [if_neg (by simp), if_neg (by simp)]
        rw [if_neg (by
          rintro (hc | hc)
          · omega
          · exact hc rfl), hw', ebind_ok, ebind_ok]
      · rw [List.length_append, frameRecord_length fv 2 k _ hk4]
        simp only [List.length_cons]
        omega
      · intro fuel rest hfuel
        obtain ⟨m, rfl⟩ : ∃ m, fuel = m + 1 := ⟨fuel - 1, by omega⟩
        rw [List.append_assoc]
        rw [readPsdtagsG_frame dispatchStruct fv true 2 m _ k v (b' ++ rest) hwfk
          (by have := pow_sizeFieldWidth_ge fv k; omega)
          (by
            rw [List.length_append, frameRecord_length fv 2 k _ hk4]
            push_cast
            omega)]
        rw [List.append_assoc, dispatch_unknown fv k v _ hknown hnot h2v, ebind_ok]
        have hrem : ((frameRecord fv 2 k v ++ b').length : Int) -
            ((8 + sizeFieldWidth fv k + v.length +
              alignPad 2 v.length : Nat) : Int) = (b'.length : Int) := by
          rw [List.length_append, frameRecord_length fv 2 k _ hk4]
          push_cast
          ring
        rw [hrem, hread' m rest (by simp only [List.length_cons] at hfuel; omega), ebind_ok]

theorem fvalEq_refl (a : FVal) (h : a ≠ FVal.nan) : fvalEq a a = true := by
  cases a with
  | nan => exact absurd rfl h
  | posInf => rfl
  | negInf => rfl
  | fin q => simp [fvalEq]

theorem fvalOf_ne_nan (x : Nat) (h : isNaN32 x = false) : fvalOf 8 23 x ≠ FVal.nan := by
  rw [fvalOf]
  simp only [isNaN32, Bool.and_eq_false_iff, decide_eq_false_iff_not, ne_eq,
    Decidable.not_not] at h
  by_cases he : x / 2 ^ 23 % 2 ^ 8 = 2 ^ 8 - 1
  · rw [if_pos he]
    have hm : x % 2 ^ 23 = 0 := by
      rcases h with h1 | h2
      · exact absurd (by rw [he]; norm_num) h1
      · exact h2
    rw [if_pos hm]
    split <;> intro hc <;> cases hc
  · rw [if_neg he]
    intro hc
    cases hc

theorem elemFVal_ne_nan (dt : DType) (x : Nat)
    (hf : dt = DType.f → isNaN32 x = false) : elemFVal dt x ≠ FVal.nan := by
  cases dt with
  | B => intro hc; cases hc
  | H => intro hc; cases hc
  | f => exact fvalOf_ne_nan x (hf rfl)

theorem mem_zip_self {α : Type} : ∀ (l : List α) (ab : α × α), ab ∈ l.zip l → ab.1 = ab.2 := by
  intro l
  induction l with
  | nil => intro ab h; cases h
  | cons x xs ih =>
    intro ab h
    rw [List.zip_cons_cons] at h
    rcases List.mem_cons.mp h with h1 | h2
    · subst h1; rfl
    · exact ih ab h2

theorem arrayEqual_refl (p : Plane) (hwf : wfPlane p = true) :
    arrayEqual (some p) (some p) = true := by
  simp only [wfPlane, Bool.and_eq_true, beq_iff_eq, decide_eq_true_eq] at hwf
  obtain ⟨⟨⟨⟨hlen, hall⟩, hnan⟩, hwisz⟩, hh⟩ := hwf
  simp only [arrayEqual, beq_self_eq_true, Bool.true_and, Bool.and_eq_true,
    List.all_eq_true]
  intro ab hab
  have h12 : ab.1 = ab.2 := mem_zip_self _ ab hab
  rw [← h12]
  apply fvalEq_refl
  apply elemFVal_ne_nan
  intro hdt
  rw [hdt] at hnan
  simp only [beq_self_eq_true, Bool.not_true, Bool.false_or] at hnan
  have hmem := (List.of_mem_zip hab).1
  rw [List.all_eq_true] at hnan
  have := hnan ab.1 hmem
  rw [Bool.not_eq_true'] at this
  exact this

theorem rleCountWidth_bounds (fv : PsdFormat) : 2 ≤ rleCountWidth fv ∧ rleCountWidth fv ≤ 4 := by
  cases fv <;> exact ⟨by decide, by decide⟩

theorem sizewidth_ge4 (fv : PsdFormat) : 4 ≤ fv.sizewidth := by
  cases fv <;> decide

theorem eqListBy_cons {α : Type} (f : α → α → Bool) (a b : α) (as bs : List α) :
    eqListBy f (a :: as) (b :: bs) = (f a b && eqListBy f as bs) := by
  show ((as.length + 1 == bs.length + 1) && ((a, b) :: as.zip bs).all fun p => f p.1 p.2) = _
  rw [show (as.length + 1 == bs.length + 1) = (as.length == bs.length) from by
    rw [Bool.eq_iff_iff]
    simp only [beq_iff_eq]
    omega, List.all_cons]
  rw [eqListBy, Bool.and_left_comm]

theorem channels_roundtrip (fv : PsdFormat) (k : Int) (hk0 : 0 ≤ k) (hk3 : k ≤ 3)
    (dt : DType) (shapeOf : Int → Nat × Nat) :
    ∀ (cs : List PsdChannel),
    (∀ c ∈ cs, wfChannel dt (shapeOf c.channelid) c = true) →
    ∃ (chs : List (Bytes × Bytes)) (hdrs cs2 : List PsdChannel),
      cs.mapM (PsdChannel.tobytes fv (some k)) = .ok chs ∧
      hdrs.length = cs.length ∧
      (∀ rest, readChannelHeaders fv cs.length ((chs.map Prod.fst).flatten ++ rest) =
        .ok (hdrs, rest)) ∧
      (∀ (l2 : PsdLayer), (∀ c : PsdChannel, channelShape l2 c = shapeOf c.channelid) →
        ∀ rest, readChannelImagesLayer fv dt l2 hdrs ((chs.map Prod.snd).flatten ++ rest) =
          .ok (cs2, rest)) ∧
      eqListBy eqChannel cs2 cs = true := by
  intro cs
  induction cs with
  | nil =>
    intro _
    exact ⟨[], [], [], rfl, rfl, fun rest => rfl, fun l2 _ rest => rfl, rfl⟩
  | cons c cs ih =>
    intro hall
    obtain ⟨chs', hdrs', cs2', hmap', hhlen', hrdh', hrdi', heq'⟩ :=
      ih (fun x hx => hall x (List.mem_cons_of_mem c hx))
    have hc := hall c (List.mem_cons_self c cs)
    obtain ⟨cid, comp0, cdata, cdl⟩ := c
    simp only [wfChannel, Bool.and_eq_true, decide_eq_true_eq] at hc
    cases cdata with
    | none => exact absurd hc.2 (by intro hcc; cases hcc)
    | some p =>
      obtain ⟨hcid1, hcid2⟩ := hc.1
      have h2 := hc.2
      simp only [beq_iff_eq, Bool.and_eq_true] at h2
      obtain ⟨⟨⟨hpdt, hph⟩, hpw⟩, hpwf⟩ := h2
      obtain ⟨body, hcomp, hblen, hdecomp⟩ := compress_roundtrip p k fv.byteorder
        (rleCountWidth fv) hpwf hk0 hk3 (rleCountWidth_bounds fv).1 (rleCountWidth_bounds fv).2
      have htb : PsdChannel.tobytes fv (some k) ⟨cid, comp0, some p, cdl⟩ =
          .ok (packSInt fv.byteorder 2 cid ++
            packNat fv.byteorder fv.sizewidth (2 + body.length),
            packNat fv.byteorder 2 (k.emod 65536).toNat ++ body) := by
        rw [PsdChannel.tobytes]
        show (do
          let body2 ← compress p ((some k).getD comp0) fv.byteorder (rleCountWidth fv)
          let imageData := packNat fv.byteorder 2 ((((some k).getD comp0).emod 65536)).toNat ++ body2
          let info := packSInt fv.byteorder 2 cid ++
            packNat fv.byteorder fv.sizewidth imageData.length
          Except.ok (info, imageData)) = _
        rw [show (some k).getD comp0 = k from rfl, hcomp, ebind_ok]
        dsimp only
        rw [List.length_append, packNat_length]
      refine ⟨(packSInt fv.byteorder 2 cid ++
          packNat fv.byteorder fv.sizewidth (2 + body.length),
          packNat fv.byteorder 2 (k.emod 65536).toNat ++ body) :: chs',
        ⟨cid, 0, none, 2 + body.length⟩ :: hdrs',
        ⟨cid, k, some p, 2 + body.length⟩ :: cs2', ?_, ?_, ?_, ?_, ?_⟩
      · rw [List.mapM_cons, htb, ebind_ok, hmap', ebind_ok]
        rfl
      · simp only [List.length_cons, hhlen']
      · intro rest
        simp only [List.length_cons, List.map_cons, List.flatten_cons, List.append_assoc]
        rw [readChannelHeaders, PsdChannel.read]
        rw [readSInt_append _ _ _ _ (by
            have : -(2 : Int) ^ (8 * 2 - 1) = -32768 := by norm_num
            omega) (by
            have : (2 : Int) ^ (8 * 2 - 1) = 32768 := by norm_num
            omega) (by norm_num), ebind_ok]
        dsimp only
        rw [if_neg (by omega)]
        rw [readNat_append, Nat.mod_eq_of_lt (by
          have h32 : (2 : Nat) ^ 32 ≤ 2 ^ (8 * fv.sizewidth) :=
            Nat.pow_le_pow_right (by norm_num) (by have := sizewidth_ge4 fv; omega)
          have h30v : (2 : Nat) ^ 30 = 1073741824 := by norm_num
          have h32v : (2 : Nat) ^ 32 = 4294967296 := by norm_num
          omega), ebind_ok]
        dsimp only
        rw [ebind_ok]
        dsimp only
        rw [hrdh' rest, ebind_ok]
      · intro l2 hsh rest
        simp only [List.map_cons, List.flatten_cons, List.append_assoc]
        rw [readChannelImagesLayer]
        have hshape := hsh (⟨cid, 0, none, 2 + body.length⟩ : PsdChannel)
        have hdec2 : decompress body k (channelShape l2 ⟨cid, 0, none, 2 + body.length⟩).1
            (channelShape l2 ⟨cid, 0, none, 2 + body.length⟩).2 dt fv.byteorder
            (rleCountWidth fv) = .ok p := by
          rw [hshape]
          show decompress body k (shapeOf cid).1 (shapeOf cid).2 dt fv.byteorder
            (rleCountWidth fv) = .ok p
          rw [← hph, ← hpw, ← hpdt]
          exact hdecomp
        have hri := read_image_of_written fv _ dt cid k hk0 hk3 body p hdec2
          ((chs'.map Prod.snd).flatten ++ rest)
        rw [List.append_assoc] at hri
        rw [hri, ebind_ok]
        dsimp only
        rw [hrdi' l2 hsh rest, ebind_ok]
      · rw [eqListBy_cons, heq', Bool.and_true]
        simp only [eqChannel, beq_self_eq_true, Bool.true_and]
        exact arrayEqual_refl p hpwf

theorem eqStruct_refl (s : PsdStruct) : eqStruct s s = true := by
  cases s <;> simp [eqStruct]

theorem eqListBy_refl {α : Type} (f : α → α → Bool) (l : List α)
    (h : ∀ x ∈ l, f x x = true) : eqListBy f l l = true := by
  induction l with
  | nil => rfl
  | cons x xs ih =>
    rw [eqListBy_cons, h x (List.mem_cons_self x xs), Bool.true_and]
    exact ih (fun y hy => h y (List.mem_cons_of_mem x hy))

theorem eqMask_refl_of_wf (m : PsdLayerMask) (hwf : wfMask m = true) :
    eqMask m m = true := by
  obtain ⟨dc, rc, fl, umd, umf, vmd, vmf, rf, rb, rr⟩ := m
  simp only [wfMask, Bool.and_eq_true, beq_iff_eq, Bool.not_eq_true'] at hwf
  obtain ⟨⟨⟨⟨⟨⟨⟨⟨⟨h1, h2⟩, h3⟩, h4⟩, h5⟩, h6⟩, h7⟩, h8⟩, h9⟩, h10⟩ := hwf
  subst h1 h2 h3 h4 h5 h6 h7
  simp [eqMask, eqOptFloat64]

theorem pack4s_of_len4 (b : Bytes) (h : b.length = 4) : pack4s b = b := by
  rw [pack4s]
  have hav := readAvail_append b (List.replicate 4 0) 4 h
  simp only [readAvail, Prod.mk.injEq] at hav
  exact hav.1

theorem drop_append_exact (a b : Bytes) : (a ++ b).drop a.length = b := by
  have hav := readAvail_append a b a.length rfl
  simp only [readAvail, Prod.mk.injEq] at hav
  exact hav.2

theorem take_append_exact (a b : Bytes) : (a ++ b).take a.length = a := by
  have hav := readAvail_append a b a.length rfl
  simp only [readAvail, Prod.mk.injEq] at hav
  exact hav.1

set_option maxHeartbeats 4000000 in
theorem layer_roundtrip (fv : PsdFormat) (k : Int) (hk0 : 0 ≤ k) (hk3 : k ≤ 3)
    (dt : DType) (l : PsdLayer) (hwf : wfLayer fv dt l = true) :
    ∃ (record chdata : Bytes) (hdrs cs2 : List PsdChannel) (m : PsdLayerMask),
      l.mask = some m ∧
      PsdLayer.writeFull fv (some k) true l = .ok (record, chdata, []) ∧
      12 ≤ record.length ∧
      (record.length < 2 ^ 32 →
        ∀ rest, PsdLayer.read fv true (record ++ rest) =
          .ok ({ name := l.name, channels := hdrs, rectangle := l.rectangle,
                 mask := some m, opacity := l.opacity, blendmode := l.blendmode,
                 blending_ranges := l.blending_ranges, clipping := l.clipping,
                 flags := l.flags, info := l.info }, rest)) ∧
      (∀ (l2 : PsdLayer), l2.mask = some m → l2.rectangle = l.rectangle →
        ∀ rest, readChannelImagesLayer fv dt l2 hdrs (chdata ++ rest) = .ok (cs2, rest)) ∧
      eqListBy eqChannel cs2 l.channels = true ∧
      eqMask m m = true := by
  simp only [wfLayer, Bool.and_eq_true, decide_eq_true_eq] at hwf
  obtain ⟨⟨⟨⟨⟨⟨⟨⟨⟨⟨⟨⟨⟨hrect, hnch⟩, hchans⟩, hmask⟩, hop⟩, hcl⟩, hfl⟩, hbm⟩, hr1⟩,
    hr29⟩, hrall⟩, hname255⟩, hnamev⟩, hinfo⟩ := hwf
  obtain ⟨m, hm⟩ : ∃ m, l.mask = some m := by
    cases hmsk : l.mask with
    | none => rw [hmsk] at hmask; exact absurd hmask (by intro hc; cases hc)
    | some m0 => exact ⟨m0, rfl⟩
  rw [hm] at hmask
  obtain ⟨mb, hmtb, hmblen, hmrd⟩ := mask_write_read fv m hmask
  obtain ⟨chs, hdrs, cs2, hmap, hhlen, hrdh, hrdi, heqc⟩ :=
    channels_roundtrip fv k hk0 hk3 dt
      (fun cid => if cid < -1 then m.shapeN else l.shapeN) l.channels (by
        intro c hc
        have hcw := List.all_eq_true.mp hchans c hc
        rw [channelShape, hm] at hcw
        exact hcw)
  obtain ⟨infoB, hstw, hinfolen, hinford⟩ := structTags_roundtrip fv l.info hinfo
  have hbm4 : (l.blendmode.tobytes fv.byteorder).length = 4 := by
    apply BEnumVal.tobytes_length
    simp only [wfEnumKey, Bool.and_eq_true, decide_eq_true_eq] at hbm
    exact blendModeValues_length4 _ hbm.1.2
  have hbmparse : parseBlendMode (l.blendmode.tobytes fv.byteorder) = .ok l.blendmode :=
    parseBytesEnum_tobytes blendModeValues l.blendmode fv.byteorder hbm
  refine ⟨packRect fv.byteorder l.rectangle ++
      packNat fv.byteorder 2 l.channels.length ++
      (chs.map Prod.fst).flatten ++
      (match fv.byteorder with
        | ByteOrder.be => strBytes "8BIM"
        | ByteOrder.le => (strBytes "8BIM").reverse) ++
      pack4s (l.blendmode.tobytes fv.byteorder) ++
      [l.opacity % 256, l.clipping % 256, l.flags % 256, 0] ++
      packNat fv.byteorder 4 (mb ++
        (packNat fv.byteorder 4 (l.blending_ranges.length * 4) ++
          (l.blending_ranges.map (packSInt fv.byteorder 4)).flatten) ++
        pascalStringWrite 4 l.name ++ infoB).length ++
      (mb ++ (packNat fv.byteorder 4 (l.blending_ranges.length * 4) ++
          (l.blending_ranges.map (packSInt fv.byteorder 4)).flatten) ++
        pascalStringWrite 4 l.name ++ infoB),
    (chs.map Prod.snd).flatten, hdrs, cs2, m, hm, ?_, ?_, ?_, ?_, heqc,
    eqMask_refl_of_wf m hmask⟩
  · rw [PsdLayer.writeFull, PsdLayer.write, hmap, ebind_ok]
    dsimp only
    rw [hm]
    dsimp only
    rw [hmtb, ebind_ok]
    rw [if_pos (by
      rcases hmblen with h | h
      · exact Or.inl h
      · exact Or.inr (Or.inl h))]
    rw [ebind_pure, hstw, ebind_ok]
  · simp only [List.length_append, packRect, packSInt_length, packNat_length]
    omega
  · intro h32 rest
    simp only [rectInRange, intInRange, Bool.and_eq_true, decide_eq_true_eq] at hrect
    obtain ⟨⟨⟨⟨ht1, ht2⟩, hl1, hl2⟩, hb1, hb2⟩, hq1, hq2⟩ := hrect
    have hextra32 : (mb ++ (packNat fv.byteorder 4 (l.blending_ranges.length * 4) ++
        (l.blending_ranges.map (packSInt fv.byteorder 4)).flatten) ++
        pascalStringWrite 4 l.name ++ infoB).length < 2 ^ 32 := by
      simp only [List.length_append] at h32 ⊢
      omega
    have eT : ∀ x : Bytes, readSInt fv.byteorder 4
        (packSInt fv.byteorder 4 l.rectangle.top ++ x) = .ok (l.rectangle.top, x) :=
      fun x => readSInt_append _ _ _ _ ht1 ht2 (by norm_num)
    have eL : ∀ x : Bytes, readSInt fv.byteorder 4
        (packSInt fv.byteorder 4 l.rectangle.left ++ x) = .ok (l.rectangle.left, x) :=
      fun x => readSInt_append _ _ _ _ hl1 hl2 (by norm_num)
    have eB : ∀ x : Bytes, readSInt fv.byteorder 4
        (packSInt fv.byteorder 4 l.rectangle.bottom ++ x) = .ok (l.rectangle.bottom, x) :=
      fun x => readSInt_append _ _ _ _ hb1 hb2 (by norm_num)
    have eR : ∀ x : Bytes, readSInt fv.byteorder 4
        (packSInt fv.byteorder 4 l.rectangle.right ++ x) = .ok (l.rectangle.right, x) :=
      fun x => readSInt_append _ _ _ _ hq1 hq2 (by norm_num)
    have eCnt : ∀ x : Bytes, readNat fv.byteorder 2
        (packNat fv.byteorder 2 l.channels.length ++ x) = .ok (l.channels.length, x) :=
      fun x => by
        rw [readNat_append, Nat.mod_eq_of_lt (by
          have : (2 : Nat) ^ (8 * 2) = 65536 := by norm_num
          have : (2 : Nat) ^ 16 = 65536 := by norm_num
          omega)]
    have hsig4 : (match fv.byteorder with
        | ByteOrder.be => strBytes "8BIM"
        | ByteOrder.le => (strBytes "8BIM").reverse).length = 4 := by
      cases fv.byteorder <;> decide
    have eSig : ∀ x : Bytes, readAvail 4 ((match fv.byteorder with
        | ByteOrder.be => strBytes "8BIM"
        | ByteOrder.le => (strBytes "8BIM").reverse) ++ x) =
        ((match fv.byteorder with
        | ByteOrder.be => strBytes "8BIM"
        | ByteOrder.le => (strBytes "8BIM").reverse), x) :=
      fun x => readAvail_append _ _ 4 hsig4
    have hsigcondF : ((match fv.byteorder with
        | ByteOrder.be => strBytes "8BIM"
        | ByteOrder.le => (strBytes "8BIM").reverse) ≠ strBytes "8BIM" ∧
        (match fv.byteorder with
        | ByteOrder.be => strBytes "8BIM"
        | ByteOrder.le => (strBytes "8BIM").reverse) ≠ strBytes "MIB8") = False :=
      eq_false (by cases fv.byteorder <;> decide)
    have eBmAvail : ∀ x : Bytes, readAvail 4 (l.blendmode.tobytes fv.byteorder ++ x) =
        (l.blendmode.tobytes fv.byteorder, x) :=
      fun x => readAvail_append _ _ 4 hbm4
    have hopm : l.opacity % 256 = l.opacity := Nat.mod_eq_of_lt hop
    have hclm : l.clipping % 256 = l.clipping := Nat.mod_eq_of_lt (by omega)
    have hflm : l.flags % 256 = l.flags := Nat.mod_eq_of_lt hfl
    have hclF : (1 < l.clipping) = False := eq_false (by omega)
    have hfillF : ((0 : Nat) ≠ 0) = False := eq_false (by omega)
    have eExtra : ∀ x : Bytes, readNat fv.byteorder 4
        (packNat fv.byteorder 4 (mb ++
          (packNat fv.byteorder 4 (l.blending_ranges.length * 4) ++
            (l.blending_ranges.map (packSInt fv.byteorder 4)).flatten) ++
          pascalStringWrite 4 l.name ++ infoB).length ++ x) =
        .ok ((mb ++ (packNat fv.byteorder 4 (l.blending_ranges.length * 4) ++
            (l.blending_ranges.map (packSInt fv.byteorder 4)).flatten) ++
          pascalStringWrite 4 l.name ++ infoB).length, x) :=
      fun x => by rw [readNat_append, Nat.mod_eq_of_lt hextra32]
    have eBlen : ∀ x : Bytes, readNat fv.byteorder 4
        (packNat fv.byteorder 4 (l.blending_ranges.length * 4) ++ x) =
        .ok (l.blending_ranges.length * 4, x) :=
      fun x => by
        rw [readNat_append, Nat.mod_eq_of_lt (by
          have h1 : (2 : Nat) ^ 29 = 536870912 := by norm_num
          have h2 : (2 : Nat) ^ (8 * 4) = 4294967296 := by norm_num
          omega)]
    have hb4F : ((l.blending_ranges.length * 4) % 4 ≠ 0) = False :=
      eq_false (by simp [Nat.mul_mod_left])
    have hdiv : l.blending_ranges.length * 4 / 4 = l.blending_ranges.length :=
      Nat.mul_div_cancel _ (by norm_num)
    have eRl : ∀ x : Bytes, readSIntList fv.byteorder l.blending_ranges.length
        ((l.blending_ranges.map (packSInt fv.byteorder 4)).flatten ++ x) =
        .ok (l.blending_ranges, x) :=
      fun x => readSIntList_append fv.byteorder l.blending_ranges x hrall
    have ePasc : ∀ x : Bytes, pascalStringRead 4 (pascalStringWrite 4 l.name ++ x) =
        .ok (l.name, x) := fun x => pascal_write_read l.name hname255 x
    have hstream : (packRect fv.byteorder l.rectangle ++
        packNat fv.byteorder 2 l.channels.length ++
        (chs.map Prod.fst).flatten ++
        (match fv.byteorder with
          | ByteOrder.be => strBytes "8BIM"
          | ByteOrder.le => (strBytes "8BIM").reverse) ++
        pack4s (l.blendmode.tobytes fv.byteorder) ++
        [l.opacity % 256, l.clipping % 256, l.flags % 256, 0] ++
        packNat fv.byteorder 4 (mb ++
          (packNat fv.byteorder 4 (l.blending_ranges.length * 4) ++
            (l.blending_ranges.map (packSInt fv.byteorder 4)).flatten) ++
          pascalStringWrite 4 l.name ++ infoB).length ++
        (mb ++ (packNat fv.byteorder 4 (l.blending_ranges.length * 4) ++
            (l.blending_ranges.map (packSInt fv.byteorder 4)).flatten) ++
          pascalStringWrite 4 l.name ++ infoB)) ++ rest =
        packSInt fv.byteorder 4 l.rectangle.top ++
        (packSInt fv.byteorder 4 l.rectangle.left ++
        (packSInt fv.byteorder 4 l.rectangle.bottom ++
        (packSInt fv.byteorder 4 l.rectangle.right ++
        (packNat fv.byteorder 2 l.channels.length ++
        ((chs.map Prod.fst).flatten ++
        ((match fv.byteorder with
          | ByteOrder.be => strBytes "8BIM"
          | ByteOrder.le => (strBytes "8BIM").reverse) ++
        (l.blendmode.tobytes fv.byteorder ++
        (l.opacity % 256 :: l.clipping % 256 :: l.flags % 256 :: 0 ::
        (packNat fv.byteorder 4 (mb ++
          (packNat fv.byteorder 4 (l.blending_ranges.length * 4) ++
            (l.blending_ranges.map (packSInt fv.byteorder 4)).flatten) ++
          pascalStringWrite 4 l.name ++ infoB).length ++
        (mb ++ (packNat fv.byteorder 4 (l.blending_ranges.length * 4) ++
          ((l.blending_ranges.map (packSInt fv.byteorder 4)).flatten ++
          (pascalStringWrite 4 l.name ++ (infoB ++ rest)))))))))))))) := by
      rw [pack4s_of_len4 _ hbm4]
      simp [packRect, List.append_assoc]
    rw [hstream, PsdLayer.read]
    simp only [eT, eL, eB, eR, eCnt, hrdh, eSig, hsigcondF, eBmAvail, hbmparse,
      readByte, ebind_ok, ebind_pure, hopm, hclm, hflm, hclF, hfillF, eExtra,
      hmrd, eBlen, hb4F, hdiv, eRl, ePasc, if_true, if_false, Bool.false_eq_true,
      ite_false, ite_true, not_false_eq_true, reduceIte]
    have hrem : (((mb ++ (packNat fv.byteorder 4 (l.blending_ranges.length * 4) ++
          (List.map (packSInt fv.byteorder 4) l.blending_ranges).flatten) ++
          pascalStringWrite 4 l.name ++ infoB).length : Int) -
        (((mb ++ (packNat fv.byteorder 4 (l.blending_ranges.length * 4) ++
          ((List.map (packSInt fv.byteorder 4) l.blending_ranges).flatten ++
          (pascalStringWrite 4 l.name ++ (infoB ++ rest))))).length -
          (infoB ++ rest).length : Nat) : Int)) = (infoB.length : Int) := by
      simp only [List.length_append]
      omega
    rw [hrem, read_psdtags]
    rw [hinford ((infoB ++ rest).length + 1) rest (by
      simp only [List.length_append]
      omega), ebind_ok]
    have hdEnd : List.drop ((mb ++ (packNat fv.byteorder 4 (l.blending_ranges.length * 4) ++
          (List.map (packSInt fv.byteorder 4) l.blending_ranges).flatten) ++
          pascalStringWrite 4 l.name ++ infoB).length)
        (mb ++ (packNat fv.byteorder 4 (l.blending_ranges.length * 4) ++
          ((List.map (packSInt fv.byteorder 4) l.blending_ranges).flatten ++
          (pascalStringWrite 4 l.name ++ (infoB ++ rest))))) = rest := by
      rw [show (mb ++ (packNat fv.byteorder 4 (l.blending_ranges.length * 4) ++
          ((List.map (packSInt fv.byteorder 4) l.blending_ranges).flatten ++
          (pascalStringWrite 4 l.name ++ (infoB ++ rest))))) =
          (mb ++ (packNat fv.byteorder 4 (l.blending_ranges.length * 4) ++
          (List.map (packSInt fv.byteorder 4) l.blending_ranges).flatten) ++
          pascalStringWrite 4 l.name ++ infoB) ++ rest from by
        simp [List.append_assoc]]
      exact drop_append_exact _ _
    rw [hdEnd]
  · intro l2 hl2m hl2r rest
    apply hrdi l2
    intro c
    rw [channelShape, hl2m]
    dsimp only
    by_cases hcid : c.channelid < -1
    · rw [if_pos hcid, if_pos hcid]
    · rw [if_neg hcid, if_neg hcid]
      rw [PsdLayer.shapeN, PsdLayer.shapeN, hl2r]

theorem eqLayer_build (l : PsdLayer) (nm : Bytes) (cs2 : List PsdChannel)
    (m : PsdLayerMask) (hlm : l.mask = some m) (hmeq : eqMask m m = true)
    (hceq : eqListBy eqChannel cs2 l.channels = true) :
    eqLayer { name := nm, channels := cs2, rectangle := l.rectangle,
              mask := some m, opacity := l.opacity, blendmode := l.blendmode,
              blending_ranges := l.blending_ranges, clipping := l.clipping,
              flags := l.flags, info := l.info } l = true := by
  simp only [eqLayer, eqOptMask, hlm, beq_self_eq_true, Bool.and_eq_true, Bool.true_and]
  exact ⟨⟨hmeq, eqListBy_refl eqStruct l.info (fun s _ => eqStruct_refl s)⟩, hceq⟩

theorem layerlist_roundtrip (fv : PsdFormat) (k : Int) (hk0 : 0 ≤ k) (hk3 : k ≤ 3)
    (dt : DType) : ∀ (ls : List PsdLayer), (∀ l ∈ ls, wfLayer fv dt l = true) →
    ∃ (res : List (Bytes × Bytes × List String)) (hls ls2 : List PsdLayer),
      ls.mapM (PsdLayer.writeFull fv (some k) true) = .ok res ∧
      (res.map (·.2.2)).flatten = [] ∧
      hls.length = ls.length ∧
      ls.length ≤ ((res.map (·.1)).flatten).length ∧
      (((res.map (·.1)).flatten).length < 2 ^ 32 →
        ∀ rest, readLayerRecords fv true ls.length (((res.map (·.1)).flatten) ++ rest) =
          .ok (hls, rest)) ∧
      (∀ rest, readChannelImages fv dt hls (((res.map (·.2.1)).flatten) ++ rest) =
        .ok (ls2, rest)) ∧
      eqListBy eqLayer ls2 ls = true := by
  intro ls
  induction ls with
  | nil =>
    intro _
    exact ⟨[], [], [], rfl, rfl, rfl, by simp, fun _ rest => rfl, fun rest => rfl, rfl⟩
  | cons l ls ih =>
    intro hall
    obtain ⟨res', hls', ls2', hmap', hws', hhlen', hge', hrdr', hrdi', heq'⟩ :=
      ih (fun y hy => hall y (List.mem_cons_of_mem l hy))
    obtain ⟨record, chdata, hdrs, cs2, m, hm, hwfull, h12, hread, himg, heqc, heqm⟩ :=
      layer_roundtrip fv k hk0 hk3 dt l (hall l (List.mem_cons_self l ls))
    refine ⟨(record, chdata, []) :: res',
      { name := l.name, channels := hdrs, rectangle := l.rectangle,
        mask := some m, opacity := l.opacity, blendmode := l.blendmode,
        blending_ranges := l.blending_ranges, clipping := l.clipping,
        flags := l.flags, info := l.info } :: hls',
      ({ name := l.name, channels := cs2, rectangle := l.rectangle,
         mask := some m, opacity := l.opacity, blendmode := l.blendmode,
         blending_ranges := l.blending_ranges, clipping := l.clipping,
         flags := l.flags, info := l.info } : PsdLayer) :: ls2', ?_, ?_, ?_, ?_, ?_, ?_, ?_⟩
    · rw [List.mapM_cons, hwfull, ebind_ok, hmap', ebind_ok]
      rfl
    · simp only [List.map_cons, List.flatten_cons, List.nil_append]
      exact hws'
    · simp only [List.length_cons, hhlen']
    · simp only [List.map_cons, List.flatten_cons, List.length_append, List.length_cons]
      omega
    · intro h32 rest
      simp only [List.map_cons, List.flatten_cons, List.length_append] at h32 ⊢
      simp only [List.length_cons]
      rw [List.append_assoc, readLayerRecords]
      rw [hread (by omega) ((res'.map (·.1)).flatten ++ rest), ebind_ok]
      dsimp only
      rw [hrdr' (by omega) rest, ebind_ok]
    · intro rest
      simp only [List.map_cons, List.flatten_cons]
      rw [List.append_assoc, readChannelImages]
      dsimp only
      rw [himg { name := l.name, channels := hdrs, rectangle := l.rectangle,
                 mask := some m, opacity := l.opacity, blendmode := l.blendmode,
                 blending_ranges := l.blending_ranges, clipping := l.clipping,
                 flags := l.flags, info := l.info } rfl rfl
            ((res'.map (·.2.1)).flatten ++ rest), ebind_ok]
      dsimp only
      rw [hrdi' rest, ebind_ok]
    · rw [eqListBy_cons, heq', Bool.and_true]
      exact eqLayer_build l l.name cs2 m hm heqm heqc

set_option maxHeartbeats 1000000 in
theorem psdlayers_roundtrip (fv : PsdFormat) (k : Int) (hk0 : 0 ≤ k) (hk3 : k ≤ 3)
    (x : PsdLayers) (hwf : wfLayers fv x = true) :
    ∃ body : Bytes, PsdLayers.tobytes fv (some k) true x = .ok (body, []) ∧
      2 ≤ body.length ∧
      (body.length < 2 ^ 32 →
        ∀ rest, ∃ ls2 d2, PsdLayers.read fv x.key true (body ++ rest) = .ok (ls2, d2) ∧
          eqLayersList ls2 x = true) := by
  simp only [wfLayers, Bool.and_eq_true] at hwf
  obtain ⟨⟨⟨⟨hkey, hkin⟩, hlen⟩, htr⟩, hmatch⟩ := hwf
  rw [decide_eq_true_eq] at hlen
  norm_num at hlen
  cases hdt : psdLayersTypes x.key.content with
  | none =>
    rw [hdt] at hmatch
    exact Bool.noConfusion hmatch
  | some dt =>
    rw [hdt] at hmatch
    have hall0 : x.layers.all (wfLayer fv dt) = true := hmatch
    have hall : ∀ l ∈ x.layers, wfLayer fv dt l = true := by
      intro l hl
      exact List.all_eq_true.mp hall0 l hl
    obtain ⟨res, hls, ls2, hmapM, hws, hhlen, hge, hrdr, hrdi, heq⟩ :=
      layerlist_roundtrip fv k hk0 hk3 dt x.layers hall
    have hcases : (x.has_transparency = true ∧
          (if x.has_transparency then (-1 : Int) else 1) * (x.layers.length : Int) =
            -(x.layers.length : Int)) ∨
        (x.has_transparency = false ∧
          (if x.has_transparency then (-1 : Int) else 1) * (x.layers.length : Int) =
            (x.layers.length : Int)) := by
      rcases Bool.eq_false_or_eq_true x.has_transparency with h | h
      · left
        refine ⟨h, ?_⟩
        rw [h, if_pos rfl, neg_one_mul]
      · right
        refine ⟨h, ?_⟩
        rw [h, if_neg (by simp), one_mul]
    have h15 : (2 : Int) ^ (8 * 2 - 1) = 32768 := by norm_num
    have hb1 : -(2 ^ (8 * 2 - 1)) ≤
        (if x.has_transparency then (-1 : Int) else 1) * (x.layers.length : Int) := by
      rw [h15]
      rcases hcases with ⟨_, hse⟩ | ⟨_, hse⟩ <;> rw [hse] <;> omega
    have hb2 : (if x.has_transparency then (-1 : Int) else 1) * (x.layers.length : Int) <
        2 ^ (8 * 2 - 1) := by
      rw [h15]
      rcases hcases with ⟨_, hse⟩ | ⟨_, hse⟩ <;> rw [hse] <;> omega
    have hnabs : ((if x.has_transparency then (-1 : Int) else 1) *
        (x.layers.length : Int)).natAbs = x.layers.length := by
      rcases hcases with ⟨_, hse⟩ | ⟨_, hse⟩ <;> rw [hse] <;> simp
    have hsign : decide ((if x.has_transparency then (-1 : Int) else 1) *
        (x.layers.length : Int) < 0) = x.has_transparency := by
      rcases hcases with ⟨ht, hse⟩ | ⟨ht, hse⟩
      · rw [ht] at htr
        have hne : x.layers ≠ [] := by
          simp only [Bool.not_true, Bool.false_or, Bool.not_eq_true'] at htr
          intro hc
          rw [hc] at htr
          exact Bool.noConfusion htr
        have hpos : 0 < x.layers.length := List.length_pos.mpr hne
        rw [hse, ht, decide_eq_true_eq]
        omega
      · rw [hse, ht, decide_eq_false_iff_not]
        omega
    have heqfull : eqLayersList
        { key := x.key, layers := ls2, has_transparency := x.has_transparency } x = true := by
      simp only [eqLayersList, beq_self_eq_true, Bool.and_eq_true, Bool.true_and,
        Bool.and_true]
      exact heq
    have hreadB : ∀ junk : Bytes, ((res.map (·.1)).flatten).length < 2 ^ 32 →
        PsdLayers.read fv x.key true
          ((packSInt fv.byteorder 2
              ((if x.has_transparency then (-1 : Int) else 1) * (x.layers.length : Int)) ++
            (res.map (·.1)).flatten ++ (res.map (·.2.1)).flatten) ++ junk) =
          .ok ({ key := x.key, layers := ls2, has_transparency := x.has_transparency },
               junk) := by
      intro junk hR32
      rw [PsdLayers.read]
      dsimp only
      simp only [List.append_assoc]
      rw [readSInt_append fv.byteorder 2 _ _ hb1 hb2 (by norm_num), ebind_ok]
      dsimp only
      rw [hnabs]
      rw [hrdr hR32 ((res.map (·.2.1)).flatten ++ junk), ebind_ok]
      dsimp only
      rw [hdt]
      dsimp only
      rw [hrdi junk, ebind_ok]
      rw [hsign]
    by_cases hpar : (packSInt fv.byteorder 2
        ((if x.has_transparency then (-1 : Int) else 1) * (x.layers.length : Int)) ++
        (res.map (·.1)).flatten ++ (res.map (·.2.1)).flatten).length % 2 = 1
    · refine ⟨(packSInt fv.byteorder 2
          ((if x.has_transparency then (-1 : Int) else 1) * (x.layers.length : Int)) ++
          (res.map (·.1)).flatten ++ (res.map (·.2.1)).flatten) ++ [0], ?_, ?_, ?_⟩
      · rw [PsdLayers.tobytes]
        rw [hmapM, ebind_ok]
        dsimp only
        rw [hws, if_pos hpar]
      · simp only [List.length_append, packSInt_length]
        omega
      · intro h32 rest
        simp only [List.length_append, packSInt_length, List.length_cons,
          List.length_nil] at h32
        refine ⟨{ key := x.key, layers := ls2, has_transparency := x.has_transparency },
          [0] ++ rest, ?_, heqfull⟩
        rw [List.append_assoc]
        exact hreadB ([0] ++ rest) (by omega)
    · refine ⟨packSInt fv.byteorder 2
          ((if x.has_transparency then (-1 : Int) else 1) * (x.layers.length : Int)) ++
          (res.map (·.1)).flatten ++ (res.map (·.2.1)).flatten, ?_, ?_, ?_⟩
      · rw [PsdLayers.tobytes]
        rw [hmapM, ebind_ok]
        dsimp only
        rw [hws, if_neg hpar]
      · simp only [List.length_append, packSInt_length]
        omega
      · intro h32 rest
        simp only [List.length_append, packSInt_length] at h32
        exact ⟨{ key := x.key, layers := ls2, has_transparency := x.has_transparency },
          rest, hreadB rest (by omega), heqfull⟩

set_option maxHeartbeats 1000000 in
theorem topLoopF_frame (fv : PsdFormat) (unknown : Bool) (fuel : Nat) (st : TopState)
    (k : BEnumVal) (body rest : Bytes)
    (hk : wfEnumKey psdKeyValues k = true)
    (hb : body.length < 2 ^ (8 * sizeFieldWidth fv k)) :
    topLoopF fv unknown (fuel + 1) st (frameRecord fv 4 k body ++ rest) =
      (if body.length = 0 then
        topLoopF fv unknown fuel { st with info := st.info ++ [.empty k] } rest
      else if k.content ∈ psdLayersTypesKeys ∧ st.layers = none then do
        let (ls, _) ← PsdLayers.read fv k unknown
          (body ++ List.replicate (alignPad 4 body.length) 0 ++ rest)
        topLoopF fv unknown fuel { st with layers := some ls } rest
      else if k.content = strBytes "LMsk" ∧ st.usermask = none then do
        let (um, _) ← PsdUserMask.read fv
          (body ++ List.replicate (alignPad 4 body.length) 0 ++ rest)
        topLoopF fv unknown fuel { st with usermask := some um } rest
      else if k.content ∈ psdKeyTypeKeys then
        if k.content ∈ psdIntegerKeys then do
          let (v, _) ← readSInt fv.byteorder 4
            (body ++ List.replicate (alignPad 4 body.length) 0 ++ rest)
          topLoopF fv unknown fuel { st with info := st.info ++ [.integer k v] } rest
        else if k.content ∈ psdWordKeys then
          topLoopF fv unknown fuel
            { st with info := st.info ++ [.word k
              (readAvail 4 (body ++ List.replicate (alignPad 4 body.length) 0 ++ rest)).1] }
            rest
        else .error "registered structure type not modelled"
      else if unknown then
        topLoopF fv unknown fuel
          { st with info := st.info ++ [.unknown k fv
            ((body ++ List.replicate (alignPad 4 body.length) 0 ++ rest).take body.length)] }
          rest
      else topLoopF fv unknown fuel st rest) := by
  have hk4 : k.value.length = 4 := by
    simp only [wfEnumKey, Bool.and_eq_true, decide_eq_true_eq] at hk
    exact psdKeyValues_length4 k.value hk.1.2
  have hd : frameRecord fv 4 k body ++ rest =
      fv.value ++ (k.tobytes fv.byteorder ++
        (packNat fv.byteorder (sizeFieldWidth fv k) body.length ++
          (body ++ List.replicate (alignPad 4 body.length) 0 ++ rest))) := by
    simp [frameRecord, List.append_assoc]
  have hdrop : (body ++ List.replicate (alignPad 4 body.length) 0 ++ rest).drop
      (body.length + alignPad 4 body.length) = rest := by
    rw [List.append_assoc, List.drop_append_eq_append_drop]
    simp [List.drop_append_eq_append_drop, List.length_replicate]
  rw [topLoopF, hd, readAvail_append _ _ 4 (PsdFormat.value_length fv)]
  dsimp only
  rw [if_neg (by simp)]
  rw [readAvail_append _ _ 4 (BEnumVal.tobytes_length k fv.byteorder 4 hk4),
    parsePsdKey_tobytes k fv.byteorder hk, ebind_ok]
  dsimp only
  rw [readNat_append fv.byteorder (sizeFieldWidth fv k) body.length _, ebind_ok]
  dsimp only
  rw [Nat.mod_eq_of_lt hb, hdrop]

theorem psdIntegerKeys_not_layers : ∀ v ∈ psdIntegerKeys, v ∉ psdLayersTypesKeys := by
  decide

theorem psdWordKeys_not_layers : ∀ v ∈ psdWordKeys, v ∉ psdLayersTypesKeys := by
  decide

theorem psdIntegerKeys_ne_lmsk : ∀ v ∈ psdIntegerKeys, v ≠ strBytes "LMsk" := by
  decide

theorem psdWordKeys_ne_lmsk : ∀ v ∈ psdWordKeys, v ≠ strBytes "LMsk" := by
  decide

theorem lmsk_mem_type : strBytes "LMsk" ∈ psdKeyTypeKeys := by decide

theorem wfEnumKey_content (table : List Bytes) (k : BEnumVal)
    (h : wfEnumKey table k = true) : k.content = k.value := by
  simp only [wfEnumKey, Bool.and_eq_true, decide_eq_true_eq] at h
  exact BEnumVal.content_of_known k h.1.1

set_option maxHeartbeats 1000000 in
theorem topLoop_leaf_step (fv : PsdFormat) (s : PsdStruct)
    (hwf : wfStruct fv s = true) :
    ∃ body : Bytes, structBody fv s = .ok body ∧ body.length < 2 ^ 31 ∧
      ∀ (fuel : Nat) (st : TopState) (rest : Bytes),
        topLoopF fv true (fuel + 1) st (frameRecord fv 4 s.key body ++ rest) =
          topLoopF fv true fuel { st with info := st.info ++ [s] } rest := by
  cases s with
  | integer k v =>
    simp only [wfStruct, intInRange, Bool.and_eq_true, decide_eq_true_eq] at hwf
    obtain ⟨⟨hkey, hmem⟩, hr1, hr2⟩ := hwf
    have hc : k.content = k.value := wfEnumKey_content psdKeyValues k hkey
    refine ⟨packSInt fv.byteorder 4 v, rfl, ?_, ?_⟩
    · rw [packSInt_length]
      norm_num
    · intro fuel st rest
      simp only [PsdStruct.key]
      rw [topLoopF_frame fv true fuel st k (packSInt fv.byteorder 4 v) rest hkey
        (by rw [packSInt_length]
            exact lt_of_lt_of_le (by norm_num) (pow_sizeFieldWidth_ge fv k))]
      rw [packSInt_length, (by decide : alignPad 4 4 = 0), List.replicate_zero,
        List.append_nil, hc]
      rw [if_neg (by omega : ¬(4 = 0))]
      rw [if_neg (fun hcon => psdIntegerKeys_not_layers k.value hmem hcon.1)]
      rw [if_neg (fun hcon => psdIntegerKeys_ne_lmsk k.value hmem hcon.1)]
      rw [if_pos (psdIntegerKeys_sub_type k.value hmem)]
      rw [if_pos hmem]
      rw [readSInt_append fv.byteorder 4 v rest hr1 hr2 (by norm_num), ebind_ok]
  | word k v =>
    simp only [wfStruct, Bool.and_eq_true, decide_eq_true_eq, beq_iff_eq] at hwf
    obtain ⟨⟨⟨hkey, hmem⟩, hlen⟩, hvb⟩ := hwf
    have hc : k.content = k.value := wfEnumKey_content psdKeyValues k hkey
    refine ⟨v, rfl, by omega, ?_⟩
    intro fuel st rest
    simp only [PsdStruct.key]
    rw [topLoopF_frame fv true fuel st k v rest hkey
      (by rw [hlen]; exact lt_of_lt_of_le (by norm_num) (pow_sizeFieldWidth_ge fv k))]
    rw [hlen, (by decide : alignPad 4 4 = 0), List.replicate_zero,
      List.append_nil, hc]
    rw [if_neg (by omega : ¬(4 = 0))]
    rw [if_neg (fun hcon => psdWordKeys_not_layers k.value hmem hcon.1)]
    rw [if_neg (fun hcon => psdWordKeys_ne_lmsk k.value hmem hcon.1)]
    rw [if_pos (psdWordKeys_sub_type k.value hmem)]
    rw [if_neg (psdWordKeys_not_int k.value hmem)]
    rw [if_pos hmem]
    rw [readAvail_append v rest 4 hlen]
  | empty k =>
    refine ⟨[], rfl, by norm_num, ?_⟩
    intro fuel st rest
    simp only [PsdStruct.key]
    rw [topLoopF_frame fv true fuel st k [] rest hwf
      (lt_of_lt_of_le (by norm_num : ([] : Bytes).length < 2 ^ 32)
        (pow_sizeFieldWidth_ge fv k))]
    rw [List.length_nil]
    rw [if_pos rfl]
  | unknown k kf v =>
    simp only [wfStruct, Bool.and_eq_true, decide_eq_true_eq, beq_iff_eq] at hwf
    obtain ⟨⟨⟨⟨⟨hkey, hnot⟩, hkf⟩, h2⟩, h31⟩, hvb⟩ := hwf
    subst kf
    have hc : k.content = k.value := wfEnumKey_content psdKeyValues k hkey
    refine ⟨v, ?_, h31, ?_⟩
    · simp only [structBody]
      rw [if_neg (fun hcon => hcon.elim (fun hle => by omega) (fun hne => hne rfl))]
    · intro fuel st rest
      simp only [PsdStruct.key]
      rw [topLoopF_frame fv true fuel st k v rest hkey
        (lt_of_lt_of_le (lt_trans h31 (by norm_num)) (pow_sizeFieldWidth_ge fv k))]
      rw [hc]
      rw [if_neg (by omega : ¬(v.length = 0))]
      rw [if_neg (fun hcon => hnot (psdLayersKeys_sub_type k.value hcon.1))]
      rw [if_neg (fun hcon => hnot (by rw [hcon.1]; exact lmsk_mem_type))]
      rw [if_neg hnot]
      rw [if_pos rfl]
      rw [List.append_assoc, take_append_exact]

theorem topLoopF_end (fv : PsdFormat) (unknown : Bool) (fuel : Nat) (st : TopState) :
    topLoopF fv unknown (fuel + 1) st [] = .ok (st, []) := by
  rw [topLoopF]
  simp only [readAvail, List.take_nil, List.drop_nil]
  rw [if_pos (fun h : ([] : Bytes) = fv.value => by
    have h4 := PsdFormat.value_length fv
    rw [← h] at h4
    simp at h4)]

theorem writeStructTags_single (fv : PsdFormat) (s : PsdStruct) (body : Bytes)
    (hwf : wfStruct fv s = true) (hsb : structBody fv s = .ok body) :
    writeStructTags fv true 4 [s] = .ok (frameRecord fv 4 s.key body ++ [], []) := by
  cases s with
  | integer k v =>
    simp only [writeStructTags, PsdStruct.key, hsb, ebind_ok]
  | word k v =>
    simp only [writeStructTags, PsdStruct.key, hsb, ebind_ok]
  | empty k =>
    simp only [writeStructTags, PsdStruct.key, hsb, ebind_ok]
  | unknown k kf v =>
    simp only [wfStruct, Bool.and_eq_true, decide_eq_true_eq, beq_iff_eq] at hwf
    obtain ⟨⟨⟨⟨⟨hkey, hnot⟩, hkf⟩, h2⟩, h31⟩, hvb⟩ := hwf
    subst kf
    simp only [writeStructTags, Bool.not_true, PsdStruct.key]
    rw [if_neg (by simp), if_neg (by simp)]
    rw [hsb, ebind_ok, ebind_ok]

set_option maxHeartbeats 800000 in
theorem topLoop_leaf_records (fv : PsdFormat) (kc : Int) :
    ∀ (ss : List PsdStruct), ss.all (wfStruct fv) = true →
    ∃ b : Bytes, write_psdtags fv (some kc) true 4 (ss.map PsdTag.leaf) = .ok (b, []) ∧
      ss.length ≤ b.length ∧
      (∀ (fuel : Nat) (st : TopState), ss.length < fuel →
        topLoopF fv true fuel st b = .ok ({ st with info := st.info ++ ss }, [])) ∧
      (ss ≠ [] → b.take 4 = fv.value) := by
  intro ss
  induction ss with
  | nil =>
    intro _
    refine ⟨[], rfl, Nat.le_refl _, ?_, fun h => absurd rfl h⟩
    intro fuel st hfuel
    obtain ⟨m, rfl⟩ : ∃ m, fuel = m + 1 := ⟨fuel - 1, by omega⟩
    rw [topLoopF_end]
    simp
  | cons s ss ih =>
    intro hall
    simp only [List.all_cons, Bool.and_eq_true] at hall
    obtain ⟨hs, hss⟩ := hall
    obtain ⟨b2, hw2, hlen2, hloop2, _⟩ := ih hss
    obtain ⟨body, hsb, hb31, hstep⟩ := topLoop_leaf_step fv s hs
    refine ⟨frameRecord fv 4 s.key body ++ b2, ?_, ?_, ?_, ?_⟩
    · rw [List.map_cons, write_psdtags,
        writeStructTags_single fv s body hs hsb, ebind_ok]
      dsimp only
      rw [hw2, ebind_ok]
      simp
    · have h4 : 4 ≤ (frameRecord fv 4 s.key body).length := by
        rw [frameRecord]
        simp only [List.length_append, PsdFormat.value_length]
        omega
      simp only [List.length_append, List.length_cons]
      omega
    · intro fuel st hfuel
      simp only [List.length_cons] at hfuel
      obtain ⟨m, rfl⟩ : ∃ m, fuel = m + 1 := ⟨fuel - 1, by omega⟩
      rw [hstep m st b2, hloop2 m _ (by omega)]
      simp only [List.append_assoc, List.singleton_append]
    · intro _
      rw [frameRecord]
      simp only [List.append_assoc]
      rw [← PsdFormat.value_length fv]
      exact take_append_exact fv.value _

theorem userMask_tobytes_length (u : PsdUserMask) (fv : PsdFormat)
    (h4 : u.components.length = 4) : (PsdUserMask.tobytes u fv).length = 14 := by
  have hflat : ∀ cs : List Int, ((cs.map fun c =>
      if u.colorspace = 7 then packSInt fv.byteorder 2 c
      else packNat fv.byteorder 2 c.toNat).flatten).length = 2 * cs.length := by
    intro cs
    induction cs with
    | nil => rfl
    | cons a tl ih =>
      simp only [List.map_cons, List.flatten_cons, List.length_append, ih,
        List.length_cons]
      by_cases h7 : u.colorspace = 7
      · rw [if_pos h7, packSInt_length]
        ring
      · rw [if_neg h7, packNat_length]
        ring
  rw [PsdUserMask.tobytes]
  simp only [List.length_append, packSInt_length, packNat_length, hflat, h4,
    List.length_cons, List.length_nil]

theorem ofBytes_value (fv : PsdFormat) : PsdFormat.ofBytes fv.value = .ok fv := by
  cases fv <;> rfl

theorem lmsk_key_wf : wfEnumKey psdKeyValues ⟨strBytes "LMsk", true⟩ = true := by
  decide

theorem lmsk_key_not_layers :
    (⟨strBytes "LMsk", true⟩ : BEnumVal).content ∉ psdLayersTypesKeys := by
  decide

theorem lmsk_key_content :
    (⟨strBytes "LMsk", true⟩ : BEnumVal).content = strBytes "LMsk" := by
  decide

set_option maxHeartbeats 4000000 in
theorem tiff_roundtrip_of_wf (t : TiffImageSourceData) (fv : PsdFormat) (k : Int)
    (hwf : wfTiff t fv k = true) : roundtripEq t fv k = true := by
  simp only [wfTiff, Bool.and_eq_true, decide_eq_true_eq, beq_iff_eq] at hwf
  obtain ⟨⟨⟨⟨⟨hwl, hinfo⟩, hcomp⟩, hk0⟩, hk3⟩, htbb⟩ := hwf
  obtain ⟨lbody, hltb, hl2, hlread⟩ := psdlayers_roundtrip fv k hk0 hk3 t.layers hwl
  obtain ⟨leafB, hwleaf, hleaflen, hleafloop, _⟩ :=
    topLoop_leaf_records fv k t.info hinfo
  have hkLwf : wfEnumKey psdKeyValues t.layers.key = true := by
    simp only [wfLayers, Bool.and_eq_true] at hwl
    exact hwl.1.1.1.1
  have hmemL : t.layers.key.value ∈ psdLayersTypesKeys := by
    simp only [wfLayers, Bool.and_eq_true, decide_eq_true_eq] at hwl
    exact hwl.1.1.1.2
  have hcL : t.layers.key.content = t.layers.key.value :=
    wfEnumKey_content psdKeyValues t.layers.key hkLwf
  have hk4L : t.layers.key.value.length = 4 := by
    have h := hkLwf
    simp only [wfEnumKey, Bool.and_eq_true, decide_eq_true_eq] at h
    exact psdKeyValues_length4 t.layers.key.value h.1.2
  have hum14 : (PsdUserMask.tobytes t.usermask fv).length = 14 :=
    userMask_tobytes_length t.usermask fv hcomp
  have hw2 : write_psdtags fv (some k) true 4
      (.usermask t.usermask :: t.info.map PsdTag.leaf) =
      .ok (frameRecord fv 4 ⟨strBytes "LMsk", true⟩ (PsdUserMask.tobytes t.usermask fv) ++
        leafB, []) := by
    rw [write_psdtags, hwleaf, ebind_ok]
  have hwp : write_psdtags fv (some k) true 4
      (.layers t.layers :: .usermask t.usermask :: t.info.map PsdTag.leaf) =
      .ok (frameRecord fv 4 t.layers.key lbody ++
        (frameRecord fv 4 ⟨strBytes "LMsk", true⟩ (PsdUserMask.tobytes t.usermask fv) ++
          leafB), []) := by
    rw [write_psdtags, hltb, ebind_ok]
    dsimp only
    rw [hw2, ebind_ok]
    exact rfl
  have htbeq : TiffImageSourceData.tobytes t (some fv) (some k) true =
      .ok (tiffSignature ++
        (frameRecord fv 4 t.layers.key lbody ++
          (frameRecord fv 4 ⟨strBytes "LMsk", true⟩ (PsdUserMask.tobytes t.usermask fv) ++
            leafB)), []) := by
    rw [TiffImageSourceData.tobytes]
    simp only [Option.getD_some]
    rw [hwp, ebind_ok]
  rw [htbeq] at htbb
  have h31 : (tiffSignature ++
      (frameRecord fv 4 t.layers.key lbody ++
        (frameRecord fv 4 ⟨strBytes "LMsk", true⟩ (PsdUserMask.tobytes t.usermask fv) ++
          leafB))).length < 2 ^ 31 := of_decide_eq_true htbb
  have hflen : (frameRecord fv 4 t.layers.key lbody).length =
      8 + sizeFieldWidth fv t.layers.key + lbody.length + alignPad 4 lbody.length :=
    frameRecord_length fv 4 t.layers.key lbody hk4L
  have hmlen : (frameRecord fv 4 ⟨strBytes "LMsk", true⟩
      (PsdUserMask.tobytes t.usermask fv)).length =
      8 + sizeFieldWidth fv ⟨strBytes "LMsk", true⟩ + 14 + alignPad 4 14 := by
    rw [frameRecord_length fv 4 _ _ (by decide), hum14]
  have hsig36 : tiffSignature.length = 36 := by rfl
  have e31 : (2 : Nat) ^ 31 = 2147483648 := by norm_num
  have e32 : (2 : Nat) ^ 32 = 4294967296 := by norm_num
  have hlb32 : lbody.length < 2 ^ 32 := by
    simp only [List.length_append, hsig36] at h31
    omega
  have hbL : lbody.length < 2 ^ (8 * sizeFieldWidth fv t.layers.key) :=
    lt_of_lt_of_le hlb32 (pow_sizeFieldWidth_ge fv t.layers.key)
  have hbM : (PsdUserMask.tobytes t.usermask fv).length <
      2 ^ (8 * sizeFieldWidth fv ⟨strBytes "LMsk", true⟩) := by
    rw [hum14]
    exact lt_of_lt_of_le (by norm_num) (pow_sizeFieldWidth_ge fv _)
  obtain ⟨ls2, d2, hlr, heqls⟩ := hlread hlb32
    (List.replicate (alignPad 4 lbody.length) 0 ++
      (frameRecord fv 4 ⟨strBytes "LMsk", true⟩ (PsdUserMask.tobytes t.usermask fv) ++
        leafB))
  obtain ⟨um, dum, humr⟩ := userMask_read_of_len fv
    (PsdUserMask.tobytes t.usermask fv ++ List.replicate (alignPad 4 14) 0 ++ leafB)
    (by simp only [List.length_append, hum14]; omega)
  have hloopAll : ∀ f : Nat, t.info.length < f →
      topLoopF fv true (f + 1 + 1) {}
        (frameRecord fv 4 t.layers.key lbody ++
          (frameRecord fv 4 ⟨strBytes "LMsk", true⟩ (PsdUserMask.tobytes t.usermask fv) ++
            leafB)) =
        .ok ({ layers := some ls2, usermask := some um, info := t.info }, []) := by
    intro f hf
    rw [topLoopF_frame fv true (f + 1) {} t.layers.key lbody _ hkLwf hbL]
    rw [hcL]
    rw [if_neg (by omega : ¬(lbody.length = 0))]
    rw [if_pos (⟨hmemL, rfl⟩ :
      t.layers.key.value ∈ psdLayersTypesKeys ∧ ({} : TopState).layers = none)]
    rw [List.append_assoc]
    rw [hlr, ebind_ok]
    dsimp only
    rw [topLoopF_frame fv true f _ ⟨strBytes "LMsk", true⟩
      (PsdUserMask.tobytes t.usermask fv) leafB lmsk_key_wf hbM]
    rw [hum14]
    rw [if_neg (by omega : ¬((14 : Nat) = 0))]
    rw [if_neg (fun hcon => lmsk_key_not_layers hcon.1)]
    rw [if_pos ⟨lmsk_key_content, rfl⟩]
    rw [humr, ebind_ok]
    dsimp only
    rw [hleafloop f _ hf]
    simp
  have htake4 : ((frameRecord fv 4 t.layers.key lbody) ++
      ((frameRecord fv 4 ⟨strBytes "LMsk", true⟩ (PsdUserMask.tobytes t.usermask fv)) ++
        leafB)).take 4 = fv.value := by
    rw [frameRecord]
    simp only [List.append_assoc]
    rw [← PsdFormat.value_length fv]
    exact take_append_exact fv.value _
  have hge1 : 1 ≤ (frameRecord fv 4 t.layers.key lbody ++
      (frameRecord fv 4 ⟨strBytes "LMsk", true⟩ (PsdUserMask.tobytes t.usermask fv) ++
        leafB)).length := by
    simp only [List.length_append]
    omega
  have hinfof : t.info.length < (frameRecord fv 4 t.layers.key lbody ++
      (frameRecord fv 4 ⟨strBytes "LMsk", true⟩ (PsdUserMask.tobytes t.usermask fv) ++
        leafB)).length - 1 := by
    simp only [List.length_append]
    omega
  have hfromeq : TiffImageSourceData.frombytes true
      (tiffSignature ++
        (frameRecord fv 4 t.layers.key lbody ++
          (frameRecord fv 4 ⟨strBytes "LMsk", true⟩ (PsdUserMask.tobytes t.usermask fv) ++
            leafB))) =
      .ok ({ psdformat := fv, layers := ls2, usermask := um, info := t.info,
             name := some (strBytes "BytesIO") }, []) := by
    rw [TiffImageSourceData.frombytes, TiffImageSourceData.read]
    rw [readAvail_append tiffSignature _ _ rfl]
    dsimp only
    rw [if_neg (by simp)]
    simp only [readAvail]
    rw [htake4]
    rw [if_neg (by rw [PsdFormat.value_length]; omega)]
    rw [ofBytes_value, ebind_ok]
    rw [(by omega : (frameRecord fv 4 t.layers.key lbody ++
        (frameRecord fv 4 ⟨strBytes "LMsk", true⟩ (PsdUserMask.tobytes t.usermask fv) ++
          leafB)).length + 1 =
      ((frameRecord fv 4 t.layers.key lbody ++
        (frameRecord fv 4 ⟨strBytes "LMsk", true⟩ (PsdUserMask.tobytes t.usermask fv) ++
          leafB)).length - 1) + 1 + 1)]
    rw [hloopAll _ hinfof, ebind_ok]
    dsimp only
    exact rfl
  rw [roundtripEq, htbeq]
  dsimp only
  rw [hfromeq]
  dsimp only
  simp only [eqTiff, Bool.and_eq_true]
  have hls := heqls
  simp only [eqLayersList, Bool.and_eq_true] at hls
  obtain ⟨⟨hks, hlls⟩, hts⟩ := hls
  exact ⟨⟨⟨hlls, hks⟩, hts⟩, eqListBy_refl eqStruct t.info (fun s _ => eqStruct_refl s)⟩

set_option maxRecDepth 100000 in
/-- C1 counterexample: a tree decoded from a BE32BIT blob holding one opaque
(unknown-key) record does not round-trip when re-encoded under the LE32BIT
variant: the foreign-format PsdUnknown is skipped by the writer, so the
re-decoded tree lacks it and the library equality fails. -/
theorem C1_foreign_unknown_counterexample :
    TiffImageSourceData.frombytes true
        (tiffSignature ++ frameRecord .BE32BIT 4 ⟨strBytes "Anno", true⟩ [1, 2]) =
      .ok ({ psdformat := .BE32BIT, layers := { key := ⟨strBytes "Layr", true⟩ },
             usermask := {},
             info := [.unknown ⟨strBytes "Anno", true⟩ .BE32BIT [1, 2]],
             name := some (strBytes "BytesIO") },
           ["contains no layers", "contains no usermask"]) ∧
    roundtripEq { psdformat := .BE32BIT,
                  layers := { key := (⟨strBytes "Layr", true⟩ : BEnumVal) },
                  usermask := {},
                  info := [.unknown ⟨strBytes "Anno", true⟩ .BE32BIT [1, 2]],
                  name := some (strBytes "BytesIO") } .LE32BIT 0 = false := by
  constructor
  · decide
  · decide

/-- C1 (amended): under the invariants established by decoding together with
the size bounds recorded in wfTiff, re-encoding a TiffImageSourceData tree
with format variant fv and compression kind k and decoding the result yields
a tree equal to the original under the library equality (layers, channels,
masks and info lists compare equal; advisory fields do not participate). -/
theorem C1_roundtrip_of_wf (t : TiffImageSourceData) (fv : PsdFormat) (k : Int)
    (hwf : wfTiff t fv k = true) : roundtripEq t fv k = true :=
  tiff_roundtrip_of_wf t fv k hwf

set_option maxRecDepth 100000 in
/-- C1 witness: a concrete one-layer tree (8-bit 1x1 channel plane, 20-byte
mask record, one registered integer structure) satisfies wfTiff for the
BE32BIT variant with RLE compression and round-trips. -/
theorem C1_roundtrip_of_wf_witness :
    wfTiff { psdformat := .BE32BIT,
             layers := { key := (⟨strBytes "Layr", true⟩ : BEnumVal),
                         layers := [{ name := strBytes "L",
                                      channels := [{ channelid := 0,
                                                     data := some { dtype := .B, height := 1,
                                                                    width := 1,
                                                                    elems := [7] } }],
                                      rectangle := ⟨0, 0, 1, 1⟩,
                                      mask := some { rectangle := some ⟨0, 0, 1, 1⟩,
                                                     default_color := 0, flags := 0 },
                                      opacity := 255,
                                      blendmode := ⟨strBytes "norm", true⟩,
                                      blending_ranges := [], clipping := 0, flags := 0,
                                      info := [] }] },
             usermask := {},
             info := [.integer ⟨strBytes "lyid", true⟩ 3] } .BE32BIT 1 = true ∧
    roundtripEq { psdformat := .BE32BIT,
                  layers := { key := (⟨strBytes "Layr", true⟩ : BEnumVal),
                              layers := [{ name := strBytes "L",
                                           channels := [{ channelid := 0,
                                                          data := some { dtype := .B,
                                                                         height := 1,
                                                                         width := 1,
                                                                         elems := [7] } }],
                                           rectangle := ⟨0, 0, 1, 1⟩,
                                           mask := some { rectangle := some ⟨0, 0, 1, 1⟩,
                                                          default_color := 0, flags := 0 },
                                           opacity := 255,
                                           blendmode := ⟨strBytes "norm", true⟩,
                                           blending_ranges := [], clipping := 0,
                                           flags := 0,
                                           info := [] }] },
                  usermask := {},
                  info := [.integer ⟨strBytes "lyid", true⟩ 3] } .BE32BIT 1 = true :=
  ⟨by decide, C1_roundtrip_of_wf _ _ _ (by decide)⟩

set_option maxRecDepth 100000 in
/-- C7 counterexample: the blob consisting of exactly the 36-byte signature
contains neither a layer-list nor a user-mask structure, yet the read takes
the empty-stream early return and emits no warning diagnostics at all. -/
theorem C7_signature_only_counterexample :
    TiffImageSourceData.read true tiffSignature =
      .ok ({ psdformat := .BE32BIT, layers := { key := ⟨strBytes "Layr", true⟩ },
             usermask := {}, info := [], name := some (strBytes "BytesIO") }, []) := by
  decide

/-- C7 (amended): for a non-empty ImageSourceData record stream (here: any
canonically written non-empty list of well-formed leaf structures) that
contains no layer-list record and no user-mask record, the read substitutes
the empty default PsdLayers and the default PsdUserMask, completes with an
instance, and emits the two non-fatal warning diagnostics; the signature-only
blob instead returns without any diagnostics. -/
theorem C7_missing_defaults (fv : PsdFormat) (kc : Int) (ss : List PsdStruct)
    (hne : ss ≠ []) (hwf : ss.all (wfStruct fv) = true) :
    ∃ b : Bytes, write_psdtags fv (some kc) true 4 (ss.map PsdTag.leaf) = .ok (b, []) ∧
      TiffImageSourceData.read true (tiffSignature ++ b) =
        .ok ({ psdformat := fv, layers := { key := ⟨strBytes "Layr", true⟩ },
               usermask := {}, info := ss, name := some (strBytes "BytesIO") },
             ["contains no layers", "contains no usermask"]) := by
  obtain ⟨b, hw, hlen, hloop, hhead⟩ := topLoop_leaf_records fv kc ss hwf
  refine ⟨b, hw, ?_⟩
  rw [TiffImageSourceData.read]
  rw [readAvail_append tiffSignature _ _ rfl]
  dsimp only
  rw [if_neg (by simp)]
  simp only [readAvail]
  rw [hhead hne]
  rw [if_neg (by rw [PsdFormat.value_length]; omega)]
  rw [ofBytes_value, ebind_ok]
  rw [hloop (b.length + 1) {} (by omega), ebind_ok]
  dsimp only
  exact rfl

/-- C7 witness: one empty-payload record with the defined key "Anno". -/
theorem C7_missing_defaults_witness :
    ∃ b : Bytes, write_psdtags .BE32BIT (some 0) true 4
        ([(.empty ⟨strBytes "Anno", true⟩ : PsdStruct)].map PsdTag.leaf) = .ok (b, []) ∧
      TiffImageSourceData.read true (tiffSignature ++ b) =
        .ok ({ psdformat := .BE32BIT, layers := { key := ⟨strBytes "Layr", true⟩ },
               usermask := {}, info := [.empty ⟨strBytes "Anno", true⟩],
               name := some (strBytes "BytesIO") },
             ["contains no layers", "contains no usermask"]) :=
  C7_missing_defaults .BE32BIT 0 [.empty ⟨strBytes "Anno", true⟩]
    (by decide) (by decide)

end Psdtags
